import Mathlib

/-!
A shallow embedding of `music-player.c`.

The C program keeps a doubly linked list of `Node`s allocated with `malloc`,
a `MusicPlayer` record local to `main`, and talks to the terminal, to `rand()`
and to the audio libraries (libsndfile, libao).

Modelling conventions
* A pointer to a `Node` is `Option Nat`: `none` is `NULL`, `some a` is the
  address `a`, an index into the heap.  `malloc` returns the first unused
  index and never reuses one; `free` empties the cell.  Dereferencing `NULL`,
  an unallocated or a freed cell is a fault.
* A function that can fault, or whose C loop may fail to terminate, returns
  `Option`; loops that follow `next` pointers take a `fuel` bound and return
  `none` when it runs out.
* C `int` values are mathematical integers (`Int`); `%` is `Int.tmod`
  (truncation towards zero, as in C).  Signed overflow is undefined in C and
  is not modelled: `numSongs` would need more than `2^31 - 1` nodes of over
  400 bytes each to reach it.
* A C string is the `List Char`/`String` of the characters before its
  terminating NUL; text read from the file holds no NUL byte.
* Output and library calls are recorded in order in `Machine.trace`.
-/

namespace MusicPlayerC

/-! ## Data model (lines 8-34) -/

/-- The `Song` struct: four bounded character buffers. -/
structure Song where
  title : String
  artist : String
  duration : String
  filename : String
deriving DecidableEq, Repr

/-- A `Node*`: `none` is `NULL`. -/
abbrev Ptr := Option Nat

/-- The `Node` struct. -/
structure Node where
  song : Song
  next : Ptr
  prev : Ptr
deriving DecidableEq, Repr

/-- The heap of `Node` cells; a freed cell is `none`. -/
abbrev Heap := List (Option Node)

/-- The `MusicPlayer` struct; `device` is the `ao_device*` handle. -/
structure MusicPlayer where
  head : Ptr
  tail : Ptr
  numSongs : Int
  currentSong : Ptr
  isPlaying : Int
  playlistName : String
  device : Option Nat
deriving DecidableEq, Repr

/-- An argument of a `printf` call. -/
inductive Arg where
  | int (i : Int)
  | str (s : String)
deriving DecidableEq, Repr

/-- Observable events: terminal output and calls into the audio libraries. -/
inductive Event where
  | printf (fmt : String) (args : List Arg)
  | sfOpen (filename : String) (ok : Bool)
  | sfClose
  | sfReadShort
  | aoOpenLive (dev : Option Nat)
  | aoPlay (dev : Nat)
  | aoClose (dev : Nat)
  | aoShutdown
  | aoInitialize
deriving DecidableEq, Repr

/-- The whole program state: node heap, the player record of `main`, the
events so far and the number of `rand()` calls made. -/
structure Machine where
  heap : Heap
  player : MusicPlayer
  trace : List Event
  randCalls : Nat
deriving DecidableEq, Repr

/-- What the audio collaborators answer during one `playSong` call. -/
structure Audio where
  sfOpenOk : Bool
  aoDevice : Option Nat
  bufferOk : Bool
deriving DecidableEq, Repr

/-! ## Heap access -/

/-- Read `*p`; a fault (`none`) when `p` is `NULL`, unallocated or freed. -/
def deref (h : Heap) : Ptr → Option Node
  | none => none
  | some a =>
    match h[a]? with
    | some (some n) => some n
    | _ => none

/-- Update `*p` in place with `f`; a fault when `p` cannot be dereferenced. -/
def modify (h : Heap) (p : Ptr) (f : Node → Node) : Option Heap :=
  match p with
  | none => none
  | some a =>
    match deref h (some a) with
    | none => none
    | some n => some (h.set a (some (f n)))

/-- Release the cell at `a`, as `free` does. -/
def free (h : Heap) (a : Nat) : Heap := h.set a none

/-! ## createNode, addSong, displayPlaylist (lines 36-68) -/

/-- Source `createNode`: allocate a node holding `song` with both links
`NULL`.  The `malloc` failure branch ends the process (`exit`), so the
embedding covers the runs in which allocation succeeds. -/
def createNode (h : Heap) (song : Song) : Heap × Nat :=
  (h ++ [some { song := song, next := none, prev := none }], h.length)

/-- Source `addSong`. -/
def addSong (m : Machine) (song : Song) : Option Machine :=
  let (h1, newNode) := createNode m.heap song
  match m.player.head with
  | none =>
    some { m with
      heap := h1
      player := { m.player with
        head := some newNode, tail := some newNode,
        numSongs := m.player.numSongs + 1 } }
  | some _ => do
    let h2 ← modify h1 (some newNode) (fun n => { n with prev := m.player.tail })
    let h3 ← modify h2 m.player.tail (fun n => { n with next := some newNode })
    some { m with
      heap := h3
      player := { m.player with
        tail := some newNode, numSongs := m.player.numSongs + 1 } }

/-- The format of one playlist line, shared by both display functions. -/
def entryFmt : String := "%d. %s by %s (%s)\n"

/-- The loop `while (current != NULL) { printf(...); current = current->next;
index++; }` of `displayPlaylist` and `displayShuffledPlaylist`. -/
def displayLoop (h : Heap) : Nat → Ptr → Int → Option (List Event)
  | _, none, _ => some []
  | 0, some _, _ => none
  | fuel + 1, some a, index => do
    let n ← deref h (some a)
    let rest ← displayLoop h fuel n.next (index + 1)
    some (Event.printf entryFmt
      [Arg.int index, Arg.str n.song.title, Arg.str n.song.artist,
        Arg.str n.song.duration] :: rest)

/-- Source `displayPlaylist`. -/
def displayPlaylist (fuel : Nat) (m : Machine) : Option Machine := do
  let lines ← displayLoop m.heap fuel m.player.head 1
  some { m with
    trace := m.trace ++
      Event.printf "Current Playlist (%s):\n" [Arg.str m.player.playlistName] :: lines }

/-! ## playSong, stopSong (lines 70-120) -/

/-- Source `playSong`; `audio` says what `sf_open`, `ao_open_live` and the
buffer `malloc` return. -/
def playSong (audio : Audio) (filename : String) (m : Machine) : Machine :=
  let t0 := m.trace ++ [Event.printf "Attempting to play file: %s\n" [Arg.str filename],
    Event.sfOpen filename audio.sfOpenOk]
  if audio.sfOpenOk = false then
    { m with trace := t0 ++ [Event.printf "Failed to open the file: %s\n" [Arg.str filename]] }
  else
    let t1 := t0 ++ [Event.aoOpenLive audio.aoDevice]
    let p1 := { m.player with device := audio.aoDevice }
    match audio.aoDevice with
    | none =>
      { m with player := p1
               trace := t1 ++ [Event.printf "Error opening device.\n" [], Event.sfClose] }
    | some dev =>
      let t2 := t1 ++ [Event.printf "Playing: %s\n" [Arg.str filename]]
      if audio.bufferOk = false then
        { m with player := p1
                 trace := t2 ++ [Event.printf "Memory allocation failed.\n" [],
                   Event.aoClose dev, Event.sfClose] }
      else
        { m with player := p1
                 trace := t2 ++ [Event.sfReadShort, Event.aoPlay dev,
                   Event.aoClose dev, Event.sfClose] }

/-- Source `stopSong`. -/
def stopSong (m : Machine) : Machine :=
  let m1 :=
    match m.player.device with
    | some dev =>
      { m with player := { m.player with device := none }
               trace := m.trace ++ [Event.aoClose dev] }
    | none => m
  { m1 with trace := m1.trace ++ [Event.printf "Song stopped.\n" []] }

/-! ## copyPlaylist, freeCopiedPlaylist, displayShuffledPlaylist (lines 122-174) -/

/-- The `while (current != NULL)` loop of `copyPlaylist`. -/
def copyLoop : Nat → Heap → Ptr → Ptr → Ptr → Option (Heap × Ptr)
  | _, h, none, newHead, _ => some (h, newHead)
  | 0, _, some _, _, _ => none
  | fuel + 1, h, some c, newHead, newTail => do
    let cur ← deref h (some c)
    let (h1, newNode) := createNode h cur.song
    match newHead with
    | none =>
      let cur1 ← deref h1 (some c)
      copyLoop fuel h1 cur1.next (some newNode) (some newNode)
    | some hd =>
      let h2 ← modify h1 newTail (fun n => { n with next := some newNode })
      let h3 ← modify h2 (some newNode) (fun n => { n with prev := newTail })
      let cur1 ← deref h3 (some c)
      copyLoop fuel h3 cur1.next (some hd) (some newNode)

/-- Source `copyPlaylist`. -/
def copyPlaylist (fuel : Nat) (h : Heap) (head : Ptr) : Option (Heap × Ptr) :=
  match head with
  | none => some (h, none)
  | some a => copyLoop fuel h (some a) none none

/-- The loop of `freeCopiedPlaylist` (and of the exit branch of `main`). -/
def freeLoop : Nat → Heap → Ptr → Option Heap
  | _, h, none => some h
  | 0, _, some _ => none
  | fuel + 1, h, some a => do
    let n ← deref h (some a)
    freeLoop fuel (free h a) n.next

/-- Source `freeCopiedPlaylist`. -/
def freeCopiedPlaylist (fuel : Nat) (h : Heap) (head : Ptr) : Option Heap :=
  freeLoop fuel h head

/-- The inner loop `for (j = 0; j < r; j++) swapNode = swapNode->next`,
run for `j` steps. -/
def walk (h : Heap) : Nat → Ptr → Option Ptr
  | 0, p => some p
  | j + 1, p => do
    let n ← deref h p
    walk h j n.next

/-- The shuffle loop of `displayShuffledPlaylist` (lines 156-165), entered
with loop variables `current` and `i`; `rng k` is the value of the `k`-th
call of `rand()`.  Returns the heap and the number of `rand()` calls. -/
def shuffleLoop (rng : Nat → Int) (numSongs : Int) (copiedHead : Ptr) :
    Nat → Heap → Nat → Ptr → Int → Option (Heap × Nat)
  | fuel, h, calls, current, i =>
    if current ≠ none ∧ i < numSongs - 1 then
      match fuel with
      | 0 => none
      | fuel + 1 => do
        let r := i + (rng calls).tmod (numSongs - i)
        let swapNode ← walk h r.toNat copiedHead
        let cur ← deref h current
        let sw ← deref h swapNode
        let temp := cur.song
        let h1 ← modify h current (fun n => { n with song := sw.song })
        let h2 ← modify h1 swapNode (fun n => { n with song := temp })
        let cur1 ← deref h2 current
        shuffleLoop rng numSongs copiedHead fuel h2 (calls + 1) cur1.next (i + 1)
    else some (h, calls)

/-- Source `displayShuffledPlaylist`. -/
def displayShuffledPlaylist (rng : Nat → Int) (fuel : Nat) (m : Machine) :
    Option Machine := do
  let (h1, copiedHead) ← copyPlaylist fuel m.heap m.player.head
  let (h2, calls) ←
    shuffleLoop rng m.player.numSongs copiedHead fuel h1 m.randCalls copiedHead 0
  let lines ← displayLoop h2 fuel copiedHead 1
  let h3 ← freeCopiedPlaylist fuel h2 copiedHead
  some { m with
    heap := h3
    randCalls := calls
    trace := m.trace ++
      Event.printf "Shuffled Playlist (%s):\n" [Arg.str m.player.playlistName] :: lines }

/-! ## main: loading the playlist file (lines 176-223) -/

/-- The state of `main` before the file is read (lines 179-183), with the
playlist name typed by the user. -/
def initialMachine (name : String) : Machine :=
  { heap := []
    player :=
      { head := none, tail := none, numSongs := 0, currentSong := none,
        isPlaying := 0, playlistName := name, device := none }
    trace := []
    randCalls := 0 }

/-- Reading for `fgets`: at most `k` characters, stopping after a newline.
Returns the characters read and the rest of the file. -/
def fgetsAux : Nat → List Char → List Char × List Char
  | 0, rest => ([], rest)
  | _, [] => ([], [])
  | k + 1, c :: rest =>
    if c = '\n' then ([c], rest)
    else
      let (l, r) := fgetsAux k rest
      (c :: l, r)

/-- Library `fgets(buf, size, file)`: `none` (a `NULL` return) at end of
file, otherwise the buffer contents and the rest of the file. -/
def fgets (size : Nat) (file : List Char) : Option (List Char × List Char) :=
  match file with
  | [] => none
  | _ :: _ => some (fgetsAux (size - 1) file)

/-- One directive of a `scanf` format: a literal character, or a scanset
`%w[^c]` of width `w` that stops at the character `c`. -/
inductive Directive where
  | lit (c : Char)
  | scanset (width : Nat) (stop : Char)
deriving DecidableEq, Repr

/-- The conversion `%w[^stop]`: the longest prefix of at most `w` characters
none of which is `stop`, and what follows it. -/
def scanUntil : Nat → Char → List Char → List Char × List Char
  | 0, _, s => ([], s)
  | _, _, [] => ([], [])
  | w + 1, stop, c :: s =>
    if c = stop then ([], c :: s)
    else
      let (field, rest) := scanUntil w stop s
      (c :: field, rest)

/-- Library `sscanf` for formats made of literals and scansets: the fields
assigned, in order.  The C return value is the number of them.  A scanset
that matches no character is a matching failure and stops the scan. -/
def sscanf : List Directive → List Char → List (List Char)
  | [], _ => []
  | Directive.lit c :: fmt, s =>
    match s with
    | [] => []
    | c1 :: s1 => if c1 = c then sscanf fmt s1 else []
  | Directive.scanset w stop :: fmt, s =>
    let (field, rest) := scanUntil w stop s
    if field = [] then [] else field :: sscanf fmt rest

/-- The format `"%99[^,],%99[^,],%99[^,],%99[^\n]"` of line 208. -/
def lineFormat : List Directive :=
  [Directive.scanset 99 ',', Directive.lit ',', Directive.scanset 99 ',',
   Directive.lit ',', Directive.scanset 99 ',', Directive.lit ',',
   Directive.scanset 99 '\n']

/-- Library `strncpy(dst, src, n); dst[n] = 0`: the first `n` characters. -/
def strncpy (src : List Char) (n : Nat) : String := String.mk (src.take n)

def MAX_TITLE_LENGTH : Nat := 100
def MAX_FILENAME_LENGTH : Nat := 100
def MAX_LINE_LENGTH : Nat := 256

/-- Lines 208-217: the `sscanf` call on the line buffer and, when it returns
4, the song built from the four fields with `strncpy`. -/
def parseLine (line : List Char) : Option Song :=
  match sscanf lineFormat line with
  | [title, artist, duration, filename] =>
    some
      { title := strncpy title (MAX_TITLE_LENGTH - 1)
        artist := strncpy artist (MAX_TITLE_LENGTH - 1)
        duration := strncpy duration (MAX_TITLE_LENGTH - 1)
        filename := strncpy filename (MAX_FILENAME_LENGTH - 1) }
  | _ => none

/-- The error report of line 220 for the buffer `line`. -/
def lineError (line : List Char) : Event :=
  Event.printf "Error reading line from file: %s" [Arg.str (String.mk line)]

/-- The body of the load loop for one buffer returned by `fgets`
(lines 206-221). -/
def loadLine (line : List Char) (m : Machine) : Option Machine :=
  if line.head? = some '\n' ∨ line = [] then some m
  else
    match parseLine line with
    | some song => addSong m song
    | none => some { m with trace := m.trace ++ [lineError line] }

/-- The load loop `while (fgets(line, sizeof(line), file)) ...`
(lines 205-222) over the unread part of the file. -/
def loadLoop : Nat → List Char → Machine → Option Machine
  | fuel, file, m =>
    match fgets MAX_LINE_LENGTH file with
    | none => some m
    | some (line, rest) =>
      match fuel with
      | 0 => none
      | fuel + 1 => do
        let m1 ← loadLine line m
        loadLoop fuel rest m1

/-- Lines 179-223 of `main` once the file is open: every `fgets` call
consumes a character, so the length of the file bounds the iterations. -/
def loadPlaylist (name : String) (file : List Char) : Option Machine :=
  loadLoop file.length file (initialMachine name)

/-! ## main: the menu loop (lines 225-299) -/

/-- What the user and the audio libraries supply to one pass of the menu
loop: the number read by `scanf` into `choice`, the value `atoi` gives for
the line typed at the song prompt (`none` when `fgets` returns `NULL`), and
the answers of the audio collaborators. -/
structure Typed where
  choice : Int
  songNumber : Option Int
  audio : Audio
deriving DecidableEq, Repr

/-- Whether the menu loop goes on or the process has exited. -/
inductive Control where
  | running
  | exited
deriving DecidableEq, Repr

/-- The menu text printed at the top of each pass (lines 228-236). -/
def menuText : List Event :=
  [Event.printf "\nMenu:\n" [], Event.printf "1. Display Playlist\n" [],
   Event.printf "2. Play Song\n" [], Event.printf "3. Stop Song\n" [],
   Event.printf "4. Next Song\n" [], Event.printf "5. Previous Song\n" [],
   Event.printf "7. Display Shuffled Playlist\n" [], Event.printf "6. Exit\n" [],
   Event.printf "Enter your choice: " []]

/-- Append one `printf` call to the trace. -/
def say (m : Machine) (fmt : String) (args : List Arg) : Machine :=
  { m with trace := m.trace ++ [Event.printf fmt args] }

/-- Menu choice 2 (lines 244-267). -/
def playAction (inp : Typed) (m : Machine) : Option Machine :=
  if m.player.isPlaying ≠ 0 then
    let m1 := stopSong m
    some { m1 with player := { m1.player with isPlaying := 0 } }
  else
    let m1 := say m "Enter song number to play: " []
    match inp.songNumber with
    | none => some (say m1 "Error reading input.\n" [])
    | some songIndex =>
      if songIndex > 0 ∧ songIndex ≤ m1.player.numSongs then do
        let current ← walk m1.heap (songIndex - 1).toNat m1.player.head
        let m2 := { m1 with player := { m1.player with currentSong := current } }
        let node ← deref m2.heap m2.player.currentSong
        let m3 := playSong inp.audio node.song.filename m2
        some { m3 with player := { m3.player with isPlaying := 1 } }
      else
        some (say m1
          "Invalid song number. Please enter a valid number between 1 and %d.\n"
          [Arg.int m1.player.numSongs])

/-- Menu choice 3 (lines 268-275). -/
def stopAction (m : Machine) : Machine :=
  if m.player.isPlaying ≠ 0 then
    let m1 := stopSong m
    { m1 with player := { m1.player with isPlaying := 0 } }
  else say m "No song is currently playing.\n" []

/-- Menu choice 6 (lines 285-295): free every node, shut the audio library
down and exit. -/
def exitAction (fuel : Nat) (m : Machine) : Option Machine := do
  let m1 := say m "Exiting the music player.\n" []
  let h ← freeLoop fuel m1.heap m1.player.head
  some { m1 with heap := h, trace := m1.trace ++ [Event.aoShutdown] }

/-- One pass of the menu loop (lines 227-299). -/
def menuStep (rng : Nat → Int) (fuel : Nat) (inp : Typed) (m : Machine) :
    Option (Control × Machine) :=
  let m0 := { m with trace := m.trace ++ menuText }
  if inp.choice = 1 then (displayPlaylist fuel m0).map (fun x => (Control.running, x))
  else if inp.choice = 2 then (playAction inp m0).map (fun x => (Control.running, x))
  else if inp.choice = 3 then some (Control.running, stopAction m0)
  else if inp.choice = 4 then some (Control.running, m0)
  else if inp.choice = 5 then some (Control.running, m0)
  else if inp.choice = 7 then
    (displayShuffledPlaylist rng fuel m0).map (fun x => (Control.running, x))
  else if inp.choice = 6 then (exitAction fuel m0).map (fun x => (Control.exited, x))
  else some (Control.running, say m0 "Invalid choice. Please try again.\n" [])

/-- The menu loop over a finite script of inputs; it stops at exit. -/
def menuLoop (rng : Nat → Int) (fuel : Nat) : List Typed → Machine →
    Option (Control × Machine)
  | [], m => some (Control.running, m)
  | inp :: rest, m =>
    match menuStep rng fuel inp m with
    | none => none
    | some (Control.exited, m1) => some (Control.exited, m1)
    | some (Control.running, m1) => menuLoop rng fuel rest m1

/-- Source `main`: `name` is the playlist name typed by the user, `file` the
contents of `<name>.csv` (`none` when `fopen` fails), `inputs` what is typed
at the successive menus. -/
def main (name : String) (file : Option (List Char)) (rng : Nat → Int) (fuel : Nat)
    (inputs : List Typed) : Option (Control × Machine) :=
  let m0 := initialMachine name
  let m1 := { m0 with
    trace := [Event.aoInitialize, Event.printf "Enter the name of the playlist: " []] }
  match file with
  | none =>
    some (Control.exited,
      say m1 "Error opening file: %s\n"
        [Arg.str (String.mk ((name ++ ".csv").data.take (MAX_FILENAME_LENGTH - 1)))])
  | some content => do
    let m2 ← loadLoop content.length content m1
    menuLoop rng fuel inputs m2

/-! ## Observations and layouts used by the statements -/

/-- The songs met when following `next` from `p` until `NULL`: the display
order of the list that starts at `p`. -/
def songsFrom (h : Heap) : Nat → Ptr → Option (List Song)
  | _, none => some []
  | 0, some _ => none
  | fuel + 1, some a => do
    let n ← deref h (some a)
    let rest ← songsFrom h fuel n.next
    some (n.song :: rest)

/-- The `printf` call that shows song `s` as line number `index`. -/
def entryEvent (index : Int) (s : Song) : Event :=
  Event.printf entryFmt
    [Arg.int index, Arg.str s.title, Arg.str s.artist, Arg.str s.duration]

/-- The lines shown for `xs`, numbered from `index`. -/
def entryEvents : Int → List Song → List Event
  | _, [] => []
  | index, s :: xs => entryEvent index s :: entryEvents (index + 1) xs

/-- Calling `addSong` for each song of a list in turn. -/
def addSongs : Machine → List Song → Option Machine
  | m, [] => some m
  | m, s :: xs => (addSong m s).bind (fun m1 => addSongs m1 xs)

/-- The node at position `j` of a doubly linked list of `n` nodes stored in
consecutive cells from address `base`. -/
def segNode (base n j : Nat) (s : Song) : Node :=
  { song := s
    next := if j + 1 < n then some (base + j + 1) else none
    prev := if j = 0 then none else some (base + j - 1) }

/-- Cells `j, j+1, ...` of such a list; `none` is a node already freed. -/
def segFrom (base n : Nat) : Nat → List (Option Song) → Heap
  | _, [] => []
  | j, c :: cs => c.map (segNode base n j) :: segFrom base n (j + 1) cs

/-- The cells of a doubly linked list stored from address `base`. -/
def seg (base : Nat) (cs : List (Option Song)) : Heap := segFrom base cs.length 0 cs

/-- The cells of a doubly linked list all of whose nodes are allocated. -/
def dll (base : Nat) (xs : List Song) : Heap := seg base (xs.map some)

/-- Address of node `j` of an `n`-node list stored from `base` (`NULL` past
the end). -/
def ptrAt (base n j : Nat) : Ptr := if j < n then some (base + j) else none

/-- Address of the first node of a list stored from `base`. -/
def headPtr (base : Nat) (xs : List Song) : Ptr :=
  if xs = [] then none else some base

/-- Address of the last node of a list stored from `base`. -/
def tailPtr (base : Nat) (xs : List Song) : Ptr :=
  if xs = [] then none else some (base + xs.length - 1)

/-- The machine `m` with the playlist `xs` stored after the cells `h0`. -/
def withList (m : Machine) (h0 : Heap) (xs : List Song) (count : Int) : Machine :=
  { m with
    heap := h0 ++ dll h0.length xs
    player := { m.player with
      head := headPtr h0.length xs, tail := tailPtr h0.length xs, numSongs := count } }

/-- Exchange the entries at positions `i` and `r` of a list, as lines
162-164 do with the songs of the nodes `current` and `swapNode`. -/
def swapAt (ys : List Song) (i r : Nat) : List Song :=
  match ys[i]?, ys[r]? with
  | some a, some b => (ys.set i b).set r a
  | _, _ => ys

/-- The shuffle loop read on the list of songs held by the copy: `i` is the
loop index, `calls` the number of `rand()` calls so far.  It fails when a
drawn index lies outside the list (the walk to `swapNode` leaves the list). -/
def shuffleSongs (rng : Nat → Int) (numSongs : Int) :
    Nat → List Song → Nat → Nat → Option (List Song × Nat)
  | fuel, ys, calls, i =>
    if i < ys.length ∧ (i : Int) < numSongs - 1 then
      match fuel with
      | 0 => none
      | fuel + 1 =>
        let r := (i : Int) + (rng calls).tmod (numSongs - i)
        if r.toNat < ys.length then
          shuffleSongs rng numSongs fuel (swapAt ys i r.toNat) (calls + 1) (i + 1)
        else none
    else some (ys, calls)

/-- The text file whose lines are `lines`, each ended by a newline. -/
def fileOf : List (List Char) → List Char
  | [] => []
  | l :: ls => l ++ '\n' :: fileOf ls

/-- The record that the line `l` of the file yields: `sscanf` is applied to
the line as `fgets` stores it, with its newline. -/
def recordOf (l : List Char) : Option Song := parseLine (l ++ ['\n'])

/-- Whether the load loop reports the line `l`: it is not empty and does not
parse. -/
def reported (l : List Char) : Bool := l ≠ [] ∧ recordOf l = none

/-! ## The shuffle as a map from draw sequences to orderings -/

/-- The order `displayShuffledPlaylist` shows: the songs of the copy, in list
order, once the shuffle loop has run. -/
def shuffledOrder (rng : Nat → Int) (fuel : Nat) (m : Machine) : Option (List Song) := do
  let (h1, copiedHead) ← copyPlaylist fuel m.heap m.player.head
  let (h2, _) ←
    shuffleLoop rng m.player.numSongs copiedHead fuel h1 m.randCalls copiedHead 0
  songsFrom h2 fuel copiedHead

/-- The index `r = i + rand() % (numSongs - i)` drawn at iteration `i`
(line 157) for a playlist of `n` songs, when `calls` calls of `rand()` were
made before the loop. -/
def drawAt (rng : Nat → Int) (n calls i : Nat) : Nat :=
  ((i : Int) + (rng (calls + i)).tmod ((n : Int) - i)).toNat

/-- The draws of `k` successive iterations starting at iteration `i`. -/
def drawsFrom (rng : Nat → Int) (n calls : Nat) : Nat → Nat → List Nat
  | 0, _ => []
  | k + 1, i => drawAt rng n calls i :: drawsFrom rng n calls k (i + 1)

/-- The draw sequence `r_0, ..., r_{n-2}` of one run of the shuffle loop. -/
def drawsOf (rng : Nat → Int) (n calls : Nat) : List Nat :=
  drawsFrom rng n calls (n - 1) 0

/-- Whether `d` lists the draws of iterations `i, i+1, ..., n-2` of a
Fisher-Yates shuffle of `n` entries: one draw per iteration, the draw of
iteration `j` lying in `[j, n-1]`. -/
def validFrom (n : Nat) : Nat → List Nat → Bool
  | i, [] => decide (n ≤ i + 1)
  | i, r :: ds => decide (i + 1 < n) && decide (i ≤ r) && decide (r < n) && validFrom n (i + 1) ds

/-- A draw sequence `(r_0, ..., r_{n-2})` with `i ≤ r_i ≤ n-1` for each `i`. -/
def ValidDraws (n : Nat) (d : List Nat) : Prop := validFrom n 0 d = true

/-- Values of `rand()` under which the loop, entered after `calls` earlier
calls, draws exactly the sequence `d`: the `i`-th value is `r_i - i`. -/
def randFor (calls : Nat) (d : List Nat) : Nat → Int :=
  fun k => ((d.getD (k - calls) 0 - (k - calls) : Nat) : Int)

/-- The specification's Fisher-Yates shuffle of a list: with the draws
`r_i, r_{i+1}, ...` exchange the entries at `i` and `r_i`, then at `i+1` and
`r_{i+1}`, and so on. -/
def fisherYates : List Nat → Nat → List Song → List Song
  | [], _, ys => ys
  | r :: ds, i, ys => fisherYates ds (i + 1) (swapAt ys i r)

/-! ## Sample data -/

/-- The record of the line `A,B,3:30,a.wav`. -/
def songAB : Song := { title := "A", artist := "B", duration := "3:30", filename := "a.wav" }

/-- The record of the line `C,D,4:00,c.wav`. -/
def songCD : Song := { title := "C", artist := "D", duration := "4:00", filename := "c.wav" }

/-- The record of a third song, for examples with three entries. -/
def songEF : Song := { title := "E", artist := "F", duration := "2:10", filename := "e.wav" }

/-- The four lines of the load scenario: two records, an empty line and a
line with two fields. -/
def sampleLines : List (List Char) :=
  ["A,B,3:30,a.wav".toList, [], "C,D,4:00,c.wav".toList, "E,F".toList]

/-- A single line of 262 characters: `A,B,C,`, then 249 times `x`, then
`E,F,G,H`.  It is longer than the 255 characters one `fgets` call can
return. -/
def longLine : List Char :=
  "A,B,C,".toList ++ List.replicate 249 'x' ++ "E,F,G,H".toList

/-! ## Observations on the trace and on the list, used by the statements -/

/-- The effect of one event on the collection of open device handles:
`ao_open_live` adds the handle it returns, `ao_close` removes the handle it
is given, every other event leaves the collection as it is. -/
def handleStep (opened : List Nat) : Event → List Nat
  | Event.aoOpenLive (some d) => d :: opened
  | Event.aoClose d => opened.erase d
  | _ => opened

/-- The device handles open after the events `es`, when `opened` were open
before them. -/
def openHandles (opened : List Nat) (es : List Event) : List Nat :=
  es.foldl handleStep opened

/-- How many times `ao_open_live` returned the handle `d` in `es`. -/
def openCount (d : Nat) (es : List Event) : Nat := es.count (Event.aoOpenLive (some d))

/-- How many times `ao_close` was called on the handle `d` in `es`. -/
def closeCount (d : Nat) (es : List Event) : Nat := es.count (Event.aoClose d)

/-- Whether an event is a `printf` call. -/
def isPrintf : Event → Bool
  | Event.printf _ _ => true
  | _ => false

/-- The addresses of the nodes met when following `next` from `p` until
`NULL`. -/
def nodesFrom (h : Heap) : Nat → Ptr → Option (List Nat)
  | _, none => some []
  | 0, some _ => none
  | fuel + 1, some a => do
    let n ← deref h (some a)
    let rest ← nodesFrom h fuel n.next
    some (a :: rest)

/-- The loop variables of the shuffle loop of `displayShuffledPlaylist`: the
heap, the number of `rand()` calls made, `current` and `i`. -/
structure ShuffleState where
  heap : Heap
  calls : Nat
  current : Ptr
  i : Int
deriving DecidableEq, Repr

/-- One iteration of the shuffle loop (lines 157-164, then `i++` and
`current = current->next`): the body that `shuffleLoop` repeats. -/
def shuffleBody (rng : Nat → Int) (numSongs : Int) (copiedHead : Ptr) (s : ShuffleState) :
    Option ShuffleState := do
  let r := s.i + (rng s.calls).tmod (numSongs - s.i)
  let swapNode ← walk s.heap r.toNat copiedHead
  let cur ← deref s.heap s.current
  let sw ← deref s.heap swapNode
  let temp := cur.song
  let h1 ← modify s.heap s.current (fun n => { n with song := sw.song })
  let h2 ← modify h1 swapNode (fun n => { n with song := temp })
  let cur1 ← deref h2 s.current
  some { heap := h2, calls := s.calls + 1, current := cur1.next, i := s.i + 1 }

/-- The loop variables after `k` iterations of the shuffle loop. -/
def shuffleIter (rng : Nat → Int) (numSongs : Int) (copiedHead : Ptr) :
    Nat → ShuffleState → Option ShuffleState
  | 0, s => some s
  | k + 1, s => (shuffleBody rng numSongs copiedHead s).bind
      (shuffleIter rng numSongs copiedHead k)

/-- The two-song player after a successful `playSong` of song 1 on the
device handle 7: `isPlaying = 1`, `currentSong` is the first node. -/
def soundingMachine : Machine :=
  { withList (initialMachine "p") [] [songAB, songCD] 2 with
    player :=
      { (withList (initialMachine "p") [] [songAB, songCD] 2).player with
        currentSong := some 0, isPlaying := 1, device := some 7 } }

/-- Answers of the audio collaborators for a play that succeeds on the device
handle 7. -/
def audioOk : Audio := { sfOpenOk := true, aoDevice := some 7, bufferOk := true }

/-- Whether at most one device handle is open before and after each of the
events `es`, when `opened` are open before them. -/
def atMostOne : List Nat → List Event → Bool
  | opened, [] => decide (opened.length ≤ 1)
  | opened, e :: es => decide (opened.length ≤ 1) && atMostOne (handleStep opened e) es

/-- A run of events that starts and ends with no device handle open and
never has two open. -/
def Balanced (es : List Event) : Prop := openHandles [] es = [] ∧ atMostOne [] es = true

/-- A stored field that is neither empty nor longer than 99 characters, so
that it fits its 100-byte buffer with the terminator. -/
def FieldOk (f : String) : Prop := 1 ≤ f.length ∧ f.length ≤ MAX_TITLE_LENGTH - 1

/-- The shape of the player while the menu loop runs on the playlist `xs`
loaded by `main`: the nodes of `xs` are stored from address 0, followed by
the cells freed by earlier shuffled displays; `head`, `tail` and `numSongs`
describe that list; `currentSong` is `NULL` or one of its nodes. -/
def ListInv (xs : List Song) (m : Machine) : Prop :=
  (∃ K, m.heap = dll 0 xs ++ List.replicate K none) ∧
  m.player.head = headPtr 0 xs ∧ m.player.tail = tailPtr 0 xs ∧
  m.player.numSongs = xs.length ∧
  (m.player.currentSong = none ∨ ∃ j, j < xs.length ∧ m.player.currentSong = some j)

/-! ## Heap lemmas -/

theorem segFrom_length (base n j : Nat) (cs : List (Option Song)) :
    (segFrom base n j cs).length = cs.length := by
  induction cs generalizing j with
  | nil => rfl
  | cons c cs ih => simp [segFrom, ih]

theorem segFrom_getElem? (base n j k : Nat) (cs : List (Option Song)) :
    (segFrom base n j cs)[k]? = cs[k]?.map (fun c => c.map (segNode base n (j + k))) := by
  induction cs generalizing j k with
  | nil => simp [segFrom]
  | cons c cs ih =>
    cases k with
    | zero => simp [segFrom]
    | succ k =>
      have e : j + 1 + k = j + (k + 1) := by omega
      simp [segFrom, ih, e]

theorem seg_length (base : Nat) (cs : List (Option Song)) :
    (seg base cs).length = cs.length := segFrom_length _ _ _ _

theorem seg_getElem? (base k : Nat) (cs : List (Option Song)) :
    (seg base cs)[k]? = cs[k]?.map (fun c => c.map (segNode base cs.length k)) := by
  simp [seg, segFrom_getElem?]

theorem deref_some_iff (h : Heap) (a : Nat) (n : Node) :
    deref h (some a) = some n ↔ h[a]? = some (some n) := by
  simp only [deref]
  cases hc : h[a]? with
  | none => simp
  | some c =>
    cases c with
    | none => simp
    | some m => simp

theorem deref_lt {h : Heap} {a : Nat} {n : Node} (hd : deref h (some a) = some n) :
    a < h.length := by
  rw [deref_some_iff] at hd
  by_contra hc
  rw [List.getElem?_eq_none (by omega)] at hd
  cases hd

theorem deref_append_left {h : Heap} {p : Ptr} {n : Node} (l : Heap)
    (hd : deref h p = some n) : deref (h ++ l) p = some n := by
  cases p with
  | none => cases hd
  | some a =>
    have hlt := deref_lt hd
    rw [deref_some_iff] at hd ⊢
    rw [List.getElem?_append_left hlt, hd]

theorem deref_seg (h0 : Heap) (cs : List (Option Song)) (j : Nat) (s : Song)
    (hj : cs[j]? = some (some s)) :
    deref (h0 ++ seg h0.length cs) (some (h0.length + j)) =
      some (segNode h0.length cs.length j s) := by
  rw [deref_some_iff, List.getElem?_append_right (by omega)]
  simp [seg_getElem?, hj]

theorem seg_set (base j : Nat) (cs : List (Option Song)) (c : Option Song) :
    seg base (cs.set j c) = (seg base cs).set j (c.map (segNode base cs.length j)) := by
  apply List.ext_getElem?
  intro k
  simp only [seg_getElem?, List.getElem?_set, List.length_set, seg_length]
  by_cases hjk : j = k
  · subst hjk
    by_cases hj : j < cs.length
    · simp [hj]
    · simp [hj, List.getElem?_eq_none (not_lt.mp hj)]
  · simp [hjk]

theorem set_seg (h0 : Heap) (j : Nat) (cs : List (Option Song)) (c : Option Song) :
    (h0 ++ seg h0.length cs).set (h0.length + j) (c.map (segNode h0.length cs.length j)) =
      h0 ++ seg h0.length (cs.set j c) := by
  rw [List.set_append, if_neg (by omega), seg_set]
  simp

theorem modify_seg (h0 : Heap) (cs : List (Option Song)) (j : Nat) (s t : Song)
    (hj : cs[j]? = some (some s)) :
    modify (h0 ++ seg h0.length cs) (some (h0.length + j)) (fun n => { n with song := t }) =
      some (h0 ++ seg h0.length (cs.set j (some t))) := by
  simp only [modify, deref_seg h0 cs j s hj]
  rw [← set_seg]
  rfl

theorem dll_getElem? (base k : Nat) (xs : List Song) :
    (dll base xs)[k]? = xs[k]?.map (fun s => some (segNode base xs.length k s)) := by
  simp [dll, seg_getElem?, Function.comp_def]

theorem dll_length (base : Nat) (xs : List Song) : (dll base xs).length = xs.length := by
  simp [dll, seg_length]

theorem deref_dll (h0 : Heap) (xs : List Song) (j : Nat) (s : Song)
    (hj : xs[j]? = some s) :
    deref (h0 ++ dll h0.length xs) (some (h0.length + j)) =
      some (segNode h0.length xs.length j s) := by
  have := deref_seg h0 (xs.map some) j s (by simp [hj])
  simpa [dll] using this

theorem dll_snoc (h0 : Heap) (xs : List Song) (x s : Song)
    (hx : xs[xs.length - 1]? = some x) :
    ((h0 ++ dll h0.length xs ++ [some ({ song := s, next := none, prev := none } : Node)]).set
        (h0.length + xs.length)
        (some { song := s, next := none, prev := some (h0.length + xs.length - 1) })).set
      (h0.length + xs.length - 1)
      (some { segNode h0.length xs.length (xs.length - 1) x with
        next := some (h0.length + xs.length) }) =
    h0 ++ dll h0.length (xs ++ [s]) := by
  have hn : 0 < xs.length := by
    by_contra hc
    have : xs = [] := List.length_eq_zero.mp (by omega)
    subst this
    simp at hx
  have hne : xs ≠ [] := List.ne_nil_of_length_pos hn
  apply List.ext_getElem?
  intro k
  simp only [List.getElem?_set, List.getElem?_append, dll_getElem?, List.length_set,
    List.length_append, dll_length, List.length_singleton]
  by_cases h1 : k < h0.length
  · have e1 : ¬ (h0.length + xs.length - 1 = k) := by omega
    have e2 : ¬ (h0.length + xs.length = k) := by omega
    have e3 : k < h0.length + xs.length := by omega
    simp [h1, e1, e2, e3]
  · by_cases h2 : k = h0.length + xs.length - 1
    · subst h2
      have e3 : h0.length + xs.length - 1 - h0.length = xs.length - 1 := by omega
      have e4 : h0.length + xs.length - 1 < h0.length + xs.length + 1 := by omega
      have e5 : xs.length - 1 < xs.length := by omega
      simp [h1, e3, e4, e5, hx, segNode]
      omega
    · by_cases h3 : k = h0.length + xs.length
      · subst h3
        have e6 : ¬ (h0.length + xs.length - 1 = h0.length + xs.length) := by omega
        simp [e6, segNode, hne]
      · by_cases h4 : k < h0.length + xs.length
        · have e7 : k - h0.length < xs.length := by omega
          have e8 : ¬ (h0.length + xs.length - 1 = k) := by omega
          have e9 : ¬ (h0.length + xs.length = k) := by omega
          have e10 : k - h0.length + 1 < xs.length := by omega
          have e11 : k - h0.length + 1 < xs.length + 1 := by omega
          simp [h1, e7, e8, e9, e10, e11, h4, segNode]
        · have e8 : ¬ (h0.length + xs.length - 1 = k) := by omega
          have e9 : ¬ (h0.length + xs.length = k) := by omega
          have e12 : xs.length + 1 ≤ k - h0.length := by omega
          have e13 : 1 ≤ k - (h0.length + xs.length) := by omega
          have e14 : ¬ (k - h0.length < xs.length) := by omega
          have e15 : 1 ≤ k - h0.length - xs.length := by omega
          obtain ⟨j, hj⟩ : ∃ j, k - (h0.length + xs.length) = j + 1 :=
            ⟨k - (h0.length + xs.length) - 1, by omega⟩
          have hj2 : k - h0.length - xs.length = j + 1 := by omega
          simp [h1, e8, e9, h4, e14, hj, hj2]

theorem dll_nil (base : Nat) : dll base [] = [] := rfl

theorem dll_singleton (base : Nat) (s : Song) :
    dll base [s] = [some { song := s, next := none, prev := none }] := by
  simp [dll, seg, segFrom, segNode]

theorem addSong_withList (m : Machine) (h0 : Heap) (xs : List Song) (count : Int)
    (s : Song) :
    addSong (withList m h0 xs count) s = some (withList m h0 (xs ++ [s]) (count + 1)) := by
  cases hxs : xs with
  | nil =>
    simp [addSong, withList, headPtr, tailPtr, createNode, dll_nil, dll_singleton]
  | cons y ys =>
    rw [← hxs]
    have hne : xs ≠ [] := by simp [hxs]
    have hn : 0 < xs.length := List.length_pos.mpr hne
    obtain ⟨x, hx⟩ : ∃ x, xs[xs.length - 1]? = some x :=
      ⟨xs[xs.length - 1], by simp [List.getElem?_eq_getElem]⟩
    have hlen : (h0 ++ dll h0.length xs).length = h0.length + xs.length := by
      simp [dll_length]
    have hnew : deref (h0 ++ dll h0.length xs ++
        [some ({ song := s, next := none, prev := none } : Node)])
        (some (h0.length + xs.length)) = some { song := s, next := none, prev := none } := by
      rw [deref_some_iff, List.getElem?_append_right (by omega)]
      simp [hlen]
    have htail : deref ((h0 ++ dll h0.length xs ++
        [some ({ song := s, next := none, prev := none } : Node)]).set
          (h0.length + xs.length)
          (some { song := s, next := none, prev := some (h0.length + xs.length - 1) }))
        (some (h0.length + xs.length - 1)) =
        some (segNode h0.length xs.length (xs.length - 1) x) := by
      rw [deref_some_iff, List.getElem?_set_ne (by omega),
        List.getElem?_append_left (by omega), ← deref_some_iff]
      have := deref_dll h0 xs (xs.length - 1) x hx
      have e : h0.length + (xs.length - 1) = h0.length + xs.length - 1 := by omega
      rwa [e] at this
    have key := dll_snoc h0 xs x s hx
    simp only [addSong, withList, headPtr, tailPtr, createNode, hne, if_false, hlen]
    simp only [modify, hnew, htail, Option.bind_eq_bind, Option.some_bind, key]
    simp [headPtr, tailPtr]

/-! ## Traversals of a stored list -/

theorem segNode_next (base n j : Nat) (s : Song) :
    (segNode base n j s).next = ptrAt base n (j + 1) := by
  simp [segNode, ptrAt, Nat.add_assoc]

theorem headPtr_eq_ptrAt (base : Nat) (xs : List Song) :
    headPtr base xs = ptrAt base xs.length 0 := by
  cases xs <;> simp [headPtr, ptrAt]

theorem deref_ptrAt (h0 : Heap) (xs : List Song) (j : Nat) (hj : j < xs.length) :
    deref (h0 ++ dll h0.length xs) (ptrAt h0.length xs.length j) =
      some (segNode h0.length xs.length j xs[j]) := by
  rw [ptrAt, if_pos hj]
  exact deref_dll h0 xs j xs[j] (List.getElem?_eq_getElem hj)

theorem songsFrom_dll (h0 : Heap) (xs : List Song) (fuel j : Nat)
    (hfuel : xs.length - j ≤ fuel) :
    songsFrom (h0 ++ dll h0.length xs) fuel (ptrAt h0.length xs.length j) =
      some (xs.drop j) := by
  induction fuel generalizing j with
  | zero =>
    have hj : ¬ j < xs.length := by omega
    rw [ptrAt, if_neg hj, List.drop_eq_nil_of_le (by omega)]
    rfl
  | succ fuel ih =>
    by_cases hj : j < xs.length
    · have hd := deref_ptrAt h0 xs j hj
      have hp : ptrAt h0.length xs.length j = some (h0.length + j) := by
        rw [ptrAt, if_pos hj]
      rw [hp] at hd ⊢
      simp only [songsFrom, hd, Option.bind_eq_bind, Option.some_bind, segNode_next]
      rw [ih (j + 1) (by omega), List.drop_eq_getElem_cons hj]
      rfl
    · rw [ptrAt, if_neg hj, List.drop_eq_nil_of_le (by omega)]
      rfl

theorem displayLoop_eq (h : Heap) (fuel : Nat) (p : Ptr) (index : Int) :
    displayLoop h fuel p index = (songsFrom h fuel p).map (entryEvents index) := by
  induction fuel generalizing p index with
  | zero => cases p <;> rfl
  | succ fuel ih =>
    cases p with
    | none => rfl
    | some a =>
      simp only [displayLoop, songsFrom, Option.bind_eq_bind]
      cases hd : deref h (some a) with
      | none => rfl
      | some n =>
        simp only [Option.some_bind, ih]
        cases songsFrom h fuel n.next <;> rfl

theorem entryEvents_eq_mapIdx (index : Int) (xs : List Song) :
    entryEvents index xs = xs.mapIdx (fun k s => entryEvent (index + k) s) := by
  induction xs generalizing index with
  | nil => rfl
  | cons s xs ih =>
    simp only [entryEvents, List.mapIdx_cons, ih]
    have e : ∀ k : Nat, index + 1 + (k : Int) = index + ((k + 1 : Nat) : Int) := by
      intro k; push_cast; ring
    simp [e]

theorem walk_dll (h0 : Heap) (xs : List Song) (i j : Nat) (hij : i + j ≤ xs.length) :
    walk (h0 ++ dll h0.length xs) j (ptrAt h0.length xs.length i) =
      some (ptrAt h0.length xs.length (i + j)) := by
  induction j generalizing i with
  | zero => rfl
  | succ j ih =>
    have hi : i < xs.length := by omega
    simp only [walk, deref_ptrAt h0 xs i hi, Option.bind_eq_bind, Option.some_bind,
      segNode_next]
    rw [ih (i + 1) (by omega)]
    congr 2
    omega

theorem addSongs_withList (m : Machine) (h0 : Heap) (ys xs : List Song) (count : Int) :
    addSongs (withList m h0 ys count) xs =
      some (withList m h0 (ys ++ xs) (count + xs.length)) := by
  induction xs generalizing ys count with
  | nil => simp [addSongs]
  | cons s xs ih =>
    simp only [addSongs, addSong_withList, Option.some_bind, ih]
    have e : count + 1 + (xs.length : Int) = count + ((s :: xs).length : Int) := by
      simp only [List.length_cons]; push_cast; ring
    rw [e]
    simp

theorem withList_nil (m : Machine) (hhead : m.player.head = none)
    (htail : m.player.tail = none) :
    withList m m.heap [] m.player.numSongs = m := by
  cases m with
  | mk heap player trace randCalls =>
    cases player
    simp_all [withList, headPtr, tailPtr, dll_nil]

/-! ## The shuffle loop on a stored list -/

theorem walk_dll_full (h0 : Heap) (xs : List Song) (i j : Nat) (hi : i ≤ xs.length) :
    walk (h0 ++ dll h0.length xs) j (ptrAt h0.length xs.length i) =
      if i + j ≤ xs.length then some (ptrAt h0.length xs.length (i + j)) else none := by
  induction j generalizing i with
  | zero => simp [walk, hi]
  | succ j ih =>
    by_cases hlt : i < xs.length
    · simp only [walk, deref_ptrAt h0 xs i hlt, Option.bind_eq_bind, Option.some_bind,
        segNode_next]
      rw [ih (i + 1) (by omega)]
      have e : i + 1 + j = i + (j + 1) := by omega
      rw [e]
    · have hp : ptrAt h0.length xs.length i = none := by rw [ptrAt, if_neg hlt]
      rw [hp, if_neg (by omega)]
      rfl

theorem modify_dll (h0 : Heap) (xs : List Song) (j : Nat) (t : Song) (hj : j < xs.length) :
    modify (h0 ++ dll h0.length xs) (ptrAt h0.length xs.length j)
        (fun n => { n with song := t }) =
      some (h0 ++ dll h0.length (xs.set j t)) := by
  rw [ptrAt, if_pos hj]
  have := modify_seg h0 (xs.map some) j xs[j] t (by simp [List.getElem?_eq_getElem hj])
  simpa [dll, List.map_set] using this

theorem swapAt_eq (ys : List Song) (i r : Nat) (hi : i < ys.length) (hr : r < ys.length) :
    swapAt ys i r = (ys.set i ys[r]).set r ys[i] := by
  simp [swapAt, List.getElem?_eq_getElem hi, List.getElem?_eq_getElem hr]

theorem swapAt_length (ys : List Song) (i r : Nat) : (swapAt ys i r).length = ys.length := by
  unfold swapAt
  split <;> simp

theorem shuffleLoop_dll (rng : Nat → Int) (numSongs : Int) (h0 : Heap) (fuel : Nat)
    (ys : List Song) (calls i : Nat) :
    shuffleLoop rng numSongs (ptrAt h0.length ys.length 0) fuel (h0 ++ dll h0.length ys)
        calls (ptrAt h0.length ys.length i) (i : Int) =
      (shuffleSongs rng numSongs fuel ys calls i).map
        (fun res => (h0 ++ dll h0.length res.1, res.2)) := by
  induction fuel generalizing ys calls i with
  | zero =>
    unfold shuffleLoop shuffleSongs
    by_cases hi : i < ys.length
    · by_cases hc : (i : Int) < numSongs - 1
      · simp [ptrAt, hi, hc]
      · simp [ptrAt, hi, hc]
    · simp [ptrAt, hi]
  | succ fuel ih =>
    unfold shuffleLoop shuffleSongs
    by_cases hi : i < ys.length
    · by_cases hc : (i : Int) < numSongs - 1
      · have hcur : ptrAt h0.length ys.length i ≠ none := by simp [ptrAt, hi]
        rw [if_pos ⟨hcur, hc⟩, if_pos ⟨hi, hc⟩]
        simp only []
        generalize hr : ((i : Int) + (rng calls).tmod (numSongs - i)).toNat = r
        rw [walk_dll_full h0 ys 0 r (by omega)]
        by_cases hrn : r < ys.length
        · rw [if_pos (by omega), if_pos hrn]
          simp only [Option.bind_eq_bind, Option.some_bind, zero_add,
            deref_ptrAt h0 ys i hi, deref_ptrAt h0 ys r hrn]
          rw [modify_dll h0 ys i _ hi]
          simp only [Option.some_bind]
          have hl1 : (ys.set i ys[r]).length = ys.length := by simp
          have hr1 : r < (ys.set i ys[r]).length := by omega
          have hm2 := modify_dll h0 (ys.set i ys[r]) r ys[i] hr1
          rw [hl1] at hm2
          rw [show (segNode h0.length ys.length r ys[r]).song = ys[r] from rfl,
            show (segNode h0.length ys.length i ys[i]).song = ys[i] from rfl, hm2]
          simp only [Option.some_bind]
          rw [← swapAt_eq ys i r hi hrn]
          have hl2 := swapAt_length ys i r
          have hi2 : i < (swapAt ys i r).length := by omega
          have hd := deref_ptrAt h0 (swapAt ys i r) i hi2
          rw [hl2] at hd
          rw [hd]
          simp only [Option.some_bind, segNode_next]
          have := ih (swapAt ys i r) (calls + 1) (i + 1)
          rw [hl2] at this
          exact_mod_cast this
        · rw [if_neg hrn]
          by_cases hre : r ≤ ys.length
          · have hrq : r = ys.length := by omega
            rw [if_pos (by omega)]
            simp [ptrAt, hrq, hi, deref, deref_ptrAt h0 ys i hi]
          · rw [if_neg (by omega)]
            rfl
      · simp [ptrAt, hi, hc]
    · simp [ptrAt, hi]

/-! ## copyPlaylist and freeCopiedPlaylist -/

theorem songsFrom_some_iff (h : Heap) (fuel : Nat) (a : Nat) (xs : List Song) :
    songsFrom h (fuel + 1) (some a) = some xs ↔
      ∃ n rest, deref h (some a) = some n ∧ songsFrom h fuel n.next = some rest ∧
        xs = n.song :: rest := by
  simp only [songsFrom, Option.bind_eq_bind]
  cases hd : deref h (some a) with
  | none => simp
  | some n =>
    simp only [Option.some_bind]
    constructor
    · intro e
      cases hs : songsFrom h fuel n.next with
      | none => rw [hs] at e; cases e
      | some rest =>
        rw [hs] at e
        simp only [Option.some_bind, Option.some.injEq] at e
        exact ⟨n, rest, rfl, hs, e.symm⟩
    · rintro ⟨n1, rest1, e1, e2, e3⟩
      cases e1
      simp [e2, e3]

theorem songsFrom_length_le (h : Heap) (fuel : Nat) (p : Ptr) (xs : List Song)
    (hs : songsFrom h fuel p = some xs) : xs.length ≤ fuel := by
  induction fuel generalizing p xs with
  | zero =>
    cases p with
    | none => simp [songsFrom] at hs; simp [hs]
    | some a => simp [songsFrom] at hs
  | succ fuel ih =>
    cases p with
    | none => simp [songsFrom] at hs; simp [hs]
    | some a =>
      obtain ⟨n, rest, _, h2, h3⟩ := (songsFrom_some_iff h fuel a xs).mp hs
      have := ih _ _ h2
      simp [h3]; omega

theorem copyLoop_dll (h0 : Heap) (fuel : Nat) (done rest : List Song) (p : Ptr)
    (hsrc : songsFrom h0 fuel p = some rest) :
    copyLoop fuel (h0 ++ dll h0.length done) p (headPtr h0.length done)
        (tailPtr h0.length done) =
      some (h0 ++ dll h0.length (done ++ rest), headPtr h0.length (done ++ rest)) := by
  induction fuel generalizing done rest p with
  | zero =>
    cases p with
    | none =>
      simp [songsFrom] at hsrc
      subst hsrc
      simp [copyLoop]
    | some a => simp [songsFrom] at hsrc
  | succ fuel ih =>
    cases p with
    | none =>
      simp [songsFrom] at hsrc
      subst hsrc
      simp [copyLoop]
    | some c =>
      obtain ⟨n, rest1, hd, hs1, hrest⟩ := (songsFrom_some_iff h0 fuel c rest).mp hsrc
      subst hrest
      have hlen : (h0 ++ dll h0.length done).length = h0.length + done.length := by
        simp [dll_length]
      have e : done ++ n.song :: rest1 = (done ++ [n.song]) ++ rest1 := by simp
      have hhead1 : headPtr h0.length (done ++ [n.song]) = some h0.length := by
        simp [headPtr]
      have htail1 : tailPtr h0.length (done ++ [n.song]) = some (h0.length + done.length) := by
        simp [tailPtr]
      have IH := ih (done ++ [n.song]) rest1 n.next hs1
      rw [hhead1, htail1] at IH
      rw [e, ← IH]
      cases hdone : done with
      | nil =>
        subst hdone
        simp only [copyLoop, headPtr, tailPtr, if_true, createNode, dll_nil, List.append_nil,
          deref_append_left _ hd, hd, Option.bind_eq_bind, Option.some_bind, List.nil_append,
          dll_singleton, List.length_nil, Nat.add_zero]
      | cons y ys =>
        rw [← hdone]
        have hne : done ≠ [] := by simp [hdone]
        have hn : 0 < done.length := List.length_pos.mpr hne
        obtain ⟨x, hx⟩ : ∃ x, done[done.length - 1]? = some x :=
          ⟨done[done.length - 1], by simp [List.getElem?_eq_getElem]⟩
        have htl : deref (h0 ++ dll h0.length done ++
            [some ({ song := n.song, next := none, prev := none } : Node)])
            (some (h0.length + done.length - 1)) =
            some (segNode h0.length done.length (done.length - 1) x) := by
          apply deref_append_left
          have := deref_dll h0 done (done.length - 1) x hx
          have e2 : h0.length + (done.length - 1) = h0.length + done.length - 1 := by omega
          rwa [e2] at this
        have hnew : deref ((h0 ++ dll h0.length done ++
            [some ({ song := n.song, next := none, prev := none } : Node)]).set
              (h0.length + done.length - 1)
              (some { segNode h0.length done.length (done.length - 1) x with
                next := some (h0.length + done.length) }))
            (some (h0.length + done.length)) =
            some { song := n.song, next := none, prev := none } := by
          rw [deref_some_iff, List.getElem?_set_ne (by omega),
            List.getElem?_append_right (by omega)]
          simp [hlen]
        have key := dll_snoc h0 done x n.song hx
        rw [List.set_comm _ _ _ (by omega)] at key
        have hc : deref (h0 ++ dll h0.length (done ++ [n.song])) (some c) = some n :=
          deref_append_left _ hd
        simp only [copyLoop, headPtr, tailPtr, hne, if_false, createNode, hlen,
          deref_append_left _ hd, Option.bind_eq_bind, Option.some_bind, modify, htl, hnew,
          key, hc]

theorem copyPlaylist_dll (h0 : Heap) (fuel : Nat) (xs : List Song) (p : Ptr)
    (hsrc : songsFrom h0 fuel p = some xs) :
    copyPlaylist fuel h0 p = some (h0 ++ dll h0.length xs, headPtr h0.length xs) := by
  cases p with
  | none =>
    simp [songsFrom] at hsrc
    subst hsrc
    simp [copyPlaylist, headPtr, dll_nil]
  | some a =>
    have := copyLoop_dll h0 fuel [] xs (some a) hsrc
    simpa [copyPlaylist, headPtr, tailPtr, dll_nil] using this

theorem take_set_none {α : Type} (cs : List (Option α)) (j : Nat) (hj : j < cs.length) :
    (cs.set j none).take (j + 1) ++ List.replicate (cs.length - (j + 1)) none =
      cs.take j ++ List.replicate (cs.length - j) none := by
  rw [List.take_succ, List.getElem?_set_self (by simpa using hj)]
  have e : cs.length - j = (cs.length - (j + 1)) + 1 := by omega
  rw [e, List.replicate_succ]
  have e2 : List.take j (cs.set j none) = List.take j cs := by
    apply List.ext_getElem?
    intro k
    simp only [List.getElem?_take]
    by_cases hk : k < j
    · simp [hk, List.getElem?_set_ne (show j ≠ k by omega)]
    · simp [hk]
  simp [e2]
theorem seg_replicate_none (base n : Nat) :
    seg base (List.replicate n none) = List.replicate n none := by
  apply List.ext_getElem?
  intro k
  rw [seg_getElem?]
  by_cases hk : k < n
  · simp [List.getElem?_replicate, hk]
  · simp [List.getElem?_replicate, hk]

theorem freeLoop_seg (h0 : Heap) (fuel : Nat) (cs : List (Option Song)) (j : Nat)
    (hlive : ∀ k, j ≤ k → k < cs.length → ∃ s, cs[k]? = some (some s))
    (hfuel : cs.length - j ≤ fuel) :
    freeLoop fuel (h0 ++ seg h0.length cs) (ptrAt h0.length cs.length j) =
      some (h0 ++ seg h0.length (cs.take j ++ List.replicate (cs.length - j) none)) := by
  induction fuel generalizing cs j with
  | zero =>
    have hj : ¬ j < cs.length := by omega
    have e : cs.length - j = 0 := by omega
    rw [ptrAt, if_neg hj, e, List.take_of_length_le (by omega)]
    simp [freeLoop]
  | succ fuel ih =>
    by_cases hj : j < cs.length
    · obtain ⟨s, hs⟩ := hlive j (le_refl _) hj
      have hd := deref_seg h0 cs j s hs
      have hlen : (cs.set j none).length = cs.length := by simp
      have hlive1 : ∀ k, j + 1 ≤ k → k < (cs.set j none).length →
          ∃ s, (cs.set j none)[k]? = some (some s) := by
        intro k hk1 hk2
        rw [List.getElem?_set_ne (by omega)]
        exact hlive k (by omega) (by simpa using hk2)
      have hrun := ih (cs.set j none) (j + 1) hlive1 (by rw [hlen]; omega)
      rw [hlen, take_set_none cs j hj] at hrun
      rw [ptrAt, if_pos hj]
      simp only [freeLoop, hd, Option.bind_eq_bind, Option.some_bind, segNode_next, free]
      have := set_seg h0 j cs none
      simp only [Option.map_none'] at this
      rw [this, hrun]
    · have e : cs.length - j = 0 := by omega
      rw [ptrAt, if_neg hj, e, List.take_of_length_le (by omega)]
      simp [freeLoop]

theorem freeLoop_dll (h0 : Heap) (fuel : Nat) (xs : List Song) (hfuel : xs.length ≤ fuel) :
    freeLoop fuel (h0 ++ dll h0.length xs) (headPtr h0.length xs) =
      some (h0 ++ List.replicate xs.length none) := by
  have := freeLoop_seg h0 fuel (xs.map some) 0
    (by
      intro k _ hk
      rw [List.length_map] at hk
      exact ⟨xs[k], by simp [List.getElem?_eq_getElem hk]⟩)
    (by simpa using hfuel)
  simpa [dll, headPtr_eq_ptrAt, seg_replicate_none] using this

/-! ## The shuffle on lists of songs -/

theorem swapAt_perm (ys : List Song) (i r : Nat) : (swapAt ys i r).Perm ys := by
  by_cases hi : i < ys.length
  · by_cases hr : r < ys.length
    · rw [swapAt_eq ys i r hi hr, List.perm_iff_count]
      intro b
      have hr1 : r < (ys.set i ys[r]).length := by simpa using hr
      rw [List.count_set _ _ _ _ hr1, List.count_set _ _ _ _ hi]
      have hget : (ys.set i ys[r])[r] = ys[r] := by
        rw [List.getElem_set]
        split <;> rfl
      rw [hget]
      have h1 : (ys[i] == b) = true → 1 ≤ List.count b ys := by
        intro h
        have : ys[i] = b := by simpa using h
        rw [← this]
        exact List.count_pos_iff.mpr (List.getElem_mem _)
      have h2 : (ys[r] == b) = true → 1 ≤ List.count b ys := by
        intro h
        have : ys[r] = b := by simpa using h
        rw [← this]
        exact List.count_pos_iff.mpr (List.getElem_mem _)
      by_cases c1 : (ys[i] == b) = true <;> by_cases c2 : (ys[r] == b) = true
      · have := h1 c1
        simp only [c1, c2, if_true]
        omega
      · have := h1 c1
        simp only [c1, c2, if_true, if_false, Bool.false_eq_true]
        omega
      · have := h2 c2
        simp only [c1, c2, if_true, if_false, Bool.false_eq_true]
        omega
      · simp only [c1, c2, if_false, Bool.false_eq_true]
        omega
    · simp [swapAt, List.getElem?_eq_none (not_lt.mp hr)]
  · simp [swapAt, List.getElem?_eq_none (not_lt.mp hi)]

theorem swapAt_getElem? (ys : List Song) (i r k : Nat) (hi : i < ys.length)
    (hr : r < ys.length) :
    (swapAt ys i r)[k]? = if k = r then ys[i]? else if k = i then ys[r]? else ys[k]? := by
  rw [swapAt_eq ys i r hi hr]
  simp only [List.getElem?_set, List.length_set]
  by_cases h1 : r = k
  · subst h1; simp [hr, List.getElem?_eq_getElem hi]
  · by_cases h2 : i = k
    · subst h2
      have : ¬ i = r := fun h => h1 h.symm
      simp [h1, hi, this, List.getElem?_eq_getElem hr]
    · have e1 : ¬ k = r := fun h => h1 h.symm
      have e2 : ¬ k = i := fun h => h2 h.symm
      simp [h1, h2, e1, e2]

theorem shuffleSongs_perm (rng : Nat → Int) (numSongs : Int) (fuel : Nat) (ys : List Song)
    (calls i : Nat) (res : List Song × Nat)
    (h : shuffleSongs rng numSongs fuel ys calls i = some res) : res.1.Perm ys := by
  induction fuel generalizing ys calls i with
  | zero =>
    unfold shuffleSongs at h
    split at h
    · cases h
    · cases h; exact List.Perm.refl _
  | succ fuel ih =>
    unfold shuffleSongs at h
    split at h
    · simp only [] at h
      split at h
      · exact (ih _ _ _ h).trans (swapAt_perm _ _ _)
      · cases h
    · cases h; exact List.Perm.refl _


theorem shuffleSongs_length (rng : Nat → Int) (numSongs : Int) (fuel : Nat) (ys : List Song)
    (calls i : Nat) (res : List Song × Nat)
    (h : shuffleSongs rng numSongs fuel ys calls i = some res) :
    res.1.length = ys.length :=
  (shuffleSongs_perm rng numSongs fuel ys calls i res h).length_eq

theorem shuffleSongs_returns (rng : Nat → Int) (numSongs : Int) (fuel : Nat)
    (ys : List Song) (calls i : Nat) (hn : numSongs ≤ ys.length)
    (hfuel : ys.length - i ≤ fuel) :
    ∃ res, shuffleSongs rng numSongs fuel ys calls i = some res := by
  induction fuel generalizing ys calls i with
  | zero =>
    unfold shuffleSongs
    rw [if_neg (by omega)]
    exact ⟨_, rfl⟩
  | succ fuel ih =>
    unfold shuffleSongs
    by_cases hc : i < ys.length ∧ (i : Int) < numSongs - 1
    · rw [if_pos hc]
      simp only []
      have hpos : (0 : Int) < numSongs - i := by omega
      have hlt := Int.tmod_lt_of_pos (rng calls) hpos
      have hr : ((i : Int) + (rng calls).tmod (numSongs - i)).toNat < ys.length := by omega
      rw [if_pos hr]
      exact ih _ _ _ (by rw [swapAt_length]; exact hn) (by rw [swapAt_length]; omega)
    · rw [if_neg hc]
      exact ⟨_, rfl⟩

theorem displayShuffledPlaylist_eq (rng : Nat → Int) (fuel : Nat) (m : Machine)
    (xs : List Song) (hsrc : songsFrom m.heap fuel m.player.head = some xs) :
    displayShuffledPlaylist rng fuel m =
      (shuffleSongs rng m.player.numSongs fuel xs m.randCalls 0).map (fun res =>
        { m with
          heap := m.heap ++ List.replicate xs.length none
          randCalls := res.2
          trace := m.trace ++
            Event.printf "Shuffled Playlist (%s):\n" [Arg.str m.player.playlistName] ::
              entryEvents 1 res.1 }) := by
  have hlen := songsFrom_length_le _ _ _ _ hsrc
  have hloop := shuffleLoop_dll rng m.player.numSongs m.heap fuel xs m.randCalls 0
  rw [← headPtr_eq_ptrAt] at hloop
  simp only [displayShuffledPlaylist, freeCopiedPlaylist,
    copyPlaylist_dll m.heap fuel xs _ hsrc, Option.bind_eq_bind, Option.some_bind]
  have hloop1 : shuffleLoop rng m.player.numSongs (headPtr m.heap.length xs) fuel
      (m.heap ++ dll m.heap.length xs) m.randCalls (headPtr m.heap.length xs) 0 =
      (shuffleSongs rng m.player.numSongs fuel xs m.randCalls 0).map
        (fun res => (m.heap ++ dll m.heap.length res.1, res.2)) := by
    exact_mod_cast hloop
  rw [hloop1]
  cases hres : shuffleSongs rng m.player.numSongs fuel xs m.randCalls 0 with
  | none => rfl
  | some res =>
    have hl := shuffleSongs_length _ _ _ _ _ _ _ hres
    have hhead : headPtr m.heap.length xs = headPtr m.heap.length res.1 := by
      rw [headPtr_eq_ptrAt, headPtr_eq_ptrAt, hl]
    have hdisp := songsFrom_dll m.heap res.1 fuel 0 (by omega)
    rw [← headPtr_eq_ptrAt, List.drop_zero] at hdisp
    have hfree := freeLoop_dll m.heap fuel res.1 (by omega)
    simp only [Option.map_some', Option.some_bind, hhead, displayLoop_eq, hdisp, hfree, hl]

theorem songsFrom_append_left (h : Heap) (l : Heap) (fuel : Nat) (p : Ptr) (xs : List Song)
    (hs : songsFrom h fuel p = some xs) : songsFrom (h ++ l) fuel p = some xs := by
  induction fuel generalizing p xs with
  | zero =>
    cases p with
    | none => exact hs
    | some a => simp [songsFrom] at hs
  | succ fuel ih =>
    cases p with
    | none => exact hs
    | some a =>
      obtain ⟨n, rest, h1, h2, h3⟩ := (songsFrom_some_iff h fuel a xs).mp hs
      exact (songsFrom_some_iff _ fuel a xs).mpr
        ⟨n, rest, deref_append_left l h1, ih _ _ h2, h3⟩

theorem shuffleSongs_short (rng : Nat → Int) (fuel : Nat) (ys : List Song) (calls : Nat)
    (hn : ys.length ≤ 1) :
    shuffleSongs rng ys.length fuel ys calls 0 = some (ys, calls) := by
  unfold shuffleSongs
  rw [if_neg (by push_cast; omega)]

/-! ## The load loop -/

theorem fgetsAux_line (k : Nat) (l rest : List Char) (hnl : '\n' ∉ l) (hk : l.length < k) :
    fgetsAux k (l ++ '\n' :: rest) = (l ++ ['\n'], rest) := by
  induction l generalizing k with
  | nil =>
    cases k with
    | zero => simp at hk
    | succ k => simp [fgetsAux]
  | cons c l ih =>
    cases k with
    | zero => simp at hk
    | succ k =>
      have hc : c ≠ '\n' := fun h => hnl (by simp [h])
      have hl : '\n' ∉ l := fun h => hnl (by simp [h])
      have := ih k hl (by simpa using hk)
      simp [fgetsAux, hc, this]

theorem fgets_line (l rest : List Char) (hnl : '\n' ∉ l) (hlen : l.length ≤ 254) :
    fgets MAX_LINE_LENGTH (l ++ '\n' :: rest) = some (l ++ ['\n'], rest) := by
  have h := fgetsAux_line 255 l rest hnl (by omega)
  cases l with
  | nil => simpa [fgets, MAX_LINE_LENGTH] using h
  | cons c l => simpa [fgets, MAX_LINE_LENGTH] using h

theorem loadLine_line (l : List Char) (hnl : '\n' ∉ l) (m : Machine) :
    loadLine (l ++ ['\n']) m =
      if l = [] then some m
      else
        match recordOf l with
        | some song => addSong m song
        | none => some { m with trace := m.trace ++ [lineError (l ++ ['\n'])] } := by
  cases l with
  | nil => simp [loadLine]
  | cons c l =>
    have hc : c ≠ '\n' := fun h => hnl (by simp [h])
    simp [loadLine, recordOf, hc]

theorem length_le_fileOf (lines : List (List Char)) :
    lines.length ≤ (fileOf lines).length := by
  induction lines with
  | nil => simp [fileOf]
  | cons l ls ih => simp [fileOf]; omega

theorem loadLoop_fileOf (lines : List (List Char)) (fuel : Nat) (m : Machine) (h0 : Heap)
    (ys : List Song) (count : Int)
    (hshort : ∀ l ∈ lines, l.length ≤ 254) (hnl : ∀ l ∈ lines, '\n' ∉ l)
    (hfuel : lines.length ≤ fuel) :
    loadLoop fuel (fileOf lines) (withList m h0 ys count) =
      some (withList
        { m with trace := m.trace ++
            (lines.filter (fun l => reported l)).map (fun l => lineError (l ++ ['\n'])) }
        h0 (ys ++ lines.filterMap recordOf)
        (count + ((lines.filterMap recordOf).length : Int))) := by
  induction lines generalizing fuel m ys count with
  | nil =>
    unfold loadLoop
    simp [fileOf, fgets]
  | cons l ls ih =>
    have hl1 := hshort l (by simp)
    have hl2 := hnl l (by simp)
    have hs : ∀ l ∈ ls, l.length ≤ 254 := fun x hx => hshort x (by simp [hx])
    have hn : ∀ l ∈ ls, '\n' ∉ l := fun x hx => hnl x (by simp [hx])
    cases fuel with
    | zero => simp at hfuel
    | succ fuel =>
      have hf : ls.length ≤ fuel := by simpa using hfuel
      unfold loadLoop
      simp only [fileOf, fgets_line l _ hl2 hl1, loadLine_line l hl2, Option.bind_eq_bind]
      by_cases hl : l = []
      · subst hl
        have e1 : recordOf [] = none := by decide
        have e2 : reported [] = false := by decide
        simp only [if_true, Option.some_bind, ih fuel m ys count hs hn hf,
          List.filterMap_cons, e1, List.filter_cons, e2]
        rfl
      · cases hrec : recordOf l with
        | none =>
          have e2 : reported l = true := by simp [reported, hl, hrec]
          have hm : ({ withList m h0 ys count with
              trace := (withList m h0 ys count).trace ++ [lineError (l ++ ['\n'])] } : Machine) =
              withList { m with trace := m.trace ++ [lineError (l ++ ['\n'])] } h0 ys count := rfl
          simp only [hl, if_false, Option.some_bind, hm,
            ih fuel _ ys count hs hn hf, List.filterMap_cons, hrec, List.filter_cons, e2,
            if_true, List.map_cons, List.append_assoc, List.singleton_append]
        | some song =>
          have e2 : reported l = false := by simp [reported, hrec]
          simp only [hl, if_false, addSong_withList, Option.some_bind,
            ih fuel m (ys ++ [song]) (count + 1) hs hn hf, List.filterMap_cons, hrec,
            List.filter_cons, e2, List.append_assoc, List.singleton_append,
            List.length_cons]
          congr 2
          push_cast
          ring

/-! ## The line parser -/

theorem scanUntil_append (w : Nat) (c : Char) (s : List Char) :
    (scanUntil w c s).1 ++ (scanUntil w c s).2 = s := by
  induction s generalizing w with
  | nil => cases w <;> simp [scanUntil]
  | cons x s ih =>
    cases w with
    | zero => simp [scanUntil]
    | succ w =>
      by_cases hx : x = c
      · simp [scanUntil, hx]
      · simp [scanUntil, hx, ih w]

theorem scanUntil_not_mem (w : Nat) (c : Char) (s : List Char) :
    c ∉ (scanUntil w c s).1 := by
  induction s generalizing w with
  | nil => cases w <;> simp [scanUntil]
  | cons x s ih =>
    cases w with
    | zero => simp [scanUntil]
    | succ w =>
      by_cases hx : x = c
      · simp [scanUntil, hx]
      · simp [scanUntil, hx, ih w, Ne.symm hx]

theorem scanUntil_length (w : Nat) (c : Char) (s : List Char) :
    (scanUntil w c s).1.length ≤ w := by
  induction s generalizing w with
  | nil => cases w <;> simp [scanUntil]
  | cons x s ih =>
    cases w with
    | zero => simp [scanUntil]
    | succ w =>
      by_cases hx : x = c
      · simp [scanUntil, hx]
      · simp [scanUntil, hx, ih w]

theorem scanUntil_stop (w : Nat) (c : Char) (f r : List Char) (hc : c ∉ f)
    (hlen : f.length ≤ w) : scanUntil w c (f ++ c :: r) = (f, c :: r) := by
  induction f generalizing w with
  | nil => cases w <;> simp [scanUntil]
  | cons x f ih =>
    cases w with
    | zero => simp at hlen
    | succ w =>
      have hx : x ≠ c := fun h => hc (by simp [h])
      have hf : c ∉ f := fun h => hc (by simp [h])
      have := ih w hf (by simpa using hlen)
      simp [scanUntil, hx, this]

theorem scanUntil_end (w : Nat) (c : Char) (rest : List Char) (hc : c ∉ rest) :
    (scanUntil w c (rest ++ [c])).1 = rest.take w := by
  induction rest generalizing w with
  | nil => cases w <;> simp [scanUntil]
  | cons x rest ih =>
    cases w with
    | zero => simp [scanUntil]
    | succ w =>
      have hx : x ≠ c := fun h => hc (by simp [h])
      have hf : c ∉ rest := fun h => hc (by simp [h])
      simp [scanUntil, hx, ih w hf]

theorem parseLine_eq_some (s : List Char) (song : Song) :
    parseLine s = some song ↔
      ∃ t r1 a r2 d r3 f r4,
        scanUntil 99 ',' s = (t, ',' :: r1) ∧ t ≠ [] ∧
        scanUntil 99 ',' r1 = (a, ',' :: r2) ∧ a ≠ [] ∧
        scanUntil 99 ',' r2 = (d, ',' :: r3) ∧ d ≠ [] ∧
        scanUntil 99 '\n' r3 = (f, r4) ∧ f ≠ [] ∧
        song = { title := String.mk (t.take 99), artist := String.mk (a.take 99),
                 duration := String.mk (d.take 99), filename := String.mk (f.take 99) } := by
  constructor
  · intro h
    simp only [parseLine, lineFormat, sscanf] at h
    cases h1 : scanUntil 99 ',' s with
    | mk t q1 =>
    rw [h1] at h
    by_cases ht : t = []
    · simp [ht] at h
    cases q1 with
    | nil => simp [ht] at h
    | cons c1 r1 =>
    by_cases hc1 : c1 = ','
    swap
    · simp [ht, hc1] at h
    subst hc1
    simp only [ht, if_false, if_true] at h
    cases h2 : scanUntil 99 ',' r1 with
    | mk a q2 =>
    rw [h2] at h
    by_cases ha : a = []
    · simp [ht, ha] at h
    cases q2 with
    | nil => simp [ht, ha] at h
    | cons c2 r2 =>
    by_cases hc2 : c2 = ','
    swap
    · simp [ht, ha, hc2] at h
    subst hc2
    simp only [ha, if_false, if_true] at h
    cases h3 : scanUntil 99 ',' r2 with
    | mk d q3 =>
    rw [h3] at h
    by_cases hd : d = []
    · simp [ht, ha, hd] at h
    cases q3 with
    | nil => simp [ht, ha, hd] at h
    | cons c3 r3 =>
    by_cases hc3 : c3 = ','
    swap
    · simp [ht, ha, hd, hc3] at h
    subst hc3
    simp only [hd, if_false, if_true] at h
    cases h4 : scanUntil 99 '\n' r3 with
    | mk f r4 =>
    rw [h4] at h
    by_cases hf : f = []
    · simp [ht, ha, hd, hf] at h
    simp [ht, ha, hd, hf, strncpy, MAX_TITLE_LENGTH, MAX_FILENAME_LENGTH] at h
    exact ⟨t, r1, a, r2, d, r3, f, r4, rfl, ht, h2, ha, h3, hd, h4, hf, h.symm⟩
  · rintro ⟨t, r1, a, r2, d, r3, f, r4, h1, ht, h2, ha, h3, hd, h4, hf, hs⟩
    simp [parseLine, lineFormat, sscanf, h1, ht, h2, ha, h3, hd, h4, hf, hs, strncpy,
      MAX_TITLE_LENGTH, MAX_FILENAME_LENGTH]


theorem scanUntil_facts (w : Nat) (c : Char) (s f r : List Char)
    (h : scanUntil w c s = (f, r)) : s = f ++ r ∧ c ∉ f ∧ f.length ≤ w := by
  have h1 := scanUntil_append w c s
  have h2 := scanUntil_not_mem w c s
  have h3 := scanUntil_length w c s
  rw [h] at h1 h2 h3
  exact ⟨h1.symm, h2, h3⟩

theorem recordOf_eq_some (l : List Char) (hnl : '\n' ∉ l) (song : Song) :
    recordOf l = some song ↔
      ∃ t a d rest, l = t ++ ',' :: (a ++ ',' :: (d ++ ',' :: rest)) ∧
        t ≠ [] ∧ ',' ∉ t ∧ t.length ≤ 99 ∧
        a ≠ [] ∧ ',' ∉ a ∧ a.length ≤ 99 ∧
        d ≠ [] ∧ ',' ∉ d ∧ d.length ≤ 99 ∧
        rest ≠ [] ∧
        song = { title := String.mk t, artist := String.mk a, duration := String.mk d,
                 filename := String.mk (rest.take 99) } := by
  rw [recordOf, parseLine_eq_some]
  constructor
  · rintro ⟨t, r1, a, r2, d, r3, f, r4, h1, ht, h2, ha, h3, hd, h4, hf, hs⟩
    obtain ⟨e1, ct, lt⟩ := scanUntil_facts _ _ _ _ _ h1
    obtain ⟨e2, ca, la⟩ := scanUntil_facts _ _ _ _ _ h2
    obtain ⟨e3, cd, ld⟩ := scanUntil_facts _ _ _ _ _ h3
    obtain ⟨e4, -, -⟩ := scanUntil_facts _ _ _ _ _ h4
    have hr3 : r3 ≠ [] := by
      intro h
      rw [h] at e4
      have := List.append_eq_nil.mp e4.symm
      exact hf this.1
    rcases List.eq_nil_or_concat r3 with h | ⟨rest, b, hb⟩
    · exact absurd h hr3
    · rw [List.concat_eq_append] at hb
      subst hb
      have hl : l ++ ['\n'] = (t ++ ',' :: (a ++ ',' :: (d ++ ',' :: rest))) ++ [b] := by
        rw [e1, e2, e3]; simp
      obtain ⟨el, eb⟩ := List.append_inj' hl rfl
      have hb : b = '\n' := by simpa using eb.symm
      subst hb
      have hrest : '\n' ∉ rest := by
        intro h; apply hnl; rw [el]; simp [h]
      have hf2 : f = rest.take 99 := by
        have := scanUntil_end 99 '\n' rest hrest
        rw [h4] at this
        exact this
      have hrne : rest ≠ [] := by
        intro h; apply hf; rw [hf2, h]; rfl
      refine ⟨t, a, d, rest, el, ht, ct, lt, ha, ca, la, hd, cd, ld, hrne, ?_⟩
      rw [hs, hf2, List.take_of_length_le lt, List.take_of_length_le la,
        List.take_of_length_le ld, List.take_take]
      simp
  · rintro ⟨t, a, d, rest, el, ht, ct, lt, ha, ca, la, hd, cd, ld, hrne, hs⟩
    have hrest : '\n' ∉ rest := by
      intro h; apply hnl; rw [el]; simp [h]
    have h4 := scanUntil_end 99 '\n' rest hrest
    refine ⟨t, a ++ ',' :: (d ++ ',' :: (rest ++ ['\n'])), a, d ++ ',' :: (rest ++ ['\n']), d,
      rest ++ ['\n'], rest.take 99, (scanUntil 99 '\n' (rest ++ ['\n'])).2, ?_, ht, ?_, ha, ?_, hd,
      ?_, ?_, ?_⟩
    · rw [el]
      have := scanUntil_stop 99 ',' t (a ++ ',' :: (d ++ ',' :: (rest ++ ['\n']))) ct lt
      simpa using this
    · exact scanUntil_stop 99 ',' a _ ca la
    · exact scanUntil_stop 99 ',' d _ cd ld
    · rw [← h4]
    · cases rest with
      | nil => exact absurd rfl hrne
      | cons x rest => simp
    · rw [hs, List.take_of_length_le lt, List.take_of_length_le la,
        List.take_of_length_le ld, List.take_take]
      simp


/-! ## Fisher-Yates: the shuffle loop as a bijection -/

theorem validFrom_cons (n i r : Nat) (ds : List Nat) :
    validFrom n i (r :: ds) = true ↔
      i + 1 < n ∧ i ≤ r ∧ r < n ∧ validFrom n (i + 1) ds = true := by
  simp [validFrom, and_assoc]

theorem validFrom_nil (n i : Nat) : validFrom n i [] = true ↔ n ≤ i + 1 := by
  simp [validFrom]

theorem fisherYates_perm (d : List Nat) (i : Nat) (ys : List Song) :
    (fisherYates d i ys).Perm ys := by
  induction d generalizing i ys with
  | nil => exact List.Perm.refl _
  | cons r ds ih => exact (ih _ _).trans (swapAt_perm _ _ _)

theorem fisherYates_length (d : List Nat) (i : Nat) (ys : List Song) :
    (fisherYates d i ys).length = ys.length :=
  (fisherYates_perm d i ys).length_eq

theorem swapAt_nodup (ys : List Song) (i r : Nat) (h : ys.Nodup) : (swapAt ys i r).Nodup :=
  (swapAt_perm ys i r).nodup_iff.mpr h

/-- Entries before the current index are not touched by later iterations. -/
theorem fisherYates_getElem?_lt (n : Nat) (d : List Nat) (i : Nat) (ys : List Song)
    (hlen : ys.length = n) (hv : validFrom n i d = true) (k : Nat) (hk : k < i) :
    (fisherYates d i ys)[k]? = ys[k]? := by
  induction d generalizing i ys with
  | nil => rfl
  | cons r ds ih =>
    obtain ⟨h1, h2, h3, h4⟩ := (validFrom_cons n i r ds).mp hv
    simp only [fisherYates]
    rw [ih (i + 1) (swapAt ys i r) (by rw [swapAt_length, hlen]) h4 (by omega),
      swapAt_getElem? ys i r k (by omega) (by omega), if_neg (by omega), if_neg (by omega)]

/-- The entry placed at index `i` by iteration `i` is the one drawn. -/
theorem fisherYates_getElem?_self (n : Nat) (r : Nat) (ds : List Nat) (i : Nat)
    (ys : List Song) (hlen : ys.length = n) (hv : validFrom n i (r :: ds) = true) :
    (fisherYates (r :: ds) i ys)[i]? = ys[r]? := by
  obtain ⟨h1, h2, h3, h4⟩ := (validFrom_cons n i r ds).mp hv
  simp only [fisherYates]
  rw [fisherYates_getElem?_lt n ds (i + 1) (swapAt ys i r) (by rw [swapAt_length, hlen]) h4 i
    (by omega), swapAt_getElem? ys i r i (by omega) (by omega)]
  by_cases hir : i = r
  · subst hir; simp
  · simp [hir]

theorem fisherYates_injective (n : Nat) (d d1 : List Nat) (i : Nat) (ys : List Song)
    (hlen : ys.length = n) (hnd : ys.Nodup) (hv : validFrom n i d = true)
    (hv1 : validFrom n i d1 = true) (heq : fisherYates d i ys = fisherYates d1 i ys) :
    d = d1 := by
  induction d generalizing d1 i ys with
  | nil =>
    cases d1 with
    | nil => rfl
    | cons r1 ds1 =>
      have h := (validFrom_nil n i).mp hv
      have h1 := (validFrom_cons n i r1 ds1).mp hv1
      omega
  | cons r ds ih =>
    cases d1 with
    | nil =>
      have h := (validFrom_nil n i).mp hv1
      have h1 := (validFrom_cons n i r ds).mp hv
      omega
    | cons r1 ds1 =>
      obtain ⟨a1, a2, a3, a4⟩ := (validFrom_cons n i r ds).mp hv
      obtain ⟨b1, b2, b3, b4⟩ := (validFrom_cons n i r1 ds1).mp hv1
      have e1 := fisherYates_getElem?_self n r ds i ys hlen hv
      have e2 := fisherYates_getElem?_self n r1 ds1 i ys hlen hv1
      rw [heq, e2] at e1
      have hr : r < ys.length := by omega
      have hr1 : r1 < ys.length := by omega
      rw [List.getElem?_eq_getElem hr, List.getElem?_eq_getElem hr1] at e1
      have hrr : r1 = r := (hnd.getElem_inj_iff).mp (Option.some.inj e1)
      subst hrr
      simp only [fisherYates] at heq
      have := ih ds1 (i + 1) (swapAt ys i r1) (by rw [swapAt_length, hlen])
        (swapAt_nodup ys i r1 hnd) a4 b4 heq
      rw [this]

theorem exists_draw (ys zs : List Song) (i : Nat) (hi : i < ys.length)
    (hperm : zs.Perm ys) (hnd : ys.Nodup)
    (hagree : ∀ j, j < i → zs[j]? = ys[j]?) :
    ∃ r, i ≤ r ∧ r < ys.length ∧ ys[r]? = zs[i]? := by
  have hzl : zs.length = ys.length := hperm.length_eq
  have hzi : i < zs.length := by omega
  have hznd : zs.Nodup := hperm.nodup_iff.mpr hnd
  have hmem : zs[i] ∈ ys := hperm.mem_iff.mp (List.getElem_mem _)
  obtain ⟨r, hr, hrz⟩ := List.getElem_of_mem hmem
  refine ⟨r, ?_, hr, ?_⟩
  · by_contra hlt
    have hri : r < i := by omega
    have h1 := hagree r hri
    rw [List.getElem?_eq_getElem (by omega), List.getElem?_eq_getElem hr] at h1
    have h2 : zs[r] = zs[i] := by rw [Option.some.inj h1, hrz]
    have := (hznd.getElem_inj_iff).mp h2
    omega
  · rw [List.getElem?_eq_getElem hr, List.getElem?_eq_getElem hzi, hrz]

theorem fisherYates_surjective (n k : Nat) (i : Nat) (ys zs : List Song)
    (hk : n - 1 - i = k) (hlen : ys.length = n) (hnd : ys.Nodup) (hperm : zs.Perm ys)
    (hagree : ∀ j, j < i → zs[j]? = ys[j]?) :
    ∃ d, validFrom n i d = true ∧ fisherYates d i ys = zs := by
  have hzl : zs.length = ys.length := hperm.length_eq
  induction k generalizing i ys with
  | zero =>
    refine ⟨[], (validFrom_nil n i).mpr (by omega), ?_⟩
    simp only [fisherYates]
    apply List.ext_getElem?
    intro j
    by_cases hj : j < i
    · exact (hagree j hj).symm
    · by_cases hjn : j < n
      · have hji : j = i := by omega
        subst hji
        obtain ⟨r, h1, h2, h3⟩ := exists_draw ys zs j (by omega) hperm hnd hagree
        have : r = j := by omega
        subst this
        exact h3
      · rw [List.getElem?_eq_none (by omega), List.getElem?_eq_none (by omega)]
  | succ k ih =>
    have hi : i + 1 < n := by omega
    obtain ⟨r, h1, h2, h3⟩ := exists_draw ys zs i (by omega) hperm hnd hagree
    have hagree1 : ∀ j, j < i + 1 → zs[j]? = (swapAt ys i r)[j]? := by
      intro j hj
      rw [swapAt_getElem? ys i r j (by omega) h2]
      by_cases hji : j = i
      · subst hji
        by_cases hjr : j = r
        · subst hjr; simp [h3]
        · simp [hjr, h3]
      · rw [if_neg (by omega), if_neg hji]
        exact hagree j (by omega)
    obtain ⟨ds, hv, hfy⟩ := ih (i + 1) (swapAt ys i r) (by omega)
      (by rw [swapAt_length, hlen]) (swapAt_nodup ys i r hnd)
      (hperm.trans (swapAt_perm ys i r).symm) hagree1 (by rw [swapAt_length]; exact hzl)
    exact ⟨r :: ds, (validFrom_cons n i r ds).mpr ⟨hi, h1, by omega, hv⟩, hfy⟩


theorem validFrom_getElem? (n : Nat) (d : List Nat) (i k r : Nat)
    (hv : validFrom n i d = true) (hk : d[k]? = some r) :
    i + k + 1 < n ∧ i + k ≤ r ∧ r < n := by
  induction d generalizing i k with
  | nil => simp at hk
  | cons r0 ds ih =>
    obtain ⟨h1, h2, h3, h4⟩ := (validFrom_cons n i r0 ds).mp hv
    cases k with
    | zero =>
      simp at hk
      subst hk
      omega
    | succ k =>
      simp at hk
      have := ih (i + 1) k h4 hk
      omega

theorem shuffleSongs_draws (rng : Nat → Int) (n calls : Nat) (d : List Nat) (i : Nat)
    (ys : List Song) (fuel : Nat) (hv : validFrom n i d = true) (hlen : ys.length = n)
    (hfuel : d.length ≤ fuel)
    (hr : ∀ k r, d[k]? = some r → drawAt rng n calls (i + k) = r) :
    shuffleSongs rng (n : Int) fuel ys (calls + i) i =
      some (fisherYates d i ys, calls + i + d.length) := by
  induction d generalizing i ys fuel with
  | nil =>
    have h := (validFrom_nil n i).mp hv
    unfold shuffleSongs
    rw [if_neg (by omega)]
    rfl
  | cons r ds ih =>
    obtain ⟨h1, h2, h3, h4⟩ := (validFrom_cons n i r ds).mp hv
    cases fuel with
    | zero => simp at hfuel
    | succ fuel =>
      have hdraw : drawAt rng n calls i = r := by
        have := hr 0 r (by simp)
        simpa using this
      unfold shuffleSongs
      rw [if_pos ⟨by omega, by omega⟩]
      simp only []
      have e : ((i : Int) + (rng (calls + i)).tmod ((n : Int) - i)).toNat = r := hdraw
      rw [e, if_pos (by omega)]
      have := ih (i + 1) (swapAt ys i r) fuel h4 (by rw [swapAt_length, hlen])
        (by simpa using hfuel)
        (by
          intro k r1 hk
          have := hr (k + 1) r1 (by simpa using hk)
          rw [show i + 1 + k = i + (k + 1) by omega]
          exact this)
      rw [show calls + (i + 1) = calls + i + 1 by omega] at this
      rw [this]
      simp only [fisherYates, List.length_cons]
      congr 2
      omega

theorem drawsFrom_getElem? (rng : Nat → Int) (n calls k i j r : Nat)
    (h : (drawsFrom rng n calls k i)[j]? = some r) : drawAt rng n calls (i + j) = r := by
  induction k generalizing i j with
  | zero => simp [drawsFrom] at h
  | succ k ih =>
    cases j with
    | zero => simpa [drawsFrom] using h
    | succ j =>
      simp only [drawsFrom, List.getElem?_cons_succ] at h
      have := ih (i + 1) j h
      rw [show i + (j + 1) = i + 1 + j by omega]
      exact this

theorem drawsFrom_length (rng : Nat → Int) (n calls k i : Nat) :
    (drawsFrom rng n calls k i).length = k := by
  induction k generalizing i with
  | zero => rfl
  | succ k ih => simp [drawsFrom, ih]

theorem drawAt_bounds (rng : Nat → Int) (n calls i : Nat) (hrng : 0 ≤ rng (calls + i))
    (hi : i + 1 < n) : i ≤ drawAt rng n calls i ∧ drawAt rng n calls i < n := by
  have hpos : (0 : Int) < (n : Int) - i := by omega
  have h1 := Int.tmod_lt_of_pos (rng (calls + i)) hpos
  have h2 := Int.tmod_nonneg ((n : Int) - i) hrng
  unfold drawAt
  omega

theorem drawsFrom_valid (rng : Nat → Int) (hrng : ∀ k, 0 ≤ rng k) (n calls k i : Nat)
    (hk : n - 1 - i = k) : validFrom n i (drawsFrom rng n calls k i) = true := by
  induction k generalizing i with
  | zero => exact (validFrom_nil n i).mpr (by omega)
  | succ k ih =>
    have hi : i + 1 < n := by omega
    obtain ⟨b1, b2⟩ := drawAt_bounds rng n calls i (hrng _) hi
    simp only [drawsFrom]
    exact (validFrom_cons n i _ _).mpr ⟨hi, b1, b2, ih (i + 1) (by omega)⟩

theorem validFrom_length (n : Nat) (d : List Nat) (i : Nat) (hv : validFrom n i d = true) :
    d.length = n - 1 - i := by
  induction d generalizing i with
  | nil =>
    have := (validFrom_nil n i).mp hv
    simp; omega
  | cons r ds ih =>
    obtain ⟨h1, h2, h3, h4⟩ := (validFrom_cons n i r ds).mp hv
    have := ih (i + 1) h4
    simp; omega

theorem drawsFrom_eq (rng : Nat → Int) (n calls : Nat) (d : List Nat) (i : Nat)
    (hr : ∀ k r, d[k]? = some r → drawAt rng n calls (i + k) = r) :
    drawsFrom rng n calls d.length i = d := by
  induction d generalizing i with
  | nil => rfl
  | cons r ds ih =>
    have h0 : drawAt rng n calls i = r := by simpa using hr 0 r (by simp)
    have hrest := ih (i + 1) (by
      intro k r1 hk
      have := hr (k + 1) r1 (by simpa using hk)
      rw [show i + 1 + k = i + (k + 1) by omega]
      exact this)
    simp only [List.length_cons, drawsFrom, h0, hrest]

theorem randFor_draw (n calls : Nat) (d : List Nat) (hv : validFrom n 0 d = true)
    (k r : Nat) (hk : d[k]? = some r) : drawAt (randFor calls d) n calls (0 + k) = r := by
  obtain ⟨h1, h2, h3⟩ := validFrom_getElem? n d 0 k r hv hk
  have hget : d.getD k 0 = r := by simp [List.getD, hk]
  simp only [drawAt, randFor, zero_add, Nat.add_sub_cancel_left, hget]
  have e : (((r - k : Nat) : Int)).tmod ((n : Int) - (k : Int)) = ((r - k : Nat) : Int) :=
    Int.tmod_eq_of_lt (by omega) (by omega)
  rw [e]
  omega

theorem randFor_nonneg (calls : Nat) (d : List Nat) (k : Nat) : 0 ≤ randFor calls d k := by
  simp [randFor]

theorem shuffledOrder_eq (rng : Nat → Int) (fuel : Nat) (m : Machine) (xs : List Song)
    (hsrc : songsFrom m.heap fuel m.player.head = some xs) :
    shuffledOrder rng fuel m =
      (shuffleSongs rng m.player.numSongs fuel xs m.randCalls 0).map (fun res => res.1) := by
  have hlen := songsFrom_length_le _ _ _ _ hsrc
  have hloop := shuffleLoop_dll rng m.player.numSongs m.heap fuel xs m.randCalls 0
  rw [← headPtr_eq_ptrAt] at hloop
  have hloop1 : shuffleLoop rng m.player.numSongs (headPtr m.heap.length xs) fuel
      (m.heap ++ dll m.heap.length xs) m.randCalls (headPtr m.heap.length xs) 0 =
      (shuffleSongs rng m.player.numSongs fuel xs m.randCalls 0).map
        (fun res => (m.heap ++ dll m.heap.length res.1, res.2)) := by
    exact_mod_cast hloop
  simp only [shuffledOrder, copyPlaylist_dll m.heap fuel xs _ hsrc, Option.bind_eq_bind,
    Option.some_bind, hloop1]
  cases hres : shuffleSongs rng m.player.numSongs fuel xs m.randCalls 0 with
  | none => rfl
  | some res =>
    have hl := shuffleSongs_length _ _ _ _ _ _ _ hres
    have hhead : headPtr m.heap.length xs = headPtr m.heap.length res.1 := by
      rw [headPtr_eq_ptrAt, headPtr_eq_ptrAt, hl]
    have hdisp := songsFrom_dll m.heap res.1 fuel 0 (by omega)
    rw [← headPtr_eq_ptrAt, List.drop_zero] at hdisp
    simp only [Option.map_some', Option.some_bind, hhead, hdisp]


theorem shuffledOrder_of_draws (rng : Nat → Int) (fuel : Nat) (m : Machine) (xs : List Song)
    (d : List Nat) (hsrc : songsFrom m.heap fuel m.player.head = some xs)
    (hwf : m.player.numSongs = xs.length) (hv : validFrom xs.length 0 d = true)
    (hr : ∀ k r, d[k]? = some r → drawAt rng xs.length m.randCalls (0 + k) = r) :
    shuffledOrder rng fuel m = some (fisherYates d 0 xs) := by
  have hlen := songsFrom_length_le _ _ _ _ hsrc
  have hdl := validFrom_length _ _ _ hv
  have := shuffleSongs_draws rng xs.length m.randCalls d 0 xs fuel hv rfl (by omega) hr
  rw [shuffledOrder_eq rng fuel m xs hsrc, hwf]
  rw [Nat.add_zero] at this
  rw [this]
  rfl

theorem validFrom_iff (n : Nat) (d : List Nat) (i : Nat) :
    validFrom n i d = true ↔
      d.length = n - 1 - i ∧ ∀ k r, d[k]? = some r → i + k ≤ r ∧ r < n := by
  constructor
  · intro hv
    exact ⟨validFrom_length n d i hv, fun k r hk =>
      ⟨(validFrom_getElem? n d i k r hv hk).2.1, (validFrom_getElem? n d i k r hv hk).2.2⟩⟩
  · rintro ⟨hl, hb⟩
    induction d generalizing i with
    | nil =>
      simp only [List.length_nil] at hl
      exact (validFrom_nil n i).mpr (by omega)
    | cons r ds ih =>
      simp only [List.length_cons] at hl
      have h0 := hb 0 r (by simp)
      refine (validFrom_cons n i r ds).mpr ⟨by omega, by omega, h0.2, ?_⟩
      apply ih (i + 1) (by omega)
      intro k r1 hk
      have := hb (k + 1) r1 (by simpa using hk)
      omega

theorem validDraws_iff (n : Nat) (d : List Nat) :
    ValidDraws n d ↔ d.length = n - 1 ∧ ∀ i r, d[i]? = some r → i ≤ r ∧ r ≤ n - 1 := by
  rw [ValidDraws, validFrom_iff]
  constructor
  · rintro ⟨hl, hb⟩
    refine ⟨by omega, fun i r hi => ?_⟩
    have := hb i r hi
    omega
  · rintro ⟨hl, hb⟩
    refine ⟨by omega, fun k r hk => ?_⟩
    have h1 := hb k r hk
    have h2 : k < d.length := by
      by_contra hc
      rw [List.getElem?_eq_none (by omega)] at hk
      cases hk
    omega

/-! ## The playback session -/

theorem menuStep_stop (rng : Nat → Int) (fuel : Nat) (sn : Option Int) (audio : Audio)
    (m : Machine) :
    menuStep rng fuel { choice := 3, songNumber := sn, audio := audio } m =
      some (Control.running, stopAction { m with trace := m.trace ++ menuText }) := by
  simp only [menuStep]
  simp only [show ((3 : Int) = 1) = False from by decide,
    show ((3 : Int) = 2) = False from by decide, if_false, if_true]

theorem stopAction_idle (m : Machine) (hidle : m.player.isPlaying = 0) :
    stopAction m = { m with
      trace := m.trace ++ [Event.printf "No song is currently playing.\n" []] } := by
  simp [stopAction, hidle, say]

theorem stopAction_sounding (m : Machine) (hplay : m.player.isPlaying ≠ 0) :
    stopAction m = { m with
      player := { m.player with device := none, isPlaying := 0 }
      trace := m.trace ++
        (match m.player.device with
          | some dev => [Event.aoClose dev]
          | none => []) ++ [Event.printf "Song stopped.\n" []] } := by
  simp only [stopAction, hplay, stopSong, ne_eq, not_false_eq_true, if_true]
  cases hd : m.player.device with
  | none =>
    cases m with
    | mk heap player trace randCalls =>
      cases player
      simp_all
  | some dev => simp

theorem menuStep_toggle_stop (rng : Nat → Int) (fuel : Nat) (sn : Option Int) (audio : Audio)
    (m : Machine) (hplay : m.player.isPlaying ≠ 0) :
    menuStep rng fuel { choice := 2, songNumber := sn, audio := audio } m =
      some (Control.running, stopAction { m with trace := m.trace ++ menuText }) := by
  simp only [menuStep, playAction, stopAction]
  simp only [show ((2 : Int) = 1) = False from by decide, if_false, if_true, hplay, ne_eq,
    not_false_eq_true, Option.map_some']

/-! ## Device handles along the trace -/

theorem openHandles_append (S : List Nat) (a b : List Event) :
    openHandles S (a ++ b) = openHandles (openHandles S a) b := by
  simp [openHandles, List.foldl_append]

theorem openHandles_cons (S : List Nat) (e : Event) (es : List Event) :
    openHandles S (e :: es) = openHandles (handleStep S e) es := rfl

theorem atMostOne_append (S : List Nat) (a b : List Event) :
    atMostOne S (a ++ b) = (atMostOne S a && atMostOne (openHandles S a) b) := by
  induction a generalizing S with
  | nil =>
    cases b with
    | nil => simp [atMostOne, openHandles]
    | cons e es => simp [atMostOne, openHandles]
  | cons e a ih =>
    have := ih (handleStep S e)
    simp [atMostOne, this, openHandles_cons, Bool.and_assoc]

theorem atMostOne_prefix (S : List Nat) (es : List Event) (h : atMostOne S es = true)
    (k : Nat) : (openHandles S (es.take k)).length ≤ 1 := by
  induction es generalizing S k with
  | nil => simpa [atMostOne, openHandles] using h
  | cons e es ih =>
    simp only [atMostOne, Bool.and_eq_true, decide_eq_true_eq] at h
    cases k with
    | zero => simpa [openHandles] using h.1
    | succ k =>
      rw [List.take_succ_cons, openHandles_cons]
      exact ih _ h.2 k

theorem printf_only (S : List Nat) (es : List Event) (h : ∀ e ∈ es, isPrintf e = true) :
    openHandles S es = S ∧ atMostOne S es = decide (S.length ≤ 1) := by
  induction es generalizing S with
  | nil => exact ⟨rfl, rfl⟩
  | cons e es ih =>
    have he : handleStep S e = S := by
      have := h e (by simp)
      cases e <;> simp_all [isPrintf, handleStep]
    have := ih S (fun x hx => h x (by simp [hx]))
    simp [openHandles_cons, atMostOne, he, this]

theorem balanced_printf (es : List Event) (h : ∀ e ∈ es, isPrintf e = true) :
    Balanced es := by
  have := printf_only [] es h
  exact ⟨this.1, by simp [this.2]⟩

theorem balanced_append (a b : List Event) (ha : Balanced a) (hb : Balanced b) :
    Balanced (a ++ b) := by
  refine ⟨?_, ?_⟩
  · rw [openHandles_append, ha.1, hb.1]
  · rw [atMostOne_append, ha.1, ha.2, hb.2]
    rfl

theorem balanced_nil : Balanced [] := ⟨rfl, rfl⟩

theorem menuText_printf : ∀ e ∈ menuText, isPrintf e = true := by
  decide

/-- The events `playSong` adds to the trace. -/
theorem playSong_events (audio : Audio) (filename : String) (m : Machine) :
    ∃ suffix,
      (playSong audio filename m).trace = m.trace ++ suffix ∧
      (playSong audio filename m).heap = m.heap ∧
      (playSong audio filename m).randCalls = m.randCalls ∧
      (playSong audio filename m).player =
        { m.player with
          device := if audio.sfOpenOk = true then audio.aoDevice else m.player.device } ∧
      Balanced suffix ∧
      (∀ d, openCount d suffix ≤ closeCount d suffix) ∧
      (∀ d, closeCount d suffix ≤ 1) := by
  simp only [playSong]
  cases h1 : audio.sfOpenOk with
  | false =>
    refine ⟨_, by simp only [if_true, List.append_assoc]; rfl, rfl, rfl, by simp, ?_, ?_, ?_⟩
    · exact ⟨by simp [openHandles, handleStep], by simp [atMostOne, handleStep]⟩
    · intro d; simp [openCount, closeCount]
    · intro d; simp [closeCount]
  | true =>
    cases h2 : audio.aoDevice with
    | none =>
      refine ⟨_, by simp only [List.append_assoc]; rfl, rfl, rfl, by simp [h2], ?_, ?_, ?_⟩
      · exact ⟨by simp [openHandles, handleStep], by simp [atMostOne, handleStep]⟩
      · intro d; simp [openCount, closeCount]
      · intro d; simp [closeCount]
    | some dev =>
      cases h3 : audio.bufferOk with
      | false =>
        refine ⟨_, by simp only [List.append_assoc]; rfl, rfl, rfl, by simp [h2], ?_, ?_, ?_⟩
        · exact ⟨by simp [openHandles, handleStep], by simp [atMostOne, handleStep]⟩
        · intro d
          simp only [openCount, closeCount]
          by_cases hd : dev = d <;> simp [List.count_cons, hd]
        · intro d
          simp only [closeCount]
          by_cases hd : dev = d <;> simp [List.count_cons, hd]
      | true =>
        refine ⟨_, by simp only [List.append_assoc]; rfl, rfl, rfl, by simp [h2], ?_, ?_, ?_⟩
        · exact ⟨by simp [openHandles, handleStep], by simp [atMostOne, handleStep]⟩
        · intro d
          simp only [openCount, closeCount]
          by_cases hd : dev = d <;> simp [List.count_cons, hd]
        · intro d
          simp only [closeCount]
          by_cases hd : dev = d <;> simp [List.count_cons, hd]

theorem walk_chain (h : Heap) (fuel : Nat) (p : Ptr) (xs : List Song) (j : Nat)
    (hs : songsFrom h fuel p = some xs) (hj : j < xs.length) :
    ∃ a node, walk h j p = some (some a) ∧ deref h (some a) = some node ∧
      xs[j]? = some node.song := by
  induction j generalizing fuel p xs with
  | zero =>
    cases p with
    | none =>
      cases fuel <;> simp [songsFrom] at hs <;> subst hs <;> simp at hj
    | some a =>
      cases fuel with
      | zero => simp [songsFrom] at hs
      | succ fuel =>
        obtain ⟨n, rest, h1, h2, h3⟩ := (songsFrom_some_iff h fuel a xs).mp hs
        exact ⟨a, n, rfl, h1, by simp [h3]⟩
  | succ j ih =>
    cases p with
    | none =>
      cases fuel <;> simp [songsFrom] at hs <;> subst hs <;> simp at hj
    | some a =>
      cases fuel with
      | zero => simp [songsFrom] at hs
      | succ fuel =>
        obtain ⟨n, rest, h1, h2, h3⟩ := (songsFrom_some_iff h fuel a xs).mp hs
        subst h3
        obtain ⟨b, node, w1, w2, w3⟩ := ih fuel n.next rest h2 (by simpa using hj)
        refine ⟨b, node, ?_, w2, by simpa using w3⟩
        simp [walk, h1, w1]

theorem openCount_append (d : Nat) (a b : List Event) :
    openCount d (a ++ b) = openCount d a + openCount d b := by
  simp [openCount, List.count_append]

theorem closeCount_append (d : Nat) (a b : List Event) :
    closeCount d (a ++ b) = closeCount d a + closeCount d b := by
  simp [closeCount, List.count_append]

theorem openCount_printf (d : Nat) (es : List Event) (h : ∀ e ∈ es, isPrintf e = true) :
    openCount d es = 0 := by
  rw [openCount, List.count_eq_zero]
  intro hmem
  have := h _ hmem
  simp [isPrintf] at this

theorem closeCount_printf (d : Nat) (es : List Event) (h : ∀ e ∈ es, isPrintf e = true) :
    closeCount d es = 0 := by
  rw [closeCount, List.count_eq_zero]
  intro hmem
  have := h _ hmem
  simp [isPrintf] at this

/-- Menu choice 2 on an idle player with a valid position: the walk and the
dereference succeed and the step is `playSong` on the selected node. -/
theorem menuStep_play (rng : Nat → Int) (fuel : Nat) (m : Machine) (xs : List Song)
    (k : Int) (audio : Audio) (hidle : m.player.isPlaying = 0)
    (hsrc : songsFrom m.heap fuel m.player.head = some xs)
    (hk1 : 1 ≤ k) (hk2 : k ≤ m.player.numSongs) (hlen : m.player.numSongs ≤ xs.length) :
    ∃ a node,
      walk m.heap (k - 1).toNat m.player.head = some (some a) ∧
      deref m.heap (some a) = some node ∧
      xs[(k - 1).toNat]? = some node.song ∧
      menuStep rng fuel { choice := 2, songNumber := some k, audio := audio } m =
        some (Control.running,
          { playSong audio node.song.filename
              { m with
                trace := m.trace ++ menuText ++
                  [Event.printf "Enter song number to play: " []]
                player := { m.player with currentSong := some a } } with
            player :=
              { (playSong audio node.song.filename
                  { m with
                    trace := m.trace ++ menuText ++
                      [Event.printf "Enter song number to play: " []]
                    player := { m.player with currentSong := some a } }).player with
                isPlaying := 1 } }) := by
  obtain ⟨a, node, w1, w2, w3⟩ := walk_chain m.heap fuel m.player.head xs (k - 1).toNat hsrc
    (by omega)
  refine ⟨a, node, w1, w2, w3, ?_⟩
  simp only [menuStep, playAction, say, hidle]
  simp only [show ((2 : Int) = 1) = False from by decide, if_false, if_true,
    ne_eq, not_true_eq_false, w1, w2, Option.bind_eq_bind, Option.some_bind,
    Option.map_some']
  rw [if_pos ⟨by omega, hk2⟩]
  rfl

theorem menuStep_stop_playing (rng : Nat → Int) (fuel : Nat) (sn : Option Int)
    (audio : Audio) (m : Machine) (hplay : m.player.isPlaying ≠ 0) :
    ∃ m2, menuStep rng fuel { choice := 3, songNumber := sn, audio := audio } m =
        some (Control.running, m2) ∧
      m2.player.isPlaying = 0 ∧ m2.player.device = none ∧
      m2.trace = m.trace ++ menuText ++
        (match m.player.device with
          | some dev => [Event.aoClose dev]
          | none => []) ++ [Event.printf "Song stopped.\n" []] := by
  have hne1 : ({ m with trace := m.trace ++ menuText } : Machine).player.isPlaying ≠ 0 := hplay
  refine ⟨_, menuStep_stop rng fuel sn audio m, ?_, ?_, ?_⟩
  · rw [stopAction_sounding { m with trace := m.trace ++ menuText } hne1]
  · rw [stopAction_sounding { m with trace := m.trace ++ menuText } hne1]
  · rw [stopAction_sounding { m with trace := m.trace ++ menuText } hne1]

/-! ## States reachable from `main` -/

theorem entryEvents_printf (index : Int) (xs : List Song) :
    ∀ e ∈ entryEvents index xs, isPrintf e = true := by
  induction xs generalizing index with
  | nil => simp [entryEvents]
  | cons s xs ih =>
    intro e he
    simp only [entryEvents, List.mem_cons] at he
    rcases he with he | he
    · subst he; rfl
    · exact ih _ e he

theorem displayLoop_printf (h : Heap) (fuel : Nat) (p : Ptr) (index : Int)
    (lines : List Event) (hl : displayLoop h fuel p index = some lines) :
    ∀ e ∈ lines, isPrintf e = true := by
  rw [displayLoop_eq] at hl
  cases hs : songsFrom h fuel p with
  | none => rw [hs] at hl; cases hl
  | some xs =>
    rw [hs] at hl
    simp only [Option.map_some', Option.some.injEq] at hl
    subst hl
    exact entryEvents_printf index xs

theorem displayPlaylist_some (fuel : Nat) (m x : Machine)
    (h : displayPlaylist fuel m = some x) :
    ∃ s, x = { m with trace := m.trace ++ s } ∧ ∀ e ∈ s, isPrintf e = true := by
  simp only [displayPlaylist, Option.bind_eq_bind] at h
  cases hl : displayLoop m.heap fuel m.player.head 1 with
  | none => rw [hl] at h; cases h
  | some lines =>
    rw [hl] at h
    simp only [Option.some_bind, Option.some.injEq] at h
    refine ⟨_, h.symm, ?_⟩
    intro e he
    simp only [List.mem_cons] at he
    rcases he with he | he
    · subst he; rfl
    · exact displayLoop_printf _ _ _ _ _ hl e he

theorem displayShuffledPlaylist_some (rng : Nat → Int) (fuel : Nat) (m x : Machine)
    (h : displayShuffledPlaylist rng fuel m = some x) :
    x.player = m.player ∧ ∃ s, x.trace = m.trace ++ s ∧ ∀ e ∈ s, isPrintf e = true := by
  simp only [displayShuffledPlaylist, Option.bind_eq_bind] at h
  cases hc : copyPlaylist fuel m.heap m.player.head with
  | none => rw [hc] at h; cases h
  | some r1 =>
    rw [hc] at h
    simp only [Option.some_bind] at h
    cases hs : shuffleLoop rng m.player.numSongs r1.2 fuel r1.1 m.randCalls r1.2 0 with
    | none => rw [hs] at h; cases h
    | some r2 =>
      rw [hs] at h
      simp only [Option.some_bind] at h
      cases hl : displayLoop r2.1 fuel r1.2 1 with
      | none => rw [hl] at h; cases h
      | some lines =>
        rw [hl] at h
        simp only [Option.some_bind] at h
        cases hf : freeCopiedPlaylist fuel r2.1 r1.2 with
        | none => rw [hf] at h; cases h
        | some h3 =>
          rw [hf] at h
          simp only [Option.some_bind, Option.some.injEq] at h
          subst h
          refine ⟨rfl, _, rfl, ?_⟩
          intro e he
          simp only [List.mem_cons] at he
          rcases he with he | he
          · subst he; rfl
          · exact displayLoop_printf _ _ _ _ _ hl e he


theorem balanced_stop (dev : Option Nat) :
    Balanced ((match dev with
      | some d => [Event.aoClose d]
      | none => []) ++ [Event.printf "Song stopped.\n" []]) := by
  cases dev with
  | none => exact ⟨rfl, rfl⟩
  | some d => exact ⟨by simp [openHandles, handleStep], by simp [atMostOne, handleStep]⟩

theorem stopAction_some (m : Machine) :
    (stopAction m).heap = m.heap ∧ (stopAction m).randCalls = m.randCalls ∧
    (stopAction m).player.head = m.player.head ∧
    (stopAction m).player.tail = m.player.tail ∧
    (stopAction m).player.numSongs = m.player.numSongs ∧
    (stopAction m).player.currentSong = m.player.currentSong ∧
    ∃ s, (stopAction m).trace = m.trace ++ s ∧ Balanced s := by
  by_cases hp : m.player.isPlaying = 0
  · rw [stopAction_idle m hp]
    exact ⟨rfl, rfl, rfl, rfl, rfl, rfl, _, rfl, balanced_printf _ (by decide)⟩
  · rw [stopAction_sounding m hp]
    refine ⟨rfl, rfl, rfl, rfl, rfl, rfl, _, ?_, balanced_stop m.player.device⟩
    simp only [List.append_assoc]

theorem playAction_some (inp : Typed) (m x : Machine) (h : playAction inp m = some x) :
    x.heap = m.heap ∧ x.randCalls = m.randCalls ∧
    x.player.head = m.player.head ∧ x.player.tail = m.player.tail ∧
    x.player.numSongs = m.player.numSongs ∧
    (x.player.currentSong = m.player.currentSong ∨
      ∃ k : Int, 1 ≤ k ∧ k ≤ m.player.numSongs ∧
        walk m.heap (k - 1).toNat m.player.head = some x.player.currentSong ∧
        ∃ node, deref m.heap x.player.currentSong = some node) ∧
    ∃ s, x.trace = m.trace ++ s ∧ Balanced s := by
  by_cases hp : m.player.isPlaying = 0
  swap
  · have : playAction inp m = some (stopAction m) := by
      simp only [playAction, stopAction, hp, ne_eq, not_false_eq_true, if_true]
    rw [this] at h
    cases h
    obtain ⟨a1, a2, a3, a4, a5, a6, a7⟩ := stopAction_some m
    exact ⟨a1, a2, a3, a4, a5, Or.inl a6, a7⟩
  · unfold playAction at h
    rw [if_neg (not_not.mpr hp)] at h
    simp only [say] at h
    cases hn : inp.songNumber with
    | none =>
      rw [hn] at h
      simp only [Option.some.injEq] at h
      subst h
      exact ⟨rfl, rfl, rfl, rfl, rfl, Or.inl rfl, _, by simp only [List.append_assoc]; rfl,
        balanced_printf _ (by decide)⟩
    | some k =>
      rw [hn] at h
      simp only [] at h
      by_cases hk : k > 0 ∧ k ≤ m.player.numSongs
      swap
      · rw [if_neg hk] at h
        simp only [Option.some.injEq] at h
        subst h
        refine ⟨rfl, rfl, rfl, rfl, rfl, Or.inl rfl, _, by simp only [List.append_assoc]; rfl,
          balanced_printf _ ?_⟩
        intro e he
        simp only [List.mem_cons, List.mem_singleton, List.append_eq, List.nil_append,
          List.cons_append, List.not_mem_nil, or_false] at he
        rcases he with he | he <;> subst he <;> rfl
      · rw [if_pos hk] at h
        simp only [Option.bind_eq_bind] at h
        cases hw : walk m.heap (k - 1).toNat m.player.head with
        | none => rw [hw] at h; cases h
        | some cur =>
          rw [hw] at h
          simp only [Option.some_bind] at h
          cases hd : deref m.heap cur with
          | none => rw [hd] at h; cases h
          | some node =>
            rw [hd] at h
            simp only [Option.some_bind, Option.some.injEq] at h
            obtain ⟨ps, pt, ph, pr, pp, pbal, -, -⟩ := playSong_events inp.audio
              node.song.filename
              { m with
                trace := m.trace ++ [Event.printf "Enter song number to play: " []]
                player := { m.player with currentSong := cur } }
            subst h
            refine ⟨ph, pr, ?_, ?_, ?_, Or.inr ⟨k, by omega, hk.2, ?_, node, ?_⟩,
              [Event.printf "Enter song number to play: " []] ++ ps, ?_, ?_⟩
            · simp only [pp]
            · simp only [pp]
            · simp only [pp]
            · simp only [pp, hw]
            · simp only [pp, hd]
            · simp only [pt, List.append_assoc]
            · exact balanced_append _ _ (balanced_printf _ (by decide)) pbal


theorem exitAction_some (fuel : Nat) (m x : Machine) (h : exitAction fuel m = some x) :
    ∃ s, x.trace = m.trace ++ s ∧ Balanced s := by
  simp only [exitAction, say, Option.bind_eq_bind] at h
  cases hf : freeLoop fuel m.heap m.player.head with
  | none => rw [hf] at h; cases h
  | some h3 =>
    rw [hf] at h
    simp only [Option.some_bind, Option.some.injEq] at h
    subst h
    exact ⟨[Event.printf "Exiting the music player.\n" [], Event.aoShutdown],
      by simp only [List.append_assoc]; rfl, ⟨rfl, rfl⟩⟩

theorem balanced_menu (s : List Event) (hs : Balanced s) : Balanced (menuText ++ s) :=
  balanced_append _ _ (balanced_printf _ menuText_printf) hs

/-- Every pass of the menu loop adds to the trace a run of events with no
handle open at either end and never two open. -/
theorem menuStep_trace (rng : Nat → Int) (fuel : Nat) (inp : Typed) (m : Machine)
    (ctl : Control) (x : Machine) (h : menuStep rng fuel inp m = some (ctl, x)) :
    ∃ s, x.trace = m.trace ++ s ∧ Balanced s := by
  unfold menuStep at h
  simp only [] at h
  split at h
  · cases hd : displayPlaylist fuel { m with trace := m.trace ++ menuText } with
    | none => rw [hd] at h; cases h
    | some y =>
      rw [hd] at h
      simp only [Option.map_some', Option.some.injEq, Prod.mk.injEq] at h
      obtain ⟨s, hy, hp⟩ := displayPlaylist_some _ _ _ hd
      rw [← h.2, hy]
      exact ⟨menuText ++ s, by simp only [List.append_assoc],
        balanced_menu _ (balanced_printf _ hp)⟩
  split at h
  · cases hd : playAction inp { m with trace := m.trace ++ menuText } with
    | none => rw [hd] at h; cases h
    | some y =>
      rw [hd] at h
      simp only [Option.map_some', Option.some.injEq, Prod.mk.injEq] at h
      obtain ⟨-, -, -, -, -, -, s, hy, hb⟩ := playAction_some _ _ _ hd
      rw [← h.2, hy]
      exact ⟨menuText ++ s, by simp only [List.append_assoc], balanced_menu _ hb⟩
  split at h
  · simp only [Option.some.injEq, Prod.mk.injEq] at h
    obtain ⟨-, -, -, -, -, -, s, hy, hb⟩ :=
      stopAction_some { m with trace := m.trace ++ menuText }
    rw [← h.2, hy]
    exact ⟨menuText ++ s, by simp only [List.append_assoc], balanced_menu _ hb⟩
  split at h
  · simp only [Option.some.injEq, Prod.mk.injEq] at h
    rw [← h.2]
    exact ⟨menuText, rfl, balanced_printf _ menuText_printf⟩
  split at h
  · simp only [Option.some.injEq, Prod.mk.injEq] at h
    rw [← h.2]
    exact ⟨menuText, rfl, balanced_printf _ menuText_printf⟩
  split at h
  · cases hd : displayShuffledPlaylist rng fuel { m with trace := m.trace ++ menuText } with
    | none => rw [hd] at h; cases h
    | some y =>
      rw [hd] at h
      simp only [Option.map_some', Option.some.injEq, Prod.mk.injEq] at h
      obtain ⟨-, s, hy, hp⟩ := displayShuffledPlaylist_some _ _ _ _ hd
      rw [← h.2, hy]
      exact ⟨menuText ++ s, by simp only [List.append_assoc],
        balanced_menu _ (balanced_printf _ hp)⟩
  split at h
  · cases hd : exitAction fuel { m with trace := m.trace ++ menuText } with
    | none => rw [hd] at h; cases h
    | some y =>
      rw [hd] at h
      simp only [Option.map_some', Option.some.injEq, Prod.mk.injEq] at h
      obtain ⟨s, hy, hb⟩ := exitAction_some _ _ _ hd
      rw [← h.2, hy]
      exact ⟨menuText ++ s, by simp only [List.append_assoc], balanced_menu _ hb⟩
  · simp only [say, Option.some.injEq, Prod.mk.injEq] at h
    rw [← h.2]
    exact ⟨menuText ++ [Event.printf "Invalid choice. Please try again.\n" []],
      by simp only [List.append_assoc], balanced_menu _ (balanced_printf _ (by decide))⟩

theorem menuLoop_trace (rng : Nat → Int) (fuel : Nat) (inputs : List Typed) (m : Machine)
    (ctl : Control) (x : Machine) (h : menuLoop rng fuel inputs m = some (ctl, x)) :
    ∃ s, x.trace = m.trace ++ s ∧ Balanced s := by
  induction inputs generalizing m with
  | nil =>
    simp only [menuLoop, Option.some.injEq, Prod.mk.injEq] at h
    rw [← h.2]
    exact ⟨[], by simp, balanced_nil⟩
  | cons inp rest ih =>
    simp only [menuLoop] at h
    cases hs : menuStep rng fuel inp m with
    | none => rw [hs] at h; cases h
    | some r =>
      obtain ⟨c1, m1⟩ := r
      rw [hs] at h
      obtain ⟨s1, h1, b1⟩ := menuStep_trace _ _ _ _ _ _ hs
      cases c1 with
      | exited =>
        simp only [Option.some.injEq, Prod.mk.injEq] at h
        rw [← h.2]
        exact ⟨s1, h1, b1⟩
      | running =>
        simp only [] at h
        obtain ⟨s2, h2, b2⟩ := ih m1 h
        exact ⟨s1 ++ s2, by rw [h2, h1, List.append_assoc], balanced_append _ _ b1 b2⟩


theorem fgetsAux_le (k : Nat) (file : List Char) :
    (fgetsAux k file).2.length ≤ file.length := by
  induction file generalizing k with
  | nil => cases k <;> simp [fgetsAux]
  | cons c rest ih =>
    cases k with
    | zero => simp [fgetsAux]
    | succ k =>
      by_cases hc : c = '\n'
      · simp [fgetsAux, hc]
      · have := ih k
        simp only [fgetsAux, hc, if_false, List.length_cons]
        omega

theorem fgets_shorter (file line rest : List Char)
    (h : fgets MAX_LINE_LENGTH file = some (line, rest)) : rest.length < file.length := by
  cases file with
  | nil => simp [fgets] at h
  | cons c tl =>
    simp only [fgets, MAX_LINE_LENGTH, Option.some.injEq] at h
    have e : rest = (fgetsAux 255 (c :: tl)).2 := by rw [h]
    rw [e]
    by_cases hc : c = '\n'
    · simp [fgetsAux, hc]
    · have := fgetsAux_le 254 tl
      simp only [fgetsAux, hc, if_false, List.length_cons]
      omega

theorem loadLine_withList (line : List Char) (m : Machine) (h0 : Heap) (ys : List Song)
    (count : Int) :
    ∃ t zs, loadLine line (withList m h0 ys count) =
        some (withList { m with trace := m.trace ++ t } h0 (ys ++ zs)
          (count + (zs.length : Int))) ∧
      (∀ e ∈ t, isPrintf e = true) ∧ ∀ z ∈ zs, parseLine line = some z := by
  unfold loadLine
  by_cases hskip : line.head? = some '\n' ∨ line = []
  · rw [if_pos hskip]
    refine ⟨[], [], ?_, by simp, by simp⟩
    simp
  · rw [if_neg hskip]
    cases hp : parseLine line with
    | none =>
      refine ⟨[lineError line], [], ?_, ?_, by simp⟩
      · simp only [List.append_nil, List.length_nil, Int.Nat.cast_ofNat_Int, add_zero]
        rfl
      · intro e he
        simp only [List.mem_singleton] at he
        subst he
        rfl
    | some song =>
      refine ⟨[], [song], ?_, by simp, by simp⟩
      simp only [addSong_withList, List.append_nil, List.length_singleton, Nat.cast_one]

theorem loadLoop_withList (fuel : Nat) (file : List Char) (m : Machine) (h0 : Heap)
    (ys : List Song) (count : Int) (hfuel : file.length ≤ fuel) :
    ∃ t zs, loadLoop fuel file (withList m h0 ys count) =
        some (withList { m with trace := m.trace ++ t } h0 (ys ++ zs)
          (count + (zs.length : Int))) ∧
      (∀ e ∈ t, isPrintf e = true) ∧ ∀ z ∈ zs, ∃ line, parseLine line = some z := by
  induction fuel generalizing file m ys count with
  | zero =>
    have : file = [] := List.length_eq_zero.mp (by omega)
    subst this
    unfold loadLoop
    refine ⟨[], [], ?_, by simp, by simp⟩
    simp [fgets]
  | succ fuel ih =>
    unfold loadLoop
    cases hg : fgets MAX_LINE_LENGTH file with
    | none =>
      refine ⟨[], [], ?_, by simp, by simp⟩
      simp
    | some r =>
      obtain ⟨line, rest⟩ := r
      have hlt := fgets_shorter file line rest hg
      obtain ⟨t1, z1, e1, p1, q1⟩ := loadLine_withList line m h0 ys count
      obtain ⟨t2, z2, e2, p2, q2⟩ := ih rest { m with trace := m.trace ++ t1 } (ys ++ z1)
        (count + (z1.length : Int)) (by omega)
      refine ⟨t1 ++ t2, z1 ++ z2, ?_, ?_, ?_⟩
      · simp only [e1, Option.bind_eq_bind, Option.some_bind, e2, List.append_assoc,
          List.length_append, Nat.cast_add, add_assoc]
      · intro e he
        rcases List.mem_append.mp he with he | he
        · exact p1 e he
        · exact p2 e he
      · intro z hz
        rcases List.mem_append.mp hz with hz | hz
        · exact ⟨line, q1 z hz⟩
        · exact q2 z hz

/-- What `main` does once the file is open: the load loop returns a player
holding the parsed songs, then the menu loop runs on it. -/
theorem main_some (name : String) (content : List Char) (rng : Nat → Int) (fuel : Nat)
    (inputs : List Typed) :
    ∃ t zs,
      (∀ e ∈ t, isPrintf e = true) ∧ (∀ z ∈ zs, ∃ line, parseLine line = some z) ∧
      main name (some content) rng fuel inputs =
        menuLoop rng fuel inputs
          (withList
            { initialMachine name with
              trace := [Event.aoInitialize,
                Event.printf "Enter the name of the playlist: " []] ++ t }
            [] zs (zs.length : Int)) := by
  obtain ⟨t, zs, e, p, q⟩ := loadLoop_withList content.length content
    { initialMachine name with
      trace := [Event.aoInitialize, Event.printf "Enter the name of the playlist: " []] }
    [] [] 0 (le_refl _)
  refine ⟨t, zs, p, q, ?_⟩
  have hinit : withList
      { initialMachine name with
        trace := [Event.aoInitialize, Event.printf "Enter the name of the playlist: " []] }
      [] [] 0 =
      { initialMachine name with
        trace := [Event.aoInitialize, Event.printf "Enter the name of the playlist: " []] } :=
    rfl
  rw [hinit] at e
  simp only [main, e, Option.bind_eq_bind, Option.some_bind, List.nil_append, zero_add]


/-! ## Shape of a stored list -/

theorem nodesFrom_dll (h0 : Heap) (xs : List Song) (fuel j : Nat)
    (hfuel : xs.length - j ≤ fuel) :
    nodesFrom (h0 ++ dll h0.length xs) fuel (ptrAt h0.length xs.length j) =
      some (List.range' (h0.length + j) (xs.length - j)) := by
  induction fuel generalizing j with
  | zero =>
    have hj : ¬ j < xs.length := by omega
    have e : xs.length - j = 0 := by omega
    rw [ptrAt, if_neg hj, e]
    rfl
  | succ fuel ih =>
    by_cases hj : j < xs.length
    · have hd := deref_ptrAt h0 xs j hj
      have hp : ptrAt h0.length xs.length j = some (h0.length + j) := by
        rw [ptrAt, if_pos hj]
      rw [hp] at hd ⊢
      simp only [nodesFrom, hd, Option.bind_eq_bind, Option.some_bind, segNode_next]
      rw [ih (j + 1) (by omega)]
      have e : xs.length - j = (xs.length - (j + 1)) + 1 := by omega
      rw [e, List.range'_succ]
      rfl
    · have e : xs.length - j = 0 := by omega
      rw [ptrAt, if_neg hj, e]
      rfl

/-- The links of a stored list are consistent: the successor of node `j`
is node `j + 1`, whose `prev` is node `j`; the first node has no
predecessor and the last no successor. -/
theorem dll_links (h0 : Heap) (xs : List Song) (j : Nat) (hj : j < xs.length) :
    ∃ node, deref (h0 ++ dll h0.length xs) (some (h0.length + j)) = some node ∧
      node.song = xs[j] ∧
      node.next = (if j + 1 < xs.length then some (h0.length + j + 1) else none) ∧
      node.prev = (if j = 0 then none else some (h0.length + j - 1)) ∧
      ∀ b, node.next = some b →
        ∃ nb, deref (h0 ++ dll h0.length xs) (some b) = some nb ∧
          nb.prev = some (h0.length + j) := by
  have hd := deref_dll h0 xs j xs[j] (List.getElem?_eq_getElem hj)
  refine ⟨_, hd, rfl, rfl, rfl, ?_⟩
  intro b hb
  simp only [segNode] at hb
  by_cases hj1 : j + 1 < xs.length
  · rw [if_pos hj1] at hb
    have hb1 : b = h0.length + (j + 1) := by
      have := Option.some.inj hb
      omega
    subst hb1
    refine ⟨_, deref_dll h0 xs (j + 1) xs[j + 1] (List.getElem?_eq_getElem hj1), ?_⟩
    simp [segNode]
  · rw [if_neg hj1] at hb
    cases hb


/-! ## Lengths of the stored fields -/

theorem fieldOk_of_scan (w : List Char) (hne : w ≠ []) (hlen : w.length ≤ 99) :
    FieldOk (String.mk (w.take 99)) := by
  have hpos : 0 < w.length := List.length_pos.mpr hne
  simp only [FieldOk, MAX_TITLE_LENGTH, String.length, List.length_take]
  omega

theorem parseLine_fields (line : List Char) (song : Song) (h : parseLine line = some song) :
    FieldOk song.title ∧ FieldOk song.artist ∧ FieldOk song.duration ∧
      FieldOk song.filename := by
  obtain ⟨t, r1, a, r2, d, r3, f, r4, h1, ht, h2, ha, h3, hd, h4, hf, hs⟩ :=
    (parseLine_eq_some line song).mp h
  obtain ⟨-, -, lt⟩ := scanUntil_facts _ _ _ _ _ h1
  obtain ⟨-, -, la⟩ := scanUntil_facts _ _ _ _ _ h2
  obtain ⟨-, -, ld⟩ := scanUntil_facts _ _ _ _ _ h3
  obtain ⟨-, -, lf⟩ := scanUntil_facts _ _ _ _ _ h4
  subst hs
  exact ⟨fieldOk_of_scan t ht lt, fieldOk_of_scan a ha la, fieldOk_of_scan d hd ld,
    fieldOk_of_scan f hf lf⟩

/-! ### Stored list across the menu loop -/


/-- One iteration of the loop of `copyPlaylist` on a source node. -/
theorem copyLoop_step (h0 : Heap) (fuel : Nat) (done : List Song) (c : Nat) (n : Node)
    (hd : deref h0 (some c) = some n) :
    copyLoop (fuel + 1) (h0 ++ dll h0.length done) (some c) (headPtr h0.length done)
        (tailPtr h0.length done) =
      copyLoop fuel (h0 ++ dll h0.length (done ++ [n.song])) n.next (some h0.length)
        (some (h0.length + done.length)) := by
  have hlen : (h0 ++ dll h0.length done).length = h0.length + done.length := by
    simp [dll_length]
  cases hdone : done with
  | nil =>
    subst hdone
    simp only [copyLoop, headPtr, tailPtr, if_true, createNode, dll_nil, List.append_nil,
      deref_append_left _ hd, hd, Option.bind_eq_bind, Option.some_bind, List.nil_append,
      dll_singleton, List.length_nil, Nat.add_zero]
  | cons y ys =>
    rw [← hdone]
    have hne : done ≠ [] := by simp [hdone]
    have hn : 0 < done.length := List.length_pos.mpr hne
    obtain ⟨x, hx⟩ : ∃ x, done[done.length - 1]? = some x :=
      ⟨done[done.length - 1], by simp [List.getElem?_eq_getElem]⟩
    have htl : deref (h0 ++ dll h0.length done ++
        [some ({ song := n.song, next := none, prev := none } : Node)])
        (some (h0.length + done.length - 1)) =
        some (segNode h0.length done.length (done.length - 1) x) := by
      apply deref_append_left
      have := deref_dll h0 done (done.length - 1) x hx
      have e2 : h0.length + (done.length - 1) = h0.length + done.length - 1 := by omega
      rwa [e2] at this
    have hnew : deref ((h0 ++ dll h0.length done ++
        [some ({ song := n.song, next := none, prev := none } : Node)]).set
          (h0.length + done.length - 1)
          (some { segNode h0.length done.length (done.length - 1) x with
            next := some (h0.length + done.length) }))
        (some (h0.length + done.length)) =
        some { song := n.song, next := none, prev := none } := by
      rw [deref_some_iff, List.getElem?_set_ne (by omega),
        List.getElem?_append_right (by omega)]
      simp [hlen]
    have key := dll_snoc h0 done x n.song hx
    rw [List.set_comm _ _ _ (by omega)] at key
    have hc : deref (h0 ++ dll h0.length (done ++ [n.song])) (some c) = some n :=
      deref_append_left _ hd
    simp only [copyLoop, headPtr, tailPtr, hne, if_false, createNode, hlen,
      deref_append_left _ hd, Option.bind_eq_bind, Option.some_bind, modify, htl, hnew,
      key, hc]

theorem copyLoop_short (h0 : Heap) (fuel f : Nat) (done rest : List Song) (p : Ptr)
    (hsrc : songsFrom h0 f p = some rest) (hfuel : fuel < rest.length) :
    copyLoop fuel (h0 ++ dll h0.length done) p (headPtr h0.length done)
        (tailPtr h0.length done) = none := by
  induction fuel generalizing f done rest p with
  | zero =>
    cases p with
    | none =>
      cases f <;> simp [songsFrom] at hsrc <;> subst hsrc <;> simp at hfuel
    | some c => rfl
  | succ fuel ih =>
    cases p with
    | none =>
      cases f <;> simp [songsFrom] at hsrc <;> subst hsrc <;> simp at hfuel
    | some c =>
      cases f with
      | zero => simp [songsFrom] at hsrc
      | succ f =>
        obtain ⟨n, rest1, hd, hs1, hrest⟩ := (songsFrom_some_iff h0 f c rest).mp hsrc
        subst hrest
        rw [copyLoop_step h0 fuel done c n hd]
        have := ih f (done ++ [n.song]) rest1 n.next hs1 (by simpa using hfuel)
        have hhead1 : headPtr h0.length (done ++ [n.song]) = some h0.length := by
          simp [headPtr]
        have htail1 : tailPtr h0.length (done ++ [n.song]) =
            some (h0.length + done.length) := by
          simp [tailPtr]
        rw [hhead1, htail1] at this
        exact this

theorem copyPlaylist_short (h0 : Heap) (fuel f : Nat) (xs : List Song) (p : Ptr)
    (hsrc : songsFrom h0 f p = some xs) (hfuel : fuel < xs.length) :
    copyPlaylist fuel h0 p = none := by
  cases p with
  | none =>
    cases f <;> simp [songsFrom] at hsrc <;> subst hsrc <;> simp at hfuel
  | some a =>
    have := copyLoop_short h0 fuel f [] xs (some a) hsrc hfuel
    simpa [copyPlaylist, headPtr, tailPtr, dll_nil] using this

theorem walk_append_left (h l : Heap) (j : Nat) (p q : Ptr) (hw : walk h j p = some q) :
    walk (h ++ l) j p = some q := by
  induction j generalizing p with
  | zero => exact hw
  | succ j ih =>
    simp only [walk, Option.bind_eq_bind] at hw ⊢
    cases hd : deref h p with
    | none => rw [hd] at hw; cases hw
    | some n =>
      rw [hd] at hw
      simp only [Option.some_bind] at hw
      rw [deref_append_left l hd]
      simp only [Option.some_bind]
      exact ih _ hw


theorem listInv_songs (xs : List Song) (m : Machine) (hinv : ListInv xs m) (fuel : Nat)
    (hfuel : xs.length ≤ fuel) : songsFrom m.heap fuel m.player.head = some xs := by
  obtain ⟨⟨K, hh⟩, hhead, -, -, -⟩ := hinv
  have := songsFrom_dll [] xs fuel 0 (by omega)
  rw [← headPtr_eq_ptrAt, List.drop_zero] at this
  simp only [List.nil_append, List.length_nil] at this
  rw [hh, hhead]
  exact songsFrom_append_left _ _ _ _ _ this

theorem listInv_walk (xs : List Song) (m : Machine) (hinv : ListInv xs m) (j : Nat)
    (hj : j < xs.length) :
    walk m.heap j m.player.head = some (some j) ∧
      deref m.heap (some j) = some (segNode 0 xs.length j xs[j]) := by
  obtain ⟨⟨K, hh⟩, hhead, -, -, -⟩ := hinv
  have hw := walk_dll_full [] xs 0 j (by omega)
  rw [← headPtr_eq_ptrAt, if_pos (by omega)] at hw
  simp only [List.nil_append, List.length_nil, zero_add, ptrAt, hj, if_true] at hw
  have hd := deref_dll [] xs j xs[j] (List.getElem?_eq_getElem hj)
  simp only [List.nil_append, List.length_nil, zero_add] at hd
  rw [hh, hhead]
  exact ⟨walk_append_left _ _ _ _ _ hw, deref_append_left _ hd⟩

/-- Every pass of the menu loop that does not exit keeps the stored list
and leaves `currentSong` `NULL` or on one of its nodes. -/
theorem menuStep_listInv (rng : Nat → Int) (fuel : Nat) (inp : Typed) (m x : Machine)
    (xs : List Song) (hinv : ListInv xs m)
    (h : menuStep rng fuel inp m = some (Control.running, x)) : ListInv xs x := by
  have hinv0 : ListInv xs { m with trace := m.trace ++ menuText } := hinv
  unfold menuStep at h
  simp only [] at h
  split at h
  · cases hd : displayPlaylist fuel { m with trace := m.trace ++ menuText } with
    | none => rw [hd] at h; cases h
    | some y =>
      rw [hd] at h
      simp only [Option.map_some', Option.some.injEq, Prod.mk.injEq, true_and] at h
      obtain ⟨s, hy, -⟩ := displayPlaylist_some _ _ _ hd
      rw [← h, hy]
      exact hinv
  split at h
  · cases hd : playAction inp { m with trace := m.trace ++ menuText } with
    | none => rw [hd] at h; cases h
    | some y =>
      rw [hd] at h
      simp only [Option.map_some', Option.some.injEq, Prod.mk.injEq, true_and] at h
      obtain ⟨a1, -, a3, a4, a5, a6, -⟩ := playAction_some _ _ _ hd
      subst h
      obtain ⟨⟨K, hh⟩, hhead, htail, hnum, hcur⟩ := hinv
      refine ⟨⟨K, by rw [a1]; exact hh⟩, by rw [a3]; exact hhead, by rw [a4]; exact htail,
        by rw [a5]; exact hnum, ?_⟩
      rcases a6 with a6 | ⟨k, k1, k2, kw, -⟩
      · rw [a6]; exact hcur
      · have hk2 : k ≤ (xs.length : Int) := by rw [← hnum]; exact k2
        have hj : (k - 1).toNat < xs.length := by omega
        have := (listInv_walk xs _ hinv0 (k - 1).toNat hj).1
        rw [this] at kw
        exact Or.inr ⟨_, hj, (Option.some.inj kw).symm⟩
  split at h
  · simp only [Option.some.injEq, Prod.mk.injEq, true_and] at h
    obtain ⟨a1, -, a3, a4, a5, a6, -⟩ :=
      stopAction_some { m with trace := m.trace ++ menuText }
    subst h
    obtain ⟨⟨K, hh⟩, hhead, htail, hnum, hcur⟩ := hinv
    exact ⟨⟨K, by rw [a1]; exact hh⟩, by rw [a3]; exact hhead, by rw [a4]; exact htail,
      by rw [a5]; exact hnum, by rw [a6]; exact hcur⟩
  split at h
  · simp only [Option.some.injEq, Prod.mk.injEq, true_and] at h
    rw [← h]; exact hinv
  split at h
  · simp only [Option.some.injEq, Prod.mk.injEq, true_and] at h
    rw [← h]; exact hinv
  split at h
  · cases hd : displayShuffledPlaylist rng fuel { m with trace := m.trace ++ menuText } with
    | none => rw [hd] at h; cases h
    | some y =>
      rw [hd] at h
      simp only [Option.map_some', Option.some.injEq, Prod.mk.injEq, true_and] at h
      subst h
      by_cases hf : xs.length ≤ fuel
      · have hsrc := listInv_songs xs _ hinv0 fuel hf
        rw [displayShuffledPlaylist_eq rng fuel _ xs hsrc] at hd
        cases hres : shuffleSongs rng m.player.numSongs fuel xs m.randCalls 0 with
        | none =>
          rw [show ({ m with trace := m.trace ++ menuText } : Machine).player.numSongs =
            m.player.numSongs from rfl,
            show ({ m with trace := m.trace ++ menuText } : Machine).randCalls =
            m.randCalls from rfl, hres] at hd
          cases hd
        | some res =>
          rw [show ({ m with trace := m.trace ++ menuText } : Machine).player.numSongs =
            m.player.numSongs from rfl,
            show ({ m with trace := m.trace ++ menuText } : Machine).randCalls =
            m.randCalls from rfl, hres] at hd
          simp only [Option.map_some', Option.some.injEq] at hd
          subst hd
          obtain ⟨⟨K, hh⟩, hhead, htail, hnum, hcur⟩ := hinv
          refine ⟨⟨K + xs.length, ?_⟩, hhead, htail, hnum, hcur⟩
          show m.heap ++ List.replicate xs.length none = _
          rw [hh, List.append_assoc, List.replicate_add]
      · exfalso
        have hsrc := listInv_songs xs _ hinv0 xs.length (le_refl _)
        have hnone := copyPlaylist_short _ fuel xs.length xs _ hsrc (by omega)
        simp only [displayShuffledPlaylist, hnone, Option.bind_eq_bind, Option.none_bind] at hd
        cases hd
  split at h
  · cases hd : exitAction fuel { m with trace := m.trace ++ menuText } with
    | none => rw [hd] at h; cases h
    | some y =>
      rw [hd] at h
      simp only [Option.map_some', Option.some.injEq, Prod.mk.injEq] at h
      cases h.1
  · simp only [say, Option.some.injEq, Prod.mk.injEq, true_and] at h
    rw [← h]; exact hinv

theorem menuLoop_listInv (rng : Nat → Int) (fuel : Nat) (inputs : List Typed)
    (m x : Machine) (xs : List Song) (hinv : ListInv xs m)
    (h : menuLoop rng fuel inputs m = some (Control.running, x)) : ListInv xs x := by
  induction inputs generalizing m with
  | nil =>
    simp only [menuLoop, Option.some.injEq, Prod.mk.injEq, true_and] at h
    rw [← h]; exact hinv
  | cons inp rest ih =>
    simp only [menuLoop] at h
    cases hs : menuStep rng fuel inp m with
    | none => rw [hs] at h; cases h
    | some r =>
      obtain ⟨c1, m1⟩ := r
      rw [hs] at h
      cases c1 with
      | exited =>
        simp only [Option.some.injEq, Prod.mk.injEq] at h
        cases h.1
      | running =>
        simp only [] at h
        exact ih m1 (menuStep_listInv _ _ _ _ _ _ hinv hs) h

theorem withList_listInv (m : Machine) (xs : List Song)
    (hcur : m.player.currentSong = none) : ListInv xs (withList m [] xs xs.length) := by
  refine ⟨⟨0, by simp [withList]⟩, rfl, rfl, rfl, Or.inl hcur⟩


/-! ### Iterations of the shuffle loop -/


/-- With the loop condition true, `shuffleLoop` runs `shuffleBody` once and
continues from the state it leaves. -/
theorem shuffleLoop_body (rng : Nat → Int) (numSongs : Int) (copiedHead : Ptr) (fuel : Nat)
    (s : ShuffleState) (hc : s.current ≠ none ∧ s.i < numSongs - 1) :
    shuffleLoop rng numSongs copiedHead (fuel + 1) s.heap s.calls s.current s.i =
      (shuffleBody rng numSongs copiedHead s).bind
        (fun t => shuffleLoop rng numSongs copiedHead fuel t.heap t.calls t.current t.i) := by
  rw [shuffleLoop, if_pos hc]
  simp only [shuffleBody, Option.bind_eq_bind, Option.bind_assoc, Option.some_bind]

theorem draw_in_range (v : Int) (n i : Nat) (hv : 0 ≤ v) (hi : i + 2 ≤ n) :
    (i : Int) ≤ (i : Int) + v.tmod ((n : Int) - i) ∧
      (i : Int) + v.tmod ((n : Int) - i) ≤ (n : Int) - 1 ∧
      ((i : Int) + v.tmod ((n : Int) - i)).toNat < n := by
  have h1 : 0 ≤ v.tmod ((n : Int) - i) := Int.tmod_nonneg _ hv
  have h2 : v.tmod ((n : Int) - i) < (n : Int) - i := Int.tmod_lt_of_pos _ (by omega)
  omega

theorem shuffleBody_dll (rng : Nat → Int) (numSongs : Int) (h0 : Heap) (ys : List Song)
    (calls i : Nat) (hi : i < ys.length)
    (hr : ((i : Int) + (rng calls).tmod (numSongs - i)).toNat < ys.length) :
    shuffleBody rng numSongs (ptrAt h0.length ys.length 0)
        { heap := h0 ++ dll h0.length ys, calls := calls,
          current := ptrAt h0.length ys.length i, i := (i : Int) } =
      some { heap := h0 ++ dll h0.length
                (swapAt ys i ((i : Int) + (rng calls).tmod (numSongs - i)).toNat),
             calls := calls + 1, current := ptrAt h0.length ys.length (i + 1),
             i := ((i + 1 : Nat) : Int) } := by
  unfold shuffleBody
  simp only []
  generalize ((i : Int) + (rng calls).tmod (numSongs - i)).toNat = r at hr
  rw [walk_dll_full h0 ys 0 r (by omega)]
  rw [if_pos (by omega)]
  simp only [Option.bind_eq_bind, Option.some_bind, zero_add,
    deref_ptrAt h0 ys i hi, deref_ptrAt h0 ys r hr]
  rw [modify_dll h0 ys i _ hi]
  simp only [Option.some_bind]
  have hl1 : (ys.set i ys[r]).length = ys.length := by simp
  have hr1 : r < (ys.set i ys[r]).length := by omega
  have hm2 := modify_dll h0 (ys.set i ys[r]) r ys[i] hr1
  rw [hl1] at hm2
  rw [show (segNode h0.length ys.length r ys[r]).song = ys[r] from rfl,
    show (segNode h0.length ys.length i ys[i]).song = ys[i] from rfl, hm2]
  simp only [Option.some_bind]
  rw [← swapAt_eq ys i r hi hr]
  have hl2 := swapAt_length ys i r
  have hi2 : i < (swapAt ys i r).length := by omega
  have hd := deref_ptrAt h0 (swapAt ys i r) i hi2
  rw [hl2] at hd
  rw [hd]
  simp only [Option.some_bind, segNode_next, Nat.cast_add, Nat.cast_one]

/-- The state of the shuffle loop after `k` further iterations from
iteration `i`, while `i + k ≤ n - 1`: the copy still holds `n` songs and
`current` is its node `i + k`. -/
theorem shuffleIter_dll (rng : Nat → Int) (hrng : ∀ c, 0 ≤ rng c) (h0 : Heap) (n k : Nat) :
    ∀ (ys : List Song) (calls i : Nat), ys.length = n → i + k + 1 ≤ n →
      ∃ zs : List Song, zs.length = n ∧
        shuffleIter rng (n : Int) (ptrAt h0.length n 0) k
            { heap := h0 ++ dll h0.length ys, calls := calls,
              current := ptrAt h0.length n i, i := (i : Int) } =
          some { heap := h0 ++ dll h0.length zs, calls := calls + k,
                 current := ptrAt h0.length n (i + k), i := ((i + k : Nat) : Int) } ∧
        ∀ fuel, shuffleLoop rng (n : Int) (ptrAt h0.length n 0) (k + fuel)
            (h0 ++ dll h0.length ys) calls (ptrAt h0.length n i) (i : Int) =
          shuffleLoop rng (n : Int) (ptrAt h0.length n 0) fuel
            (h0 ++ dll h0.length zs) (calls + k) (ptrAt h0.length n (i + k))
            ((i + k : Nat) : Int) := by
  induction k with
  | zero =>
    intro ys calls i hlen _
    exact ⟨ys, hlen, rfl, fun fuel => by rw [Nat.zero_add]; rfl⟩
  | succ k ih =>
    intro ys calls i hlen hik
    have hb := draw_in_range (rng calls) n i (hrng calls) (by omega)
    have hbody := shuffleBody_dll rng (n : Int) h0 ys calls i (by omega)
      (by rw [hlen]; exact hb.2.2)
    rw [hlen] at hbody
    obtain ⟨zs, hz, hiter, hloop⟩ :=
      ih (swapAt ys i ((i : Int) + (rng calls).tmod ((n : Int) - i)).toNat) (calls + 1)
        (i + 1) (by rw [swapAt_length]; exact hlen) (by omega)
    refine ⟨zs, hz, ?_, ?_⟩
    · rw [shuffleIter, hbody, Option.some_bind, hiter]
      have e1 : calls + 1 + k = calls + (k + 1) := by omega
      have e2 : i + 1 + k = i + (k + 1) := by omega
      rw [e1, e2]
    · intro fuel
      have hc : ptrAt h0.length n i ≠ none ∧ (i : Int) < (n : Int) - 1 := by
        refine ⟨?_, by omega⟩
        rw [ptrAt, if_pos (by omega)]
        exact Option.some_ne_none _
      have e0 : k + 1 + fuel = (k + fuel) + 1 := by omega
      rw [e0]
      have := shuffleLoop_body rng (n : Int) (ptrAt h0.length n 0) (k + fuel)
        { heap := h0 ++ dll h0.length ys, calls := calls,
          current := ptrAt h0.length n i, i := (i : Int) } hc
      simp only [] at this
      rw [this, hbody, Option.some_bind]
      simp only []
      rw [hloop fuel]
      have e1 : calls + 1 + k = calls + (k + 1) := by omega
      have e2 : i + 1 + k = i + (k + 1) := by omega
      rw [e1, e2]


/-! ## Properties of the playlist -/

/-- C1: for every sequence of songs passed in turn to `addSong` on an empty
player (`head = tail = NULL`, `numSongs = 0`), all calls return, afterwards
`numSongs` is the number of songs, the traversal from `head` along `next`
visits exactly those songs in call order, and `displayPlaylist` prints them
in that order numbered `1..n`. -/
theorem addSong_sequence_count_and_order (m0 : Machine) (xs : List Song)
    (hhead : m0.player.head = none) (htail : m0.player.tail = none)
    (hcount : m0.player.numSongs = 0) :
    ∃ m, addSongs m0 xs = some m ∧ m.player.numSongs = xs.length ∧
      ∀ fuel, xs.length ≤ fuel →
        songsFrom m.heap fuel m.player.head = some xs ∧
        displayPlaylist fuel m = some { m with
          trace := m.trace ++
            Event.printf "Current Playlist (%s):\n" [Arg.str m.player.playlistName] ::
              xs.mapIdx (fun k s => entryEvent ((k : Int) + 1) s) } := by
  have hm0 := withList_nil m0 hhead htail
  have hrun := addSongs_withList m0 m0.heap [] xs m0.player.numSongs
  rw [hm0] at hrun
  refine ⟨_, hrun, ?_, ?_⟩
  · simp [withList, hcount]
  · intro fuel hfuel
    have hs : songsFrom (withList m0 m0.heap ([] ++ xs) (m0.player.numSongs + xs.length)).heap
        fuel (withList m0 m0.heap ([] ++ xs) (m0.player.numSongs + xs.length)).player.head =
        some xs := by
      have := songsFrom_dll m0.heap xs fuel 0 (by omega)
      simpa [withList, headPtr_eq_ptrAt] using this
    refine ⟨hs, ?_⟩
    simp only [displayPlaylist, displayLoop_eq, hs, Option.map_some', Option.bind_eq_bind,
      Option.some_bind, entryEvents_eq_mapIdx]
    simp [add_comm]

/-- Witness for C1: two songs appended to the initial player of `main`. -/
theorem addSong_sequence_count_and_order_witness :
    (initialMachine "p").player.head = none ∧ (initialMachine "p").player.tail = none ∧
    (initialMachine "p").player.numSongs = 0 ∧
    ∃ m, addSongs (initialMachine "p") [songAB, songCD] = some m ∧
      m.player.numSongs = ([songAB, songCD] : List Song).length ∧
      ∀ fuel, ([songAB, songCD] : List Song).length ≤ fuel →
        songsFrom m.heap fuel m.player.head = some [songAB, songCD] ∧
        displayPlaylist fuel m = some { m with
          trace := m.trace ++
            Event.printf "Current Playlist (%s):\n" [Arg.str m.player.playlistName] ::
              [songAB, songCD].mapIdx (fun k s => entryEvent ((k : Int) + 1) s) } :=
  ⟨rfl, rfl, rfl,
    addSong_sequence_count_and_order (initialMachine "p") [songAB, songCD] rfl rfl rfl⟩

/-- C2: on a playlist built by appending `xs` to an empty idle player, for
every position `k` with `1 ≤ k ≤ n` the selection walk of menu choice 2
follows `k - 1` links from `head`, every pointer it visits is a non-`NULL`
node, it ends at the node holding the `k`-th appended song, and the play
action stores that node in `currentSong`. -/
theorem play_selects_kth_song (m0 : Machine) (xs : List Song) (k : Int)
    (rng : Nat → Int) (fuel : Nat) (audio : Audio)
    (hhead : m0.player.head = none) (htail : m0.player.tail = none)
    (hcount : m0.player.numSongs = 0) (hidle : m0.player.isPlaying = 0)
    (hk1 : 1 ≤ k) (hk2 : k ≤ xs.length) :
    ∃ m a node m1,
      addSongs m0 xs = some m ∧
      (∀ j, j ≤ (k - 1).toNat → ∃ b, walk m.heap j m.player.head = some (some b)) ∧
      walk m.heap (k - 1).toNat m.player.head = some (some a) ∧
      deref m.heap (some a) = some node ∧
      xs[(k - 1).toNat]? = some node.song ∧
      menuStep rng fuel { choice := 2, songNumber := some k, audio := audio } m =
        some (Control.running, m1) ∧
      m1.player.currentSong = some a ∧ m1.heap = m.heap := by
  have hm0 := withList_nil m0 hhead htail
  have hrun := addSongs_withList m0 m0.heap [] xs m0.player.numSongs
  rw [hm0, List.nil_append, hcount, zero_add] at hrun
  have hlt : (k - 1).toNat < xs.length := by omega
  have hwalk : ∀ j, j < xs.length →
      walk (m0.heap ++ dll m0.heap.length xs) j (headPtr m0.heap.length xs) =
        some (some (m0.heap.length + j)) := by
    intro j hj
    rw [headPtr_eq_ptrAt, walk_dll m0.heap xs 0 j (by omega), ptrAt, if_pos (by omega)]
    simp
  have hnode := deref_dll m0.heap xs (k - 1).toNat xs[(k - 1).toNat]
    (List.getElem?_eq_getElem hlt)
  let m := withList m0 m0.heap xs xs.length
  let m2 : Machine := { m with
    trace := m.trace ++ menuText ++ [Event.printf "Enter song number to play: " []]
    player := { m.player with currentSong := some (m0.heap.length + (k - 1).toNat) } }
  let m3 := playSong audio xs[(k - 1).toNat].filename m2
  have hheap : m3.heap = m.heap := by
    simp only [m3, playSong]
    split <;> (try split) <;> (try split) <;> rfl
  have hcur : m3.player.currentSong = some (m0.heap.length + (k - 1).toNat) := by
    simp only [m3, playSong]
    split <;> (try split) <;> (try split) <;> rfl
  refine ⟨m, m0.heap.length + (k - 1).toNat, _,
    { m3 with player := { m3.player with isPlaying := 1 } }, hrun, ?_, hwalk _ hlt, hnode,
    ?_, ?_, hcur, hheap⟩
  · intro j hj
    exact ⟨_, hwalk j (by omega)⟩
  · simp [segNode, List.getElem?_eq_getElem hlt]
  · simp only [menuStep, playAction, withList, say, hidle, m, m2, m3]
    simp only [show ((2 : Int) = 1) = False from by decide, if_false, if_true,
      ne_eq, not_true_eq_false, hwalk _ hlt, hnode, Option.bind_eq_bind, Option.some_bind,
      Option.map_some']
    rw [if_pos ⟨by omega, hk2⟩]
    simp [segNode]

/-- Witness for C2: position 1 of the playlist `[A/B, C/D]` selects `A/B`. -/
theorem play_selects_kth_song_witness :
    (initialMachine "p").player.head = none ∧ (initialMachine "p").player.tail = none ∧
    (initialMachine "p").player.numSongs = 0 ∧ (initialMachine "p").player.isPlaying = 0 ∧
    (1 : Int) ≤ 1 ∧ (1 : Int) ≤ ([songAB, songCD] : List Song).length ∧
    ∃ m a node m1,
      addSongs (initialMachine "p") [songAB, songCD] = some m ∧
      (∀ j, j ≤ ((1 : Int) - 1).toNat → ∃ b, walk m.heap j m.player.head = some (some b)) ∧
      walk m.heap ((1 : Int) - 1).toNat m.player.head = some (some a) ∧
      deref m.heap (some a) = some node ∧
      [songAB, songCD][((1 : Int) - 1).toNat]? = some node.song ∧
      menuStep (fun _ => 0) 2
        { choice := 2, songNumber := some 1,
          audio := { sfOpenOk := true, aoDevice := some 7, bufferOk := true } } m =
        some (Control.running, m1) ∧
      m1.player.currentSong = some a ∧ m1.heap = m.heap :=
  ⟨rfl, rfl, rfl, rfl, by decide, by decide,
    play_selects_kth_song (initialMachine "p") [songAB, songCD] 1 (fun _ => 0) 2
      { sfOpenOk := true, aoDevice := some 7, bufferOk := true } rfl rfl rfl rfl
      (by decide) (by decide)⟩

/-- C3: for every player that is not playing and every integer position
below 1 or above `numSongs`, menu choice 2 only prints the prompt and the
"Invalid song number" message: `playSong` is not called (no audio event is
recorded) and the heap, every field of the player (`currentSong`,
`isPlaying`, `device`, `numSongs`, `head`, `tail`) and the `rand()` count are
unchanged. -/
theorem play_out_of_range_rejected (rng : Nat → Int) (fuel : Nat) (m : Machine) (k : Int)
    (audio : Audio) (hidle : m.player.isPlaying = 0)
    (hk : k < 1 ∨ k > m.player.numSongs) :
    menuStep rng fuel { choice := 2, songNumber := some k, audio := audio } m =
      some (Control.running, { m with
        trace := m.trace ++ menuText ++
          [Event.printf "Enter song number to play: " [],
           Event.printf
             "Invalid song number. Please enter a valid number between 1 and %d.\n"
             [Arg.int m.player.numSongs]] }) := by
  have hneg : ¬ (k > 0 ∧ k ≤ m.player.numSongs) := by omega
  simp only [menuStep, playAction, say, hidle]
  simp only [show ((2 : Int) = 1) = False from by decide, if_false, if_true,
    ne_eq, not_true_eq_false, hneg, Option.map_some', List.append_assoc]
  rfl

/-- Witness for C3: position 3 on the two-song playlist. -/
theorem play_out_of_range_rejected_witness :
    (withList (initialMachine "p") [] [songAB, songCD] 2).player.isPlaying = 0 ∧
    ((3 : Int) < 1 ∨ (3 : Int) > (withList (initialMachine "p") [] [songAB, songCD] 2).player.numSongs) ∧
    menuStep (fun _ => 0) 2
      { choice := 2, songNumber := some 3,
        audio := { sfOpenOk := true, aoDevice := some 7, bufferOk := true } }
      (withList (initialMachine "p") [] [songAB, songCD] 2) =
      some (Control.running, { withList (initialMachine "p") [] [songAB, songCD] 2 with
        trace := (withList (initialMachine "p") [] [songAB, songCD] 2).trace ++ menuText ++
          [Event.printf "Enter song number to play: " [],
           Event.printf
             "Invalid song number. Please enter a valid number between 1 and %d.\n"
             [Arg.int (withList (initialMachine "p") [] [songAB, songCD] 2).player.numSongs]] }) :=
  ⟨rfl, Or.inr (by decide),
    play_out_of_range_rejected (fun _ => 0) 2
      (withList (initialMachine "p") [] [songAB, songCD] 2) 3
      { sfOpenOk := true, aoDevice := some 7, bufferOk := true } rfl (Or.inr (by decide))⟩

/-! ## Properties of the shuffled display -/

/-- C4: `displayShuffledPlaylist` is non-destructive.  For every player whose
list from `head` is a `NULL`-terminated chain of nodes (songs `xs`) and
every sequence of `rand()` values, a call that returns leaves every field
of the player record unchanged (in particular `numSongs` and `currentSong`),
leaves every cell that existed before the call unchanged (the swaps and the
frees touch only the cells allocated by `copyPlaylist`), and so leaves the
display order from `head` unchanged; and the call does return whenever
`numSongs` does not exceed the length of the list. -/
theorem displayShuffled_preserves_player (rng : Nat → Int) (fuel : Nat) (m : Machine)
    (xs : List Song) (hsrc : songsFrom m.heap fuel m.player.head = some xs) :
    (m.player.numSongs ≤ xs.length → ∃ m1, displayShuffledPlaylist rng fuel m = some m1) ∧
    ∀ m1, displayShuffledPlaylist rng fuel m = some m1 →
      m1.player = m.player ∧
      m1.player.numSongs = m.player.numSongs ∧
      m1.player.currentSong = m.player.currentSong ∧
      songsFrom m1.heap fuel m1.player.head = some xs ∧
      m1.heap = m.heap ++ List.replicate xs.length none ∧
      ∀ a, a < m.heap.length → m1.heap[a]? = m.heap[a]? := by
  have hlen := songsFrom_length_le _ _ _ _ hsrc
  rw [displayShuffledPlaylist_eq rng fuel m xs hsrc]
  constructor
  · intro hn
    obtain ⟨res, hres⟩ :=
      shuffleSongs_returns rng m.player.numSongs fuel xs m.randCalls 0 hn (by omega)
    rw [hres]
    exact ⟨_, rfl⟩
  · intro m1 h1
    cases hres : shuffleSongs rng m.player.numSongs fuel xs m.randCalls 0 with
    | none => rw [hres] at h1; cases h1
    | some res =>
      rw [hres] at h1
      simp only [Option.map_some', Option.some.injEq] at h1
      subst h1
      refine ⟨rfl, rfl, rfl, songsFrom_append_left _ _ _ _ _ hsrc, rfl, ?_⟩
      intro a ha
      exact List.getElem?_append_left ha

/-- Witness for C4: a three-song playlist with song 2 selected. -/
theorem displayShuffled_preserves_player_witness :
    songsFrom (withList (initialMachine "p") [] [songAB, songCD, songEF] 3).heap 3
      (withList (initialMachine "p") [] [songAB, songCD, songEF] 3).player.head =
      some [songAB, songCD, songEF] ∧
    ((withList (initialMachine "p") [] [songAB, songCD, songEF] 3).player.numSongs ≤
        ([songAB, songCD, songEF] : List Song).length →
      ∃ m1, displayShuffledPlaylist (fun k => 7 * k + 1) 3
        (withList (initialMachine "p") [] [songAB, songCD, songEF] 3) = some m1) ∧
    ∀ m1, displayShuffledPlaylist (fun k => 7 * k + 1) 3
        (withList (initialMachine "p") [] [songAB, songCD, songEF] 3) = some m1 →
      m1.player = (withList (initialMachine "p") [] [songAB, songCD, songEF] 3).player ∧
      m1.player.numSongs =
        (withList (initialMachine "p") [] [songAB, songCD, songEF] 3).player.numSongs ∧
      m1.player.currentSong =
        (withList (initialMachine "p") [] [songAB, songCD, songEF] 3).player.currentSong ∧
      songsFrom m1.heap 3 m1.player.head = some [songAB, songCD, songEF] ∧
      m1.heap = (withList (initialMachine "p") [] [songAB, songCD, songEF] 3).heap ++
        List.replicate ([songAB, songCD, songEF] : List Song).length none ∧
      ∀ a, a < (withList (initialMachine "p") [] [songAB, songCD, songEF] 3).heap.length →
        m1.heap[a]? = (withList (initialMachine "p") [] [songAB, songCD, songEF] 3).heap[a]? :=
  ⟨by decide,
    displayShuffled_preserves_player (fun k => 7 * k + 1) 3
      (withList (initialMachine "p") [] [songAB, songCD, songEF] 3)
      [songAB, songCD, songEF] (by decide)⟩

/-- C5: for every well-formed player (`numSongs` equal to the length of the
list from `head`) and every sequence of `rand()` values (in particular the
non-negative ones `rand()` returns), `displayShuffledPlaylist` returns and
the songs it prints, in order and numbered from 1, are a permutation `ys` of
the playlist's songs `xs`: same multiset, same length. -/
theorem displayShuffled_prints_permutation (rng : Nat → Int) (fuel : Nat) (m : Machine)
    (xs : List Song) (hsrc : songsFrom m.heap fuel m.player.head = some xs)
    (hwf : m.player.numSongs = xs.length) :
    ∃ (ys : List Song) (m1 : Machine), displayShuffledPlaylist rng fuel m = some m1 ∧
      m1.trace = m.trace ++
        Event.printf "Shuffled Playlist (%s):\n" [Arg.str m.player.playlistName] ::
          ys.mapIdx (fun k s => entryEvent ((k : Int) + 1) s) ∧
      ys.Perm xs ∧ (↑ys : Multiset Song) = (xs : Multiset Song) ∧ ys.length = xs.length := by
  have hlen := songsFrom_length_le _ _ _ _ hsrc
  obtain ⟨res, hres⟩ :=
    shuffleSongs_returns rng m.player.numSongs fuel xs m.randCalls 0 (by omega) (by omega)
  have hperm := shuffleSongs_perm _ _ _ _ _ _ _ hres
  rw [displayShuffledPlaylist_eq rng fuel m xs hsrc, hres]
  refine ⟨res.1, _, rfl, ?_, hperm, Multiset.coe_eq_coe.mpr hperm, hperm.length_eq⟩
  simp [entryEvents_eq_mapIdx, add_comm]

/-- Witness for C5: a three-song playlist. -/
theorem displayShuffled_prints_permutation_witness :
    songsFrom (withList (initialMachine "p") [] [songAB, songCD, songEF] 3).heap 3
      (withList (initialMachine "p") [] [songAB, songCD, songEF] 3).player.head =
      some [songAB, songCD, songEF] ∧
    (withList (initialMachine "p") [] [songAB, songCD, songEF] 3).player.numSongs =
      ([songAB, songCD, songEF] : List Song).length ∧
    ∃ (ys : List Song) (m1 : Machine), displayShuffledPlaylist (fun k => 7 * k + 1) 3
        (withList (initialMachine "p") [] [songAB, songCD, songEF] 3) = some m1 ∧
      m1.trace = (withList (initialMachine "p") [] [songAB, songCD, songEF] 3).trace ++
        Event.printf "Shuffled Playlist (%s):\n"
          [Arg.str (withList (initialMachine "p") [] [songAB, songCD, songEF] 3).player.playlistName] ::
          ys.mapIdx (fun k s => entryEvent ((k : Int) + 1) s) ∧
      ys.Perm [songAB, songCD, songEF] ∧
      (↑ys : Multiset Song) = (([songAB, songCD, songEF] : List Song) : Multiset Song) ∧
      ys.length = ([songAB, songCD, songEF] : List Song).length :=
  ⟨by decide, by decide,
    displayShuffled_prints_permutation (fun k => 7 * k + 1) 3
      (withList (initialMachine "p") [] [songAB, songCD, songEF] 3)
      [songAB, songCD, songEF] (by decide) (by decide)⟩

/-- C6: the shuffle loop of `displayShuffledPlaylist` is a Fisher-Yates
shuffle and, on a well-formed playlist of `n` pairwise distinct songs `xs`,
a bijection from draw sequences to orderings.
(0) A valid draw sequence is a list `r_0, ..., r_{n-2}` with `i ≤ r_i ≤ n-1`.
(1) For every non-negative `rand()` sequence the indices drawn at line 157,
`r_i = i + rand() % (n - i)`, form a valid draw sequence (`i ≤ r_i ≤ n-1`
for `i = 0..n-2`) and the displayed order is the specification's
Fisher-Yates shuffle of `xs` with these draws.
(2) Every valid draw sequence `d` is drawn under suitable `rand()` values
(`randFor`), and the order then displayed is a permutation of `xs`.
(3) Every ordering `ys` of `xs` is displayed for exactly one valid draw
sequence.
(4) The lines printed are the displayed order, numbered from 1. -/
theorem shuffle_is_fisher_yates_bijection (fuel : Nat) (m : Machine) (xs : List Song)
    (hsrc : songsFrom m.heap fuel m.player.head = some xs)
    (hwf : m.player.numSongs = xs.length) (hnd : xs.Nodup) :
    (∀ d, ValidDraws xs.length d ↔
      d.length = xs.length - 1 ∧ ∀ i r, d[i]? = some r → i ≤ r ∧ r ≤ xs.length - 1) ∧
    (∀ rng : Nat → Int, (∀ k, 0 ≤ rng k) →
      ValidDraws xs.length (drawsOf rng xs.length m.randCalls) ∧
      shuffledOrder rng fuel m =
        some (fisherYates (drawsOf rng xs.length m.randCalls) 0 xs)) ∧
    (∀ d, ValidDraws xs.length d →
      (∀ k, 0 ≤ randFor m.randCalls d k) ∧
      drawsOf (randFor m.randCalls d) xs.length m.randCalls = d ∧
      shuffledOrder (randFor m.randCalls d) fuel m = some (fisherYates d 0 xs) ∧
      (fisherYates d 0 xs).Perm xs) ∧
    (∀ ys : List Song, ys.Perm xs →
      ∃! d, ValidDraws xs.length d ∧
        shuffledOrder (randFor m.randCalls d) fuel m = some ys) ∧
    (∀ (rng : Nat → Int) (ys : List Song), shuffledOrder rng fuel m = some ys →
      ∃ m1, displayShuffledPlaylist rng fuel m = some m1 ∧
        m1.trace = m.trace ++
          Event.printf "Shuffled Playlist (%s):\n" [Arg.str m.player.playlistName] ::
            ys.mapIdx (fun k s => entryEvent ((k : Int) + 1) s)) := by
  have hB : ∀ d, ValidDraws xs.length d →
      shuffledOrder (randFor m.randCalls d) fuel m = some (fisherYates d 0 xs) := by
    intro d hv
    exact shuffledOrder_of_draws _ fuel m xs d hsrc hwf hv
      (fun k r hk => randFor_draw xs.length m.randCalls d hv k r hk)
  refine ⟨validDraws_iff xs.length, ?_, ?_, ?_, ?_⟩
  · intro rng hrng
    have hv : validFrom xs.length 0 (drawsOf rng xs.length m.randCalls) = true :=
      drawsFrom_valid rng hrng xs.length m.randCalls (xs.length - 1) 0 (by omega)
    exact ⟨hv, shuffledOrder_of_draws rng fuel m xs _ hsrc hwf hv
      (fun k r hk => drawsFrom_getElem? rng xs.length m.randCalls _ 0 k r hk)⟩
  · intro d hv
    refine ⟨randFor_nonneg m.randCalls d, ?_, hB d hv, fisherYates_perm d 0 xs⟩
    have hl := validFrom_length _ _ _ hv
    have := drawsFrom_eq (randFor m.randCalls d) xs.length m.randCalls d 0
      (fun k r hk => randFor_draw xs.length m.randCalls d hv k r hk)
    rw [hl] at this
    exact this
  · intro ys hperm
    obtain ⟨d, hv, hfy⟩ := fisherYates_surjective xs.length (xs.length - 1) 0 xs ys
      (by omega) rfl hnd hperm (by intro j hj; omega)
    refine ⟨d, ⟨hv, by rw [hB d hv, hfy]⟩, ?_⟩
    rintro d1 ⟨hv1, h1⟩
    rw [hB d1 hv1] at h1
    have heq : fisherYates d1 0 xs = fisherYates d 0 xs := by
      rw [hfy]; exact Option.some.inj h1
    exact fisherYates_injective xs.length d1 d 0 xs rfl hnd hv1 hv heq
  · intro rng ys hys
    rw [shuffledOrder_eq rng fuel m xs hsrc] at hys
    rw [displayShuffledPlaylist_eq rng fuel m xs hsrc]
    cases hres : shuffleSongs rng m.player.numSongs fuel xs m.randCalls 0 with
    | none => rw [hres] at hys; cases hys
    | some res =>
      rw [hres] at hys
      simp only [Option.map_some', Option.some.injEq] at hys
      subst hys
      refine ⟨_, rfl, ?_⟩
      simp [entryEvents_eq_mapIdx, add_comm]

/-- Witness for C6: the three-song playlist. -/
theorem shuffle_is_fisher_yates_bijection_witness :
    songsFrom (withList (initialMachine "p") [] [songAB, songCD, songEF] 3).heap 3
      (withList (initialMachine "p") [] [songAB, songCD, songEF] 3).player.head =
      some [songAB, songCD, songEF] ∧
    (withList (initialMachine "p") [] [songAB, songCD, songEF] 3).player.numSongs =
      ([songAB, songCD, songEF] : List Song).length ∧
    ([songAB, songCD, songEF] : List Song).Nodup ∧
    shuffledOrder (randFor 0 [2, 1]) 3
      (withList (initialMachine "p") [] [songAB, songCD, songEF] 3) =
      some [songEF, songCD, songAB] ∧
    ∃! d, ValidDraws ([songAB, songCD, songEF] : List Song).length d ∧
      shuffledOrder
        (randFor (withList (initialMachine "p") [] [songAB, songCD, songEF] 3).randCalls d) 3
        (withList (initialMachine "p") [] [songAB, songCD, songEF] 3) =
        some [songEF, songCD, songAB] :=
  ⟨by decide, by decide, by decide, by decide,
    (shuffle_is_fisher_yates_bijection 3
      (withList (initialMachine "p") [] [songAB, songCD, songEF] 3)
      [songAB, songCD, songEF] (by decide) (by decide) (by decide)).2.2.2.1
      [songEF, songCD, songAB] (by decide)⟩

/-- C7: for every well-formed playlist with 0 or 1 entries the shuffle loop
of `displayShuffledPlaylist` runs no iteration: it returns the heap produced
by `copyPlaylist` unchanged (no swap) and the `rand()` count unchanged (no
draw), for every `rand()` sequence; the call prints the playlist in its own
display order, so every invocation shows the same ordering. -/
theorem displayShuffled_short_is_identity (rng : Nat → Int) (fuel : Nat) (m : Machine)
    (xs : List Song) (hsrc : songsFrom m.heap fuel m.player.head = some xs)
    (hwf : m.player.numSongs = xs.length) (hn : xs.length ≤ 1) :
    ∃ h1 copiedHead,
      copyPlaylist fuel m.heap m.player.head = some (h1, copiedHead) ∧
      shuffleLoop rng m.player.numSongs copiedHead fuel h1 m.randCalls copiedHead 0 =
        some (h1, m.randCalls) ∧
      displayShuffledPlaylist rng fuel m = some { m with
        heap := m.heap ++ List.replicate xs.length none
        trace := m.trace ++
          Event.printf "Shuffled Playlist (%s):\n" [Arg.str m.player.playlistName] ::
            xs.mapIdx (fun k s => entryEvent ((k : Int) + 1) s) } := by
  have hshort := shuffleSongs_short rng fuel xs m.randCalls hn
  rw [← hwf] at hshort
  refine ⟨_, _, copyPlaylist_dll m.heap fuel xs _ hsrc, ?_, ?_⟩
  · have hloop := shuffleLoop_dll rng m.player.numSongs m.heap fuel xs m.randCalls 0
    rw [← headPtr_eq_ptrAt, hshort] at hloop
    exact_mod_cast hloop
  · rw [displayShuffledPlaylist_eq rng fuel m xs hsrc, hshort]
    simp [entryEvents_eq_mapIdx, add_comm]

/-- Witness for C7: a one-song playlist. -/
theorem displayShuffled_short_is_identity_witness :
    songsFrom (withList (initialMachine "p") [] [songAB] 1).heap 1
      (withList (initialMachine "p") [] [songAB] 1).player.head = some [songAB] ∧
    (withList (initialMachine "p") [] [songAB] 1).player.numSongs =
      ([songAB] : List Song).length ∧
    ([songAB] : List Song).length ≤ 1 ∧
    ∃ h1 copiedHead,
      copyPlaylist 1 (withList (initialMachine "p") [] [songAB] 1).heap
        (withList (initialMachine "p") [] [songAB] 1).player.head = some (h1, copiedHead) ∧
      shuffleLoop (fun k => 7 * k + 1)
        (withList (initialMachine "p") [] [songAB] 1).player.numSongs copiedHead 1 h1
        (withList (initialMachine "p") [] [songAB] 1).randCalls copiedHead 0 =
        some (h1, (withList (initialMachine "p") [] [songAB] 1).randCalls) ∧
      displayShuffledPlaylist (fun k => 7 * k + 1) 1
        (withList (initialMachine "p") [] [songAB] 1) =
        some { withList (initialMachine "p") [] [songAB] 1 with
          heap := (withList (initialMachine "p") [] [songAB] 1).heap ++
            List.replicate ([songAB] : List Song).length none
          trace := (withList (initialMachine "p") [] [songAB] 1).trace ++
            Event.printf "Shuffled Playlist (%s):\n"
              [Arg.str (withList (initialMachine "p") [] [songAB] 1).player.playlistName] ::
              [songAB].mapIdx (fun k s => entryEvent ((k : Int) + 1) s) } :=
  ⟨by decide, by decide, by decide,
    displayShuffled_short_is_identity (fun k => 7 * k + 1) 1
      (withList (initialMachine "p") [] [songAB] 1) [songAB]
      (by decide) (by decide) (by decide)⟩

/-! ## Properties of the file loader -/

set_option maxRecDepth 100000 in
/-- C8, as stated, fails: the one-line file holding `longLine` (262
characters) parses as a line into one record, yet the load loop reads it in
two `fgets` buffers and inserts two songs. -/
theorem load_long_line_two_songs :
    (loadPlaylist "p" (fileOf [longLine])).map (fun m => m.player.numSongs) = some 2 ∧
    ([longLine].filterMap recordOf).length = 1 ∧
    (loadPlaylist "p" (fileOf [longLine])).bind
        (fun m => songsFrom m.heap 2 m.player.head) =
      some
        [{ title := "A", artist := "B", duration := "C",
           filename := String.mk (List.replicate 99 'x') },
         { title := "E", artist := "F", duration := "G", filename := "H" }] := by
  decide

/-- C8 (amended): for every list of input lines, each ended by a newline and
fitting the 256-byte line buffer with it (at most 254 characters before the
newline), the load loop returns, the playlist is exactly the sequence of
records of the lines that parse into four fields, in file order, `numSongs`
is their number, an empty line inserts nothing and is not reported, and the
lines reported are exactly the non-empty lines that do not parse, in file
order. -/
theorem load_short_lines (name : String) (lines : List (List Char))
    (hshort : ∀ l ∈ lines, l.length ≤ 254) (hnl : ∀ l ∈ lines, '\n' ∉ l) :
    ∃ m, loadPlaylist name (fileOf lines) = some m ∧
      m.player.numSongs = (lines.filterMap recordOf).length ∧
      (∀ fuel, (lines.filterMap recordOf).length ≤ fuel →
        songsFrom m.heap fuel m.player.head = some (lines.filterMap recordOf)) ∧
      m.trace = (lines.filter (fun l => reported l)).map
        (fun l => lineError (l ++ ['\n'])) ∧
      recordOf [] = none ∧ reported [] = false := by
  have hrun := loadLoop_fileOf lines (fileOf lines).length (initialMachine name) [] [] 0
    hshort hnl (length_le_fileOf lines)
  have hinit : withList (initialMachine name) [] [] 0 = initialMachine name := rfl
  rw [hinit] at hrun
  refine ⟨_, hrun, ?_, ?_, ?_, by decide, by decide⟩
  · simp [withList]
  · intro fuel hfuel
    have := songsFrom_dll [] (lines.filterMap recordOf) fuel 0 (by omega)
    simpa [withList, headPtr_eq_ptrAt] using this
  · simp [withList, initialMachine]

/-- Witness for C8: the load scenario yields exactly `A/B` and `C/D`, and
reports the line `E,F`. -/
theorem load_short_lines_witness :
    (∀ l ∈ sampleLines, l.length ≤ 254) ∧ (∀ l ∈ sampleLines, '\n' ∉ l) ∧
    sampleLines.filterMap recordOf = [songAB, songCD] ∧
    sampleLines.filter (fun l => reported l) = ["E,F".toList] ∧
    ∃ m, loadPlaylist "p" (fileOf sampleLines) = some m ∧
      m.player.numSongs = (sampleLines.filterMap recordOf).length ∧
      (∀ fuel, (sampleLines.filterMap recordOf).length ≤ fuel →
        songsFrom m.heap fuel m.player.head = some (sampleLines.filterMap recordOf)) ∧
      m.trace = (sampleLines.filter (fun l => reported l)).map
        (fun l => lineError (l ++ ['\n'])) ∧
      recordOf [] = none ∧ reported [] = false :=
  ⟨by decide, by decide, by decide, by decide,
    load_short_lines "p" sampleLines (by decide) (by decide)⟩

/-- C9, as stated, fails: the line `A,B,C,D,E` has five comma-separated
fields, yet it parses; the load loop inserts a song for it and the stored
`filename` is `D,E`, which contains a comma. -/
theorem five_fields_line_is_inserted :
    recordOf "A,B,C,D,E".toList =
      some { title := "A", artist := "B", duration := "C", filename := "D,E" } ∧
    ',' ∈ "D,E".toList ∧
    (loadPlaylist "p" (fileOf ["A,B,C,D,E".toList])).map (fun m => m.player.numSongs) =
      some 1 ∧
    (loadPlaylist "p" (fileOf ["A,B,C,D,E".toList])).map (fun m => m.trace) = some [] := by
  decide

/-- C9 (amended): for every non-empty input line `l` that fits the 256-byte
line buffer with its newline (at most 254 characters before the newline),
standing anywhere in a file of such lines, `fgets` returns exactly `l` with
its newline, and the load loop inserts a song for `l` if and only if `l`
starts with three non-empty comma-free fields of at most 99 characters,
each followed by a comma, and at least one more character follows; the song
holds the three fields and, as `filename`, the first 99 characters of
everything after the third comma, commas included.  Otherwise `l` is
reported and skipped; so is every such line with fewer than four
comma-separated fields, and the stored title, artist and duration never
contain a comma. -/
theorem line_inserted_iff_three_leading_fields (name : String)
    (before after : List (List Char)) (l : List Char) (hl : l ≠ [])
    (hshort : ∀ x ∈ before ++ l :: after, x.length ≤ 254)
    (hnl : ∀ x ∈ before ++ l :: after, '\n' ∉ x) :
    (∀ song, recordOf l = some song ↔
      ∃ t a d rest, l = t ++ ',' :: (a ++ ',' :: (d ++ ',' :: rest)) ∧
        t ≠ [] ∧ ',' ∉ t ∧ t.length ≤ 99 ∧
        a ≠ [] ∧ ',' ∉ a ∧ a.length ≤ 99 ∧
        d ≠ [] ∧ ',' ∉ d ∧ d.length ≤ 99 ∧
        rest ≠ [] ∧
        song = { title := String.mk t, artist := String.mk a, duration := String.mk d,
                 filename := String.mk (rest.take 99) }) ∧
    (∀ rest, fgets MAX_LINE_LENGTH (l ++ '\n' :: rest) = some (l ++ ['\n'], rest)) ∧
    (∀ m,
      loadLine (l ++ ['\n']) m =
        match recordOf l with
        | some song => addSong m song
        | none => some { m with trace := m.trace ++ [lineError (l ++ ['\n'])] }) ∧
    (∃ m, loadPlaylist name (fileOf (before ++ l :: after)) = some m ∧
      m.player.numSongs =
        ((before.filterMap recordOf ++ (recordOf l).toList ++
          after.filterMap recordOf).length : Int) ∧
      (∀ fuel,
        (before.filterMap recordOf ++ (recordOf l).toList ++
          after.filterMap recordOf).length ≤ fuel →
        songsFrom m.heap fuel m.player.head =
          some (before.filterMap recordOf ++ (recordOf l).toList ++
            after.filterMap recordOf)) ∧
      m.trace =
        (before.filter (fun x => reported x)).map (fun x => lineError (x ++ ['\n'])) ++
          (if (recordOf l).isNone then [lineError (l ++ ['\n'])] else []) ++
          (after.filter (fun x => reported x)).map (fun x => lineError (x ++ ['\n']))) ∧
    (l.count ',' < 3 → recordOf l = none) ∧
    (∀ song, recordOf l = some song →
      ',' ∉ song.title.data ∧ ',' ∉ song.artist.data ∧ ',' ∉ song.duration.data) := by
  have hnl1 : '\n' ∉ l := hnl l (by simp)
  have hlen1 : l.length ≤ 254 := hshort l (by simp)
  refine ⟨fun song => recordOf_eq_some l hnl1 song, fun rest => fgets_line l rest hnl1 hlen1,
    ?_, ?_, ?_, ?_⟩
  · intro m
    rw [loadLine_line l hnl1 m, if_neg hl]
  · have hrun := loadLoop_fileOf (before ++ l :: after) (fileOf (before ++ l :: after)).length
      (initialMachine name) [] [] 0 hshort hnl (length_le_fileOf _)
    have hinit : withList (initialMachine name) [] [] 0 = initialMachine name := rfl
    rw [hinit] at hrun
    have hsongs : (before ++ l :: after).filterMap recordOf =
        before.filterMap recordOf ++ (recordOf l).toList ++ after.filterMap recordOf := by
      rw [List.filterMap_append, List.append_assoc]
      congr 1
      cases hrec : recordOf l with
      | none => simp [List.filterMap_cons, hrec]
      | some song => simp [List.filterMap_cons, hrec]
    have hrep : (before ++ l :: after).filter (fun x => reported x) =
        before.filter (fun x => reported x) ++
          (if (recordOf l).isNone then [l] else []) ++
          after.filter (fun x => reported x) := by
      rw [List.filter_append, List.append_assoc]
      congr 1
      cases hrec : recordOf l with
      | none => simp [List.filter_cons, reported, hrec, hl]
      | some song => simp [List.filter_cons, reported, hrec]
    rw [hsongs, hrep] at hrun
    refine ⟨_, hrun, ?_, ?_, ?_⟩
    · simp [withList]
    · intro fuel hfuel
      have := songsFrom_dll []
        (before.filterMap recordOf ++ (recordOf l).toList ++ after.filterMap recordOf)
        fuel 0 (by omega)
      simpa [withList, headPtr_eq_ptrAt] using this
    · cases hrec : recordOf l with
      | none => simp [withList, initialMachine]
      | some song => simp [withList, initialMachine]
  · intro hcount
    cases hrec : recordOf l with
    | none => rfl
    | some song =>
      obtain ⟨t, a, d, rest, el, -⟩ := (recordOf_eq_some l hnl1 song).mp hrec
      rw [el] at hcount
      simp only [List.count_append, List.count_cons_self] at hcount
      omega
  · intro song hrec
    obtain ⟨t, a, d, rest, -, -, ct, -, -, ca, -, -, cd, -, -, hs⟩ :=
      (recordOf_eq_some l hnl1 song).mp hrec
    subst hs
    exact ⟨ct, ca, cd⟩

/-- Witness for C9: the line `A,B,C,D,E` between the lines `A,B,3:30,a.wav`
and `E,F` of a file. -/
theorem line_inserted_iff_three_leading_fields_witness :
    "A,B,C,D,E".toList ≠ [] ∧
    (∀ x ∈ ["A,B,3:30,a.wav".toList] ++ "A,B,C,D,E".toList :: ["E,F".toList],
      x.length ≤ 254) ∧
    (∀ x ∈ ["A,B,3:30,a.wav".toList] ++ "A,B,C,D,E".toList :: ["E,F".toList],
      '\n' ∉ x) ∧
    ((∀ song, recordOf "A,B,C,D,E".toList = some song ↔
      ∃ t a d rest, "A,B,C,D,E".toList = t ++ ',' :: (a ++ ',' :: (d ++ ',' :: rest)) ∧
        t ≠ [] ∧ ',' ∉ t ∧ t.length ≤ 99 ∧
        a ≠ [] ∧ ',' ∉ a ∧ a.length ≤ 99 ∧
        d ≠ [] ∧ ',' ∉ d ∧ d.length ≤ 99 ∧
        rest ≠ [] ∧
        song = { title := String.mk t, artist := String.mk a, duration := String.mk d,
                 filename := String.mk (rest.take 99) }) ∧
    (∀ rest, fgets MAX_LINE_LENGTH ("A,B,C,D,E".toList ++ '\n' :: rest) =
      some ("A,B,C,D,E".toList ++ ['\n'], rest)) ∧
    (∀ m,
      loadLine ("A,B,C,D,E".toList ++ ['\n']) m =
        match recordOf "A,B,C,D,E".toList with
        | some song => addSong m song
        | none => some { m with
            trace := m.trace ++ [lineError ("A,B,C,D,E".toList ++ ['\n'])] }) ∧
    (∃ m, loadPlaylist "p"
        (fileOf (["A,B,3:30,a.wav".toList] ++ "A,B,C,D,E".toList :: ["E,F".toList])) =
          some m ∧
      m.player.numSongs =
        ((["A,B,3:30,a.wav".toList].filterMap recordOf ++
          (recordOf "A,B,C,D,E".toList).toList ++
          ["E,F".toList].filterMap recordOf).length : Int) ∧
      (∀ fuel,
        (["A,B,3:30,a.wav".toList].filterMap recordOf ++
          (recordOf "A,B,C,D,E".toList).toList ++
          ["E,F".toList].filterMap recordOf).length ≤ fuel →
        songsFrom m.heap fuel m.player.head =
          some (["A,B,3:30,a.wav".toList].filterMap recordOf ++
            (recordOf "A,B,C,D,E".toList).toList ++
            ["E,F".toList].filterMap recordOf)) ∧
      m.trace =
        (["A,B,3:30,a.wav".toList].filter (fun x => reported x)).map
            (fun x => lineError (x ++ ['\n'])) ++
          (if (recordOf "A,B,C,D,E".toList).isNone then
            [lineError ("A,B,C,D,E".toList ++ ['\n'])] else []) ++
          (["E,F".toList].filter (fun x => reported x)).map
            (fun x => lineError (x ++ ['\n']))) ∧
    (("A,B,C,D,E".toList).count ',' < 3 → recordOf "A,B,C,D,E".toList = none) ∧
    (∀ song, recordOf "A,B,C,D,E".toList = some song →
      ',' ∉ song.title.data ∧ ',' ∉ song.artist.data ∧ ',' ∉ song.duration.data)) :=
  ⟨by decide, by decide, by decide,
    line_inserted_iff_three_leading_fields "p" ["A,B,3:30,a.wav".toList]
      ["E,F".toList] "A,B,C,D,E".toList (by decide) (by decide) (by decide)⟩

/-! ## Properties of playback -/

/-- C10 (the code departs from the specification): on the idle two-song player, menu
choice 2 with the valid position 1 ends with `isPlaying = 1` in each of the
three failure cases of `playSong`: `sf_open` fails, `ao_open_live` returns no
device, the sample buffer cannot be allocated.  Line 262 sets the flag
whatever `playSong` did. -/
theorem play_failure_sets_isPlaying :
    (withList (initialMachine "p") [] [songAB, songCD] 2).player.isPlaying = 0 ∧
    (menuStep (fun _ => 0) 2
      { choice := 2, songNumber := some 1,
        audio := { sfOpenOk := false, aoDevice := none, bufferOk := false } }
      (withList (initialMachine "p") [] [songAB, songCD] 2)).map
        (fun r => r.2.player.isPlaying) = some 1 ∧
    (menuStep (fun _ => 0) 2
      { choice := 2, songNumber := some 1,
        audio := { sfOpenOk := true, aoDevice := none, bufferOk := false } }
      (withList (initialMachine "p") [] [songAB, songCD] 2)).map
        (fun r => r.2.player.isPlaying) = some 1 ∧
    (menuStep (fun _ => 0) 2
      { choice := 2, songNumber := some 1,
        audio := { sfOpenOk := true, aoDevice := some 7, bufferOk := false } }
      (withList (initialMachine "p") [] [songAB, songCD] 2)).map
        (fun r => r.2.player.isPlaying) = some 1 := by
  decide

/-! ## Properties of the playback session -/

/-- C11: for every player with `isPlaying = 0`, menu choice 3 is a no-op: it
prints the menu and "No song is currently playing.", records no `ao_close`
event, and leaves the heap, every field of the player (`isPlaying`, `device`,
`currentSong`, the list) and the `rand()` count unchanged.  Consequently,
from any state, a second stop leaves the heap, the player and the `rand()`
count as the first stop left them and only prints that nothing is playing. -/
theorem stop_idle_noop_and_idempotent (rng : Nat → Int) (fuel : Nat) (sn : Option Int)
    (audio : Audio) (m : Machine) (hidle : m.player.isPlaying = 0) :
    menuStep rng fuel { choice := 3, songNumber := sn, audio := audio } m =
      some (Control.running, { m with
        trace := m.trace ++ menuText ++
          [Event.printf "No song is currently playing.\n" []] }) ∧
    ∀ s : Machine, ∃ s1 s2,
      menuStep rng fuel { choice := 3, songNumber := sn, audio := audio } s =
        some (Control.running, s1) ∧
      menuStep rng fuel { choice := 3, songNumber := sn, audio := audio } s1 =
        some (Control.running, s2) ∧
      s2.heap = s1.heap ∧ s2.player = s1.player ∧ s2.randCalls = s1.randCalls ∧
      s2.trace = s1.trace ++ menuText ++
        [Event.printf "No song is currently playing.\n" []] := by
  have hnoop : ∀ x : Machine, x.player.isPlaying = 0 →
      menuStep rng fuel { choice := 3, songNumber := sn, audio := audio } x =
        some (Control.running, { x with
          trace := x.trace ++ menuText ++
            [Event.printf "No song is currently playing.\n" []] }) := by
    intro x hx
    rw [menuStep_stop, stopAction_idle { x with trace := x.trace ++ menuText } hx]
  refine ⟨hnoop m hidle, ?_⟩
  intro s
  have hs1 : (stopAction { s with trace := s.trace ++ menuText }).player.isPlaying = 0 := by
    by_cases hp : s.player.isPlaying = 0
    · rw [stopAction_idle { s with trace := s.trace ++ menuText } hp]; exact hp
    · rw [stopAction_sounding { s with trace := s.trace ++ menuText } hp]
  exact ⟨_, _, menuStep_stop rng fuel sn audio s, hnoop _ hs1, rfl, rfl, rfl, rfl⟩

/-- Witness for C11: the two-song player just loaded. -/
theorem stop_idle_noop_and_idempotent_witness :
    (withList (initialMachine "p") [] [songAB, songCD] 2).player.isPlaying = 0 ∧
    (menuStep (fun _ => 0) 2 { choice := 3, songNumber := none, audio := audioOk }
        (withList (initialMachine "p") [] [songAB, songCD] 2) =
      some (Control.running, { withList (initialMachine "p") [] [songAB, songCD] 2 with
        trace := (withList (initialMachine "p") [] [songAB, songCD] 2).trace ++ menuText ++
          [Event.printf "No song is currently playing.\n" []] }) ∧
    ∀ s : Machine, ∃ s1 s2,
      menuStep (fun _ => 0) 2 { choice := 3, songNumber := none, audio := audioOk } s =
        some (Control.running, s1) ∧
      menuStep (fun _ => 0) 2 { choice := 3, songNumber := none, audio := audioOk } s1 =
        some (Control.running, s2) ∧
      s2.heap = s1.heap ∧ s2.player = s1.player ∧ s2.randCalls = s1.randCalls ∧
      s2.trace = s1.trace ++ menuText ++
        [Event.printf "No song is currently playing.\n" []]) :=
  ⟨rfl, stop_idle_noop_and_idempotent (fun _ => 0) 2 none audioOk
    (withList (initialMachine "p") [] [songAB, songCD] 2) rfl⟩

/-- C12: for every idle player whose list from `head` is a chain of
`numSongs` nodes, every valid position and every outcome of the audio
collaborators, menu choice 2 followed by menu choice 3 both return and end
with `isPlaying = 0` and `device = NULL`; among the events of the two steps
no device handle is left open: every handle returned by `ao_open_live` has
been passed to `ao_close`. -/
theorem play_then_stop_releases_device (rng : Nat → Int) (fuel : Nat) (m : Machine)
    (xs : List Song) (k : Int) (audio audio1 : Audio) (sn : Option Int)
    (hidle : m.player.isPlaying = 0)
    (hsrc : songsFrom m.heap fuel m.player.head = some xs)
    (hwf : m.player.numSongs = xs.length) (hk1 : 1 ≤ k) (hk2 : k ≤ m.player.numSongs) :
    ∃ m1 m2 suffix,
      menuStep rng fuel { choice := 2, songNumber := some k, audio := audio } m =
        some (Control.running, m1) ∧
      menuStep rng fuel { choice := 3, songNumber := sn, audio := audio1 } m1 =
        some (Control.running, m2) ∧
      m2.player.isPlaying = 0 ∧ m2.player.device = none ∧
      m2.trace = m.trace ++ suffix ∧
      openHandles [] suffix = [] ∧
      ∀ d, openCount d suffix ≤ closeCount d suffix := by
  obtain ⟨a, node, -, -, -, hstep⟩ :=
    menuStep_play rng fuel m xs k audio hidle hsrc hk1 hk2 (by omega)
  obtain ⟨ps, pt, -, -, pp, pbal, pcnt, -⟩ := playSong_events audio node.song.filename
    { m with
      trace := m.trace ++ menuText ++ [Event.printf "Enter song number to play: " []]
      player := { m.player with currentSong := some a } }
  obtain ⟨m2, hs2, hi2, hd2, ht2⟩ := menuStep_stop_playing rng fuel sn audio1
    { playSong audio node.song.filename
        { m with
          trace := m.trace ++ menuText ++ [Event.printf "Enter song number to play: " []]
          player := { m.player with currentSong := some a } } with
      player :=
        { (playSong audio node.song.filename
            { m with
              trace := m.trace ++ menuText ++
                [Event.printf "Enter song number to play: " []]
              player := { m.player with currentSong := some a } }).player with
          isPlaying := 1 } } (by simp)
  simp only [pt, pp] at ht2
  refine ⟨_, m2, menuText ++ [Event.printf "Enter song number to play: " []] ++ ps ++
    menuText ++
    (match (if audio.sfOpenOk = true then audio.aoDevice else m.player.device) with
      | some dev => [Event.aoClose dev]
      | none => []) ++ [Event.printf "Song stopped.\n" []], hstep, hs2, hi2, hd2, ?_, ?_, ?_⟩
  · rw [ht2]
    simp only [List.append_assoc]
  · have hm1 : ∀ S, openHandles S menuText = S := fun S =>
      (printf_only S menuText menuText_printf).1
    have hps : List.foldl handleStep [] ps = [] := pbal.1
    simp only [openHandles_append, hm1]
    cases (if audio.sfOpenOk = true then audio.aoDevice else m.player.device) <;>
      simp [openHandles, handleStep, hps]
  · intro d
    have h1 := openCount_printf d menuText menuText_printf
    have h2 := closeCount_printf d menuText menuText_printf
    have h3 := pcnt d
    have h4 : openCount d [Event.printf "Enter song number to play: " []] = 0 := rfl
    have h5 : closeCount d [Event.printf "Enter song number to play: " []] = 0 := rfl
    have h6 : openCount d [Event.printf "Song stopped.\n" []] = 0 := rfl
    have h7 : closeCount d [Event.printf "Song stopped.\n" []] = 0 := rfl
    simp only [openCount_append, closeCount_append, h1, h2, h4, h5, h6, h7]
    cases (if audio.sfOpenOk = true then audio.aoDevice else m.player.device) with
    | none =>
      have h8 : openCount d [] = 0 := rfl
      simp only [h8]
      omega
    | some dev =>
      have h8 : openCount d [Event.aoClose dev] = 0 := by simp [openCount]
      simp only [h8]
      omega

/-- Witness for C12: song 1 of the two-song player, played successfully on
handle 7, then stopped. -/
theorem play_then_stop_releases_device_witness :
    (withList (initialMachine "p") [] [songAB, songCD] 2).player.isPlaying = 0 ∧
    songsFrom (withList (initialMachine "p") [] [songAB, songCD] 2).heap 2
      (withList (initialMachine "p") [] [songAB, songCD] 2).player.head =
      some [songAB, songCD] ∧
    (withList (initialMachine "p") [] [songAB, songCD] 2).player.numSongs =
      ([songAB, songCD] : List Song).length ∧
    (1 : Int) ≤ 1 ∧
    (1 : Int) ≤ (withList (initialMachine "p") [] [songAB, songCD] 2).player.numSongs ∧
    ∃ m1 m2 suffix,
      menuStep (fun _ => 0) 2 { choice := 2, songNumber := some 1, audio := audioOk }
        (withList (initialMachine "p") [] [songAB, songCD] 2) =
        some (Control.running, m1) ∧
      menuStep (fun _ => 0) 2 { choice := 3, songNumber := none, audio := audioOk } m1 =
        some (Control.running, m2) ∧
      m2.player.isPlaying = 0 ∧ m2.player.device = none ∧
      m2.trace = (withList (initialMachine "p") [] [songAB, songCD] 2).trace ++ suffix ∧
      openHandles [] suffix = [] ∧
      ∀ d, openCount d suffix ≤ closeCount d suffix :=
  ⟨rfl, by decide, by decide, by decide, by decide,
    play_then_stop_releases_device (fun _ => 0) 2
      (withList (initialMachine "p") [] [songAB, songCD] 2) [songAB, songCD] 1
      audioOk audioOk none rfl (by decide) (by decide) (by decide) (by decide)⟩

/-- C13: in every state that `main` reaches, for any file, any sequence of
menu inputs and any answers of the audio collaborators, no device handle is
open, and at every moment of the run so far (every prefix of the trace) at
most one handle is open.  Whenever `playSong` returns, on each of its exit
paths, the events it added leave no handle open: every handle it obtained
from `ao_open_live` has been passed to `ao_close`. -/
theorem one_device_handle_at_a_time (name : String) (file : Option (List Char))
    (rng : Nat → Int) (fuel : Nat) (inputs : List Typed) (ctl : Control) (m : Machine)
    (hrun : main name file rng fuel inputs = some (ctl, m))
    (audio : Audio) (filename : String) (s : Machine) :
    openHandles [] m.trace = [] ∧
    (∀ k, (openHandles [] (m.trace.take k)).length ≤ 1) ∧
    ∃ suffix, (playSong audio filename s).trace = s.trace ++ suffix ∧
      openHandles [] suffix = [] ∧
      (∀ k, (openHandles [] (suffix.take k)).length ≤ 1) ∧
      ∀ d, openCount d suffix ≤ closeCount d suffix := by
  have hbal : Balanced m.trace := by
    cases file with
    | none =>
      simp only [main, say, Option.some.injEq, Prod.mk.injEq] at hrun
      rw [← hrun.2]
      exact ⟨rfl, rfl⟩
    | some content =>
      obtain ⟨t, zs, p, -, e⟩ := main_some name content rng fuel inputs
      rw [e] at hrun
      obtain ⟨s1, h1, b1⟩ := menuLoop_trace _ _ _ _ _ _ hrun
      rw [h1]
      refine balanced_append _ _ ?_ b1
      exact balanced_append _ _ ⟨rfl, rfl⟩ (balanced_printf _ p)
  obtain ⟨ps, pt, -, -, -, pbal, pcnt, -⟩ := playSong_events audio filename s
  exact ⟨hbal.1, atMostOne_prefix _ _ hbal.2, ps, pt, pbal.1,
    atMostOne_prefix _ _ pbal.2, pcnt⟩

/-- Witness for C13: the load scenario, then song 1 played successfully on
handle 7, a stop, and a play of song 2 whose buffer allocation fails. -/
theorem one_device_handle_at_a_time_witness :
    ∃ ctl m,
      main "p" (some (fileOf sampleLines)) (fun _ => 0) 4
        [{ choice := 2, songNumber := some 1, audio := audioOk },
         { choice := 3, songNumber := none, audio := audioOk },
         { choice := 2, songNumber := some 2,
           audio := { sfOpenOk := true, aoDevice := some 9, bufferOk := false } }] =
        some (ctl, m) ∧
      openHandles [] m.trace = [] ∧
      (∀ k, (openHandles [] (m.trace.take k)).length ≤ 1) ∧
      ∃ suffix, (playSong audioOk "a.wav" soundingMachine).trace =
          soundingMachine.trace ++ suffix ∧
        openHandles [] suffix = [] ∧
        (∀ k, (openHandles [] (suffix.take k)).length ≤ 1) ∧
        ∀ d, openCount d suffix ≤ closeCount d suffix := by
  cases h : main "p" (some (fileOf sampleLines)) (fun _ => 0) 4
      [{ choice := 2, songNumber := some 1, audio := audioOk },
       { choice := 3, songNumber := none, audio := audioOk },
       { choice := 2, songNumber := some 2,
         audio := { sfOpenOk := true, aoDevice := some 9, bufferOk := false } }] with
  | none => exact absurd h (by decide)
  | some r =>
    exact ⟨r.1, r.2, rfl,
      one_device_handle_at_a_time "p" (some (fileOf sampleLines)) (fun _ => 0) 4 _
        r.1 r.2 h audioOk "a.wav" soundingMachine⟩

/-- C14, as stated, fails: on the player that is playing song 1, both menu
choice 3 and menu choice 2 return to `isPlaying = 0` and `device = NULL`, but
`currentSong` still points to the first node afterwards. -/
theorem stop_keeps_currentSong :
    soundingMachine.player.isPlaying = 1 ∧
    (menuStep (fun _ => 0) 2 { choice := 3, songNumber := none, audio := audioOk }
      soundingMachine).map (fun r => r.2.player.currentSong) = some (some 0) ∧
    (menuStep (fun _ => 0) 2 { choice := 2, songNumber := none, audio := audioOk }
      soundingMachine).map (fun r => r.2.player.currentSong) = some (some 0) := by
  decide

/-- C14 (amended): for every player with `isPlaying = 1`, the stop action
(menu choice 3, or menu choice 2 acting as toggle) calls `ao_close` on the
stored device handle when it is not `NULL`, prints "Song stopped." and
returns to `isPlaying = 0`, `device = NULL`; `currentSong`, the list (`head`,
`tail`, `numSongs`, the heap) and the `rand()` count are unchanged. -/
theorem stop_when_playing (rng : Nat → Int) (fuel : Nat) (sn : Option Int) (audio : Audio)
    (m : Machine) (hplay : m.player.isPlaying = 1) :
    menuStep rng fuel { choice := 3, songNumber := sn, audio := audio } m =
      some (Control.running, { m with
        player := { m.player with device := none, isPlaying := 0 }
        trace := m.trace ++ menuText ++
          (match m.player.device with
            | some dev => [Event.aoClose dev]
            | none => []) ++ [Event.printf "Song stopped.\n" []] }) ∧
    menuStep rng fuel { choice := 2, songNumber := sn, audio := audio } m =
      menuStep rng fuel { choice := 3, songNumber := sn, audio := audio } m := by
  have hne : m.player.isPlaying ≠ 0 := by rw [hplay]; decide
  have hne1 : ({ m with trace := m.trace ++ menuText } : Machine).player.isPlaying ≠ 0 := hne
  refine ⟨?_, ?_⟩
  · rw [menuStep_stop, stopAction_sounding { m with trace := m.trace ++ menuText } hne1]
  · rw [menuStep_stop, menuStep_toggle_stop rng fuel sn audio m hne]

/-- Witness for C14: the player that is playing song 1 on handle 7. -/
theorem stop_when_playing_witness :
    soundingMachine.player.isPlaying = 1 ∧
    (menuStep (fun _ => 0) 2 { choice := 3, songNumber := none, audio := audioOk }
        soundingMachine =
      some (Control.running, { soundingMachine with
        player := { soundingMachine.player with device := none, isPlaying := 0 }
        trace := soundingMachine.trace ++ menuText ++
          (match soundingMachine.player.device with
            | some dev => [Event.aoClose dev]
            | none => []) ++ [Event.printf "Song stopped.\n" []] }) ∧
    menuStep (fun _ => 0) 2 { choice := 2, songNumber := none, audio := audioOk }
        soundingMachine =
      menuStep (fun _ => 0) 2 { choice := 3, songNumber := none, audio := audioOk }
        soundingMachine) :=
  ⟨rfl, stop_when_playing (fun _ => 0) 2 none audioOk soundingMachine rfl⟩

/-! ### Properties of the selection across a session -/

/-- C15: in every state that `main` reaches while the menu loop is still
running, for any file contents, any generator and any sequence of menu
inputs (display, play with any number, stop, next, previous, shuffled
display, unknown choices), the player holds a well-formed list of
`numSongs` songs and `currentSong` is either `NULL` or the node reached
from `head` in `k - 1` steps for some `k` with `1 ≤ k ≤ numSongs`; it is
`NULL` whenever the playlist is empty. -/
theorem currentSong_null_or_in_playlist (name : String) (file : Option (List Char))
    (rng : Nat → Int) (fuel : Nat) (inputs : List Typed) (m : Machine)
    (hrun : main name file rng fuel inputs = some (Control.running, m)) :
    ∃ xs : List Song,
      songsFrom m.heap xs.length m.player.head = some xs ∧
      m.player.numSongs = (xs.length : Int) ∧
      (m.player.currentSong = none ∨
        ∃ k : Nat, 1 ≤ k ∧ (k : Int) ≤ m.player.numSongs ∧
          walk m.heap (k - 1) m.player.head = some m.player.currentSong ∧
          ∃ node, deref m.heap m.player.currentSong = some node ∧
            xs[k - 1]? = some node.song) ∧
      (m.player.numSongs = 0 → m.player.currentSong = none) := by
  cases file with
  | none =>
    simp only [main, say, Option.some.injEq, Prod.mk.injEq] at hrun
    cases hrun.1
  | some content =>
    obtain ⟨t, zs, -, -, e⟩ := main_some name content rng fuel inputs
    rw [e] at hrun
    have hinv : ListInv zs m :=
      menuLoop_listInv rng fuel inputs _ m zs (withList_listInv _ zs rfl) hrun
    have hsongs := listInv_songs zs m hinv zs.length (le_refl _)
    obtain ⟨-, -, -, hnum, hcur⟩ := id hinv
    refine ⟨zs, hsongs, hnum, ?_, ?_⟩
    · rcases hcur with hcur | ⟨j, hj, hcur⟩
      · exact Or.inl hcur
      · obtain ⟨hw, hd⟩ := listInv_walk zs m hinv j hj
        refine Or.inr ⟨j + 1, by omega, by rw [hnum]; exact_mod_cast hj, ?_, ?_⟩
        · rw [Nat.add_sub_cancel, hcur]; exact hw
        · refine ⟨_, by rw [hcur]; exact hd, ?_⟩
          rw [Nat.add_sub_cancel, List.getElem?_eq_getElem hj]
          rfl
    · intro h0
      rcases hcur with hcur | ⟨j, hj, -⟩
      · exact hcur
      · rw [hnum] at h0
        have : zs.length = 0 := by exact_mod_cast h0
        omega

/-- Witness for C15: the load scenario, then song 2 selected and played,
then a stop; the loop is still running and `currentSong` is on the list. -/
theorem currentSong_null_or_in_playlist_witness :
    ∃ m,
      main "p" (some (fileOf sampleLines)) (fun _ => 0) 4
        [{ choice := 2, songNumber := some 2, audio := audioOk },
         { choice := 3, songNumber := none, audio := audioOk }] =
        some (Control.running, m) ∧
      ∃ xs : List Song,
        songsFrom m.heap xs.length m.player.head = some xs ∧
        m.player.numSongs = (xs.length : Int) ∧
        (m.player.currentSong = none ∨
          ∃ k : Nat, 1 ≤ k ∧ (k : Int) ≤ m.player.numSongs ∧
            walk m.heap (k - 1) m.player.head = some m.player.currentSong ∧
            ∃ node, deref m.heap m.player.currentSong = some node ∧
              xs[k - 1]? = some node.song) ∧
        (m.player.numSongs = 0 → m.player.currentSong = none) := by
  have hc : (main "p" (some (fileOf sampleLines)) (fun _ => 0) 4
      [{ choice := 2, songNumber := some 2, audio := audioOk },
       { choice := 3, songNumber := none, audio := audioOk }]).map Prod.fst =
      some Control.running := by decide
  cases h : main "p" (some (fileOf sampleLines)) (fun _ => 0) 4
      [{ choice := 2, songNumber := some 2, audio := audioOk },
       { choice := 3, songNumber := none, audio := audioOk }] with
  | none => rw [h] at hc; cases hc
  | some r =>
    obtain ⟨c, m⟩ := r
    rw [h] at hc
    cases Option.some.inj hc
    exact ⟨m, rfl,
      currentSong_null_or_in_playlist "p" (some (fileOf sampleLines)) (fun _ => 0) 4 _ m h⟩

/-! ### Properties of the iterations of the shuffle loop -/

/-- C16: for a player whose list holds `n` songs with `numSongs = n`, and a
`rand()` that only returns non-negative values, the shuffle loop of
`displayShuffledPlaylist` reaches each iteration `i` with `0 ≤ i ≤ n - 2`
with `current` non-NULL, and there the modulus `numSongs - i` is at least 2,
the drawn index `r = i + rand() % (numSongs - i)` satisfies `i ≤ r ≤ n - 1`,
every node passed by the `r`-step walk from the head of the copy (and the
node it ends on) exists, the body of the iteration completes, and the whole
loop returns. -/
theorem shuffle_iteration_safe (rng : Nat → Int) (fuel : Nat) (m : Machine)
    (xs : List Song) (hsrc : songsFrom m.heap fuel m.player.head = some xs)
    (hnum : m.player.numSongs = (xs.length : Int)) (hrng : ∀ c, 0 ≤ rng c)
    (i : Nat) (hi : i + 2 ≤ xs.length) :
    ∃ h1 copiedHead s,
      copyPlaylist fuel m.heap m.player.head = some (h1, copiedHead) ∧
      shuffleIter rng m.player.numSongs copiedHead i
          { heap := h1, calls := m.randCalls, current := copiedHead, i := 0 } = some s ∧
      (∀ f, shuffleLoop rng m.player.numSongs copiedHead (i + f) h1 m.randCalls
            copiedHead 0 =
          shuffleLoop rng m.player.numSongs copiedHead f s.heap s.calls s.current s.i) ∧
      s.i = (i : Int) ∧ s.current ≠ none ∧
      2 ≤ m.player.numSongs - s.i ∧
      s.i ≤ s.i + (rng s.calls).tmod (m.player.numSongs - s.i) ∧
      s.i + (rng s.calls).tmod (m.player.numSongs - s.i) ≤ (xs.length : Int) - 1 ∧
      (∀ j, j ≤ (s.i + (rng s.calls).tmod (m.player.numSongs - s.i)).toNat →
        ∃ a node, walk s.heap j copiedHead = some (some a) ∧
          deref s.heap (some a) = some node) ∧
      (shuffleBody rng m.player.numSongs copiedHead s).isSome = true ∧
      ∃ res, shuffleLoop rng m.player.numSongs copiedHead fuel h1 m.randCalls
        copiedHead 0 = some res := by
  have hcopy := copyPlaylist_dll m.heap fuel xs m.player.head hsrc
  rw [headPtr_eq_ptrAt] at hcopy
  obtain ⟨zs, hz, hiter, hloop⟩ :=
    shuffleIter_dll rng hrng m.heap xs.length i xs m.randCalls 0 rfl (by omega)
  simp only [Nat.zero_add, Nat.cast_zero] at hiter hloop
  have hb := draw_in_range (rng (m.randCalls + i)) xs.length i (hrng _) hi
  refine ⟨_, _, _, hcopy, by rw [hnum]; exact hiter, by rw [hnum]; exact hloop, rfl, ?_, ?_,
    ?_, ?_, ?_, ?_, ?_⟩
  · rw [ptrAt, if_pos (by omega)]
    exact Option.some_ne_none _
  · show 2 ≤ m.player.numSongs - (i : Int)
    omega
  · show (i : Int) ≤ (i : Int) + (rng (m.randCalls + i)).tmod (m.player.numSongs - (i : Int))
    rw [hnum]; exact hb.1
  · show (i : Int) + (rng (m.randCalls + i)).tmod (m.player.numSongs - (i : Int)) ≤ _
    rw [hnum]; exact hb.2.1
  · intro j hj
    have hj1 : j ≤ ((i : Int) + (rng (m.randCalls + i)).tmod
        (m.player.numSongs - (i : Int))).toNat := hj
    rw [hnum] at hj1
    have hjn : j < zs.length := by have := hb.2.2; omega
    have hw := walk_dll_full m.heap zs 0 j (by omega)
    rw [if_pos (by omega), hz, Nat.zero_add] at hw
    have hd := deref_ptrAt m.heap zs j hjn
    rw [hz] at hd
    refine ⟨m.heap.length + j, segNode m.heap.length xs.length j zs[j], ?_, ?_⟩
    · show walk (m.heap ++ dll m.heap.length zs) j _ = _
      rw [hw, ptrAt, if_pos (by omega)]
    · show deref (m.heap ++ dll m.heap.length zs) _ = _
      rw [ptrAt, if_pos (by omega)] at hd
      exact hd
  · have hbody := shuffleBody_dll rng m.player.numSongs m.heap zs (m.randCalls + i) i
      (by omega) (by rw [hnum, hz]; exact hb.2.2)
    rw [hz] at hbody
    show (shuffleBody rng m.player.numSongs (ptrAt m.heap.length xs.length 0)
      { heap := m.heap ++ dll m.heap.length zs, calls := m.randCalls + i,
        current := ptrAt m.heap.length xs.length i, i := (i : Int) }).isSome = true
    rw [hbody]
    rfl
  · have hlen := songsFrom_length_le _ _ _ _ hsrc
    obtain ⟨res, hres⟩ := shuffleSongs_returns rng m.player.numSongs fuel xs m.randCalls 0
      (by omega) (by omega)
    have := shuffleLoop_dll rng m.player.numSongs m.heap fuel xs m.randCalls 0
    rw [hres] at this
    exact ⟨_, by exact_mod_cast this⟩

/-- Witness for C16: the three-song player, a generator returning
`c + 1` at its call `c`, and iteration `i = 1`. -/
theorem shuffle_iteration_safe_witness :
    (songsFrom (withList (initialMachine "p") [] [songAB, songCD, songEF] 3).heap 3
        (withList (initialMachine "p") [] [songAB, songCD, songEF] 3).player.head =
      some [songAB, songCD, songEF]) ∧
    ((withList (initialMachine "p") [] [songAB, songCD, songEF] 3).player.numSongs =
      (([songAB, songCD, songEF] : List Song).length : Int)) ∧
    (∀ c : Nat, (0 : Int) ≤ (fun k : Nat => (k : Int) + 1) c) ∧
    1 + 2 ≤ ([songAB, songCD, songEF] : List Song).length ∧
    ∃ h1 copiedHead s,
      copyPlaylist 3 (withList (initialMachine "p") [] [songAB, songCD, songEF] 3).heap
          (withList (initialMachine "p") [] [songAB, songCD, songEF] 3).player.head =
        some (h1, copiedHead) ∧
      shuffleIter (fun k : Nat => (k : Int) + 1)
          (withList (initialMachine "p") [] [songAB, songCD, songEF] 3).player.numSongs
          copiedHead 1
          { heap := h1,
            calls := (withList (initialMachine "p") [] [songAB, songCD, songEF] 3).randCalls,
            current := copiedHead, i := 0 } = some s ∧
      (∀ f, shuffleLoop (fun k : Nat => (k : Int) + 1)
            (withList (initialMachine "p") [] [songAB, songCD, songEF] 3).player.numSongs
            copiedHead (1 + f) h1
            (withList (initialMachine "p") [] [songAB, songCD, songEF] 3).randCalls
            copiedHead 0 =
          shuffleLoop (fun k : Nat => (k : Int) + 1)
            (withList (initialMachine "p") [] [songAB, songCD, songEF] 3).player.numSongs
            copiedHead f s.heap s.calls s.current s.i) ∧
      s.i = ((1 : Nat) : Int) ∧ s.current ≠ none ∧
      2 ≤ (withList (initialMachine "p") [] [songAB, songCD, songEF] 3).player.numSongs
          - s.i ∧
      s.i ≤ s.i + ((fun k : Nat => (k : Int) + 1) s.calls).tmod
        ((withList (initialMachine "p") [] [songAB, songCD, songEF] 3).player.numSongs
          - s.i) ∧
      s.i + ((fun k : Nat => (k : Int) + 1) s.calls).tmod
        ((withList (initialMachine "p") [] [songAB, songCD, songEF] 3).player.numSongs
          - s.i) ≤ (([songAB, songCD, songEF] : List Song).length : Int) - 1 ∧
      (∀ j, j ≤ (s.i + ((fun k : Nat => (k : Int) + 1) s.calls).tmod
          ((withList (initialMachine "p") [] [songAB, songCD, songEF] 3).player.numSongs
            - s.i)).toNat →
        ∃ a node, walk s.heap j copiedHead = some (some a) ∧
          deref s.heap (some a) = some node) ∧
      (shuffleBody (fun k : Nat => (k : Int) + 1)
        (withList (initialMachine "p") [] [songAB, songCD, songEF] 3).player.numSongs
        copiedHead s).isSome = true ∧
      ∃ res, shuffleLoop (fun k : Nat => (k : Int) + 1)
        (withList (initialMachine "p") [] [songAB, songCD, songEF] 3).player.numSongs
        copiedHead 3 h1
        (withList (initialMachine "p") [] [songAB, songCD, songEF] 3).randCalls
        copiedHead 0 = some res :=
  ⟨by decide, by decide, fun c => by show (0 : Int) ≤ (c : Int) + 1; omega, by decide,
    shuffle_iteration_safe (fun k : Nat => (k : Int) + 1) 3
      (withList (initialMachine "p") [] [songAB, songCD, songEF] 3)
      [songAB, songCD, songEF] (by decide) (by decide) (fun c => by show (0 : Int) ≤ (c : Int) + 1; omega) 1 (by decide)⟩

/-! ## Properties of the list structure -/

/-- C17: for every list from `head` that is a `NULL`-terminated chain of
nodes with songs `xs`, `copyPlaylist` returns (with fuel for the chain) a
list whose nodes are all freshly allocated (their addresses are the first
unused ones, `|h|, |h|+1, ...`), whose songs are `xs` in the same order,
`NULL` exactly when the list is empty, with consistent links (the `next` of
node `j` is node `j+1`, whose `prev` is node `j`; the first `prev` and the
last `next` are `NULL`); every cell of the old heap, hence the source list,
is unchanged. -/
theorem copyPlaylist_deep_copy (h : Heap) (fuel : Nat) (head : Ptr) (xs : List Song)
    (hsrc : songsFrom h fuel head = some xs) :
    ∃ h1 copy, copyPlaylist fuel h head = some (h1, copy) ∧
      (copy = none ↔ xs = []) ∧
      songsFrom h1 fuel copy = some xs ∧
      nodesFrom h1 fuel copy = some (List.range' h.length xs.length) ∧
      (∀ j, j < xs.length →
        ∃ node, deref h1 (some (h.length + j)) = some node ∧
          xs[j]? = some node.song ∧
          node.next = (if j + 1 < xs.length then some (h.length + j + 1) else none) ∧
          node.prev = (if j = 0 then none else some (h.length + j - 1)) ∧
          ∀ b, node.next = some b →
            ∃ nb, deref h1 (some b) = some nb ∧ nb.prev = some (h.length + j)) ∧
      h1.length = h.length + xs.length ∧
      (∀ a, a < h.length → h1[a]? = h[a]?) ∧
      songsFrom h1 fuel head = some xs := by
  have hlen := songsFrom_length_le _ _ _ _ hsrc
  refine ⟨_, _, copyPlaylist_dll h fuel xs head hsrc, ?_, ?_, ?_, ?_, ?_, ?_, ?_⟩
  · cases xs <;> simp [headPtr]
  · have := songsFrom_dll h xs fuel 0 (by omega)
    simpa [headPtr_eq_ptrAt] using this
  · have := nodesFrom_dll h xs fuel 0 (by omega)
    simpa [headPtr_eq_ptrAt] using this
  · intro j hj
    obtain ⟨node, h1, h2, h3, h4, h5⟩ := dll_links h xs j hj
    exact ⟨node, h1, by rw [List.getElem?_eq_getElem hj, h2], h3, h4, h5⟩
  · simp [dll_length]
  · intro a ha
    exact List.getElem?_append_left ha
  · exact songsFrom_append_left _ _ _ _ _ hsrc

/-- Witness for C17: the three-song playlist. -/
theorem copyPlaylist_deep_copy_witness :
    songsFrom (withList (initialMachine "p") [] [songAB, songCD, songEF] 3).heap 3
      (some 0) = some [songAB, songCD, songEF] ∧
    ∃ h1 copy, copyPlaylist 3 (withList (initialMachine "p") [] [songAB, songCD, songEF] 3).heap
        (some 0) = some (h1, copy) ∧
      (copy = none ↔ [songAB, songCD, songEF] = []) ∧
      songsFrom h1 3 copy = some [songAB, songCD, songEF] ∧
      nodesFrom h1 3 copy = some (List.range'
        (withList (initialMachine "p") [] [songAB, songCD, songEF] 3).heap.length
        ([songAB, songCD, songEF] : List Song).length) ∧
      (∀ j, j < ([songAB, songCD, songEF] : List Song).length →
        ∃ node, deref h1 (some
            ((withList (initialMachine "p") [] [songAB, songCD, songEF] 3).heap.length + j)) =
            some node ∧
          [songAB, songCD, songEF][j]? = some node.song ∧
          node.next = (if j + 1 < ([songAB, songCD, songEF] : List Song).length then
            some ((withList (initialMachine "p") [] [songAB, songCD, songEF] 3).heap.length +
              j + 1) else none) ∧
          node.prev = (if j = 0 then none else
            some ((withList (initialMachine "p") [] [songAB, songCD, songEF] 3).heap.length +
              j - 1)) ∧
          ∀ b, node.next = some b →
            ∃ nb, deref h1 (some b) = some nb ∧ nb.prev = some
              ((withList (initialMachine "p") [] [songAB, songCD, songEF] 3).heap.length + j)) ∧
      h1.length = (withList (initialMachine "p") [] [songAB, songCD, songEF] 3).heap.length +
        ([songAB, songCD, songEF] : List Song).length ∧
      (∀ a, a < (withList (initialMachine "p") [] [songAB, songCD, songEF] 3).heap.length →
        h1[a]? = (withList (initialMachine "p") [] [songAB, songCD, songEF] 3).heap[a]?) ∧
      songsFrom h1 3 (some 0) = some [songAB, songCD, songEF] :=
  ⟨by decide,
    copyPlaylist_deep_copy (withList (initialMachine "p") [] [songAB, songCD, songEF] 3).heap
      3 (some 0) [songAB, songCD, songEF] (by decide)⟩

/-- C18: for every buffer that `fgets` hands to the parser, the song built
from it, if any, has `title`, `artist`, `duration` and `filename` each of
length between 1 and 99; and for every file the load loop returns a playlist
all of whose songs have the four fields within these bounds. -/
theorem loaded_fields_bounded :
    (∀ line song, parseLine line = some song →
      FieldOk song.title ∧ FieldOk song.artist ∧ FieldOk song.duration ∧
        FieldOk song.filename) ∧
    (∀ (name : String) (file : List Char),
      ∃ m xs, loadPlaylist name file = some m ∧
        m.player.numSongs = xs.length ∧
        songsFrom m.heap xs.length m.player.head = some xs ∧
        ∀ s ∈ xs, FieldOk s.title ∧ FieldOk s.artist ∧ FieldOk s.duration ∧
          FieldOk s.filename) ∧
    (∀ f : String, FieldOk f ↔ 1 ≤ f.length ∧ f.length ≤ 99) := by
  refine ⟨parseLine_fields, ?_, fun f => Iff.rfl⟩
  intro name file
  obtain ⟨t, zs, e, -, q⟩ := loadLoop_withList file.length file (initialMachine name)
    [] [] 0 (le_refl _)
  have hinit : withList (initialMachine name) [] [] 0 = initialMachine name := rfl
  rw [hinit] at e
  refine ⟨_, zs, e, by simp [withList], ?_, ?_⟩
  · have := songsFrom_dll [] zs zs.length 0 (by omega)
    simpa [withList, headPtr_eq_ptrAt] using this
  · intro s hs
    obtain ⟨line, hl⟩ := q s hs
    exact parseLine_fields line s hl

/-- C19: after any sequence of `addSong` calls on an initially empty player
the list is well formed.  `head = NULL` iff `tail = NULL` iff `numSongs = 0`.
The nodes reached from `head` along `next` (with fuel for them) number
`numSongs`, the first is `head` and the last is `tail`, and every one of
them that has a successor `b` satisfies `b->prev =` that node.  When the
list is not empty, `head->prev = NULL` and `tail->next = NULL`. -/
theorem addSong_list_wellformed (m0 : Machine) (xs : List Song)
    (hhead : m0.player.head = none) (htail : m0.player.tail = none)
    (hcount : m0.player.numSongs = 0) :
    ∃ m, addSongs m0 xs = some m ∧
      (m.player.head = none ↔ m.player.tail = none) ∧
      (m.player.tail = none ↔ m.player.numSongs = 0) ∧
      (∀ fuel, xs.length ≤ fuel →
        ∃ nodes, nodesFrom m.heap fuel m.player.head = some nodes ∧
          (nodes.length : Int) = m.player.numSongs ∧
          nodes.head? = m.player.head ∧ nodes.getLast? = m.player.tail ∧
          ∀ a ∈ nodes, ∃ node, deref m.heap (some a) = some node ∧
            ∀ b, node.next = some b →
              ∃ nb, deref m.heap (some b) = some nb ∧ nb.prev = some a) ∧
      (m.player.numSongs ≠ 0 →
        (∃ hn, deref m.heap m.player.head = some hn ∧ hn.prev = none) ∧
        ∃ tn, deref m.heap m.player.tail = some tn ∧ tn.next = none) := by
  have hm0 := withList_nil m0 hhead htail
  have hrun := addSongs_withList m0 m0.heap [] xs m0.player.numSongs
  rw [hm0, List.nil_append, hcount, zero_add] at hrun
  refine ⟨_, hrun, ?_, ?_, ?_, ?_⟩
  · cases xs <;> simp [withList, headPtr, tailPtr]
  · cases xs with
    | nil => simp [withList, tailPtr]
    | cons x xs =>
      simp only [withList, tailPtr, List.length_cons]
      constructor
      · intro h; simp at h
      · intro h
        exfalso
        have : (0 : Int) ≤ (xs.length : Int) := Int.natCast_nonneg _
        push_cast at h
        omega
  · intro fuel hfuel
    have hn := nodesFrom_dll m0.heap xs fuel 0 (by omega)
    rw [← headPtr_eq_ptrAt, Nat.add_zero, Nat.sub_zero] at hn
    refine ⟨_, hn, by simp [withList], ?_, ?_, ?_⟩
    · rw [List.head?_range']
      cases xs <;> simp [withList, headPtr]
    · rw [List.getLast?_range']
      cases xs <;> simp [withList, tailPtr]
    · intro a ha
      rw [List.mem_range'_1] at ha
      obtain ⟨node, h1, -, -, -, h5⟩ := dll_links m0.heap xs (a - m0.heap.length) (by omega)
      have e : m0.heap.length + (a - m0.heap.length) = a := by omega
      rw [e] at h1 h5
      exact ⟨node, h1, h5⟩
  · intro hne
    cases xs with
    | nil => simp [withList] at hne
    | cons x xs =>
      constructor
      · obtain ⟨node, h1, -, -, h4, -⟩ := dll_links m0.heap (x :: xs) 0 (by simp)
        exact ⟨node, by simpa [withList, headPtr] using h1, by simpa using h4⟩
      · obtain ⟨node, h1, -, h3, -, -⟩ :=
          dll_links m0.heap (x :: xs) ((x :: xs).length - 1) (by simp)
        refine ⟨node, ?_, ?_⟩
        · simpa [withList, tailPtr, Nat.add_sub_assoc] using h1
        · simpa using h3

/-- Witness for C19: two songs appended to the initial player of `main`. -/
theorem addSong_list_wellformed_witness :
    (initialMachine "p").player.head = none ∧ (initialMachine "p").player.tail = none ∧
    (initialMachine "p").player.numSongs = 0 ∧
    ∃ m, addSongs (initialMachine "p") [songAB, songCD] = some m ∧
      (m.player.head = none ↔ m.player.tail = none) ∧
      (m.player.tail = none ↔ m.player.numSongs = 0) ∧
      (∀ fuel, ([songAB, songCD] : List Song).length ≤ fuel →
        ∃ nodes, nodesFrom m.heap fuel m.player.head = some nodes ∧
          (nodes.length : Int) = m.player.numSongs ∧
          nodes.head? = m.player.head ∧ nodes.getLast? = m.player.tail ∧
          ∀ a ∈ nodes, ∃ node, deref m.heap (some a) = some node ∧
            ∀ b, node.next = some b →
              ∃ nb, deref m.heap (some b) = some nb ∧ nb.prev = some a) ∧
      (m.player.numSongs ≠ 0 →
        (∃ hn, deref m.heap m.player.head = some hn ∧ hn.prev = none) ∧
        ∃ tn, deref m.heap m.player.tail = some tn ∧ tn.next = none) :=
  ⟨rfl, rfl, rfl, addSong_list_wellformed (initialMachine "p") [songAB, songCD] rfl rfl rfl⟩

/-- C20 (the code departs from the specification): on the two-song player,
menu choice 2 with song 1 played successfully on the device handle 7, then
menu choice 3.  `ao_open_live` returns the handle once and `ao_close` is
called on it twice: by `playSong` (line 110), which leaves the closed handle
in `player.device`, and again by `stopSong` (line 116). -/
theorem stop_after_play_closes_twice :
    (menuLoop (fun _ => 0) 2
      [{ choice := 2, songNumber := some 1, audio := audioOk },
       { choice := 3, songNumber := none, audio := audioOk }]
      (withList (initialMachine "p") [] [songAB, songCD] 2)).map
        (fun r => (openCount 7 r.2.trace, closeCount 7 r.2.trace)) = some (1, 2) ∧
    (menuStep (fun _ => 0) 2 { choice := 2, songNumber := some 1, audio := audioOk }
      (withList (initialMachine "p") [] [songAB, songCD] 2)).map
        (fun r => (closeCount 7 r.2.trace, r.2.player.device)) = some (1, some 7) ∧
    (stopSong
      { soundingMachine with trace := [Event.aoOpenLive (some 7), Event.aoClose 7] }).trace =
      [Event.aoOpenLive (some 7), Event.aoClose 7, Event.aoClose 7,
       Event.printf "Song stopped.\n" []] := by
  decide

end MusicPlayerC
